import Mathlib

/-!
# Verification of the BVH builder of `ray_tracer_2` (`src/core/bvh.rs`)

This file gives a shallow embedding of the CPU-side BVH builder and its
GPU-packing layer, and proves (or refutes) the specification claims about it.

Modelling conventions:

* `f32` is modelled by the type `F`: exact rationals plus the IEEE special
  values `+inf`, `-inf` and `NaN`.  The special-value semantics (NaN
  propagation through `+`, `*`, `/`; comparisons with NaN being false;
  `f32::min`/`f32::max` ignoring NaN; `Vec3::INFINITY` in the `Aabb` default)
  are modelled faithfully, since the builder's control flow depends on them.
  Finite arithmetic is exact (no rounding/overflow), the standard idealisation.
* Rust `Vec<T>` is a Lean `List`; index reads use `getD` (in the source an
  out-of-bounds read panics; all verified statements stay in bounds).
* `u32`/`u64`/`usize` counters are `ℕ` (no theorem depends on wrap-around).
* `&mut` out-parameters become extra arguments / returned values.
* `BVHStats.start_time : Instant` is wall-clock time, outside the model; it is
  kept as a `Unit` placeholder.  No claim concerns it.
* glam's `Mat4` operations (`from_scale_rotation_translation`, `inverse`) are
  external library code, not part of this repository; they are modelled as a
  free term algebra (`Mat4`), which keeps `MeshUniform` faithful while no
  claim depends on matrix arithmetic.
-/

/-!
The `Rat` arithmetic of Batteries (`Rat.add`, `Rat.sub`, `Rat.mul`,
`Rat.inv`) is marked `@[irreducible]`, which blocks `decide`-style
evaluation.  The embedding therefore uses the following `mkRat`-based
implementations, each proved equal to the ordinary `ℚ` operation.
-/

/-- Exact rational addition, implemented with `mkRat` so that it reduces in
the kernel; `qadd_eq` proves it is ordinary `ℚ` addition. -/
def qadd (a b : ℚ) : ℚ :=
  mkRat (a.num * (b.den : ℤ) + b.num * (a.den : ℤ)) (a.den * b.den)

/-- Exact rational subtraction (see `qadd`); `qsub_eq` relates it to `-`. -/
def qsub (a b : ℚ) : ℚ :=
  mkRat (a.num * (b.den : ℤ) - b.num * (a.den : ℤ)) (a.den * b.den)

/-- Exact rational multiplication (see `qadd`); `qmul_eq` relates it to `*`. -/
def qmul (a b : ℚ) : ℚ :=
  mkRat (a.num * b.num) (a.den * b.den)

/-- Exact rational division, implemented with `mkRat` so that it reduces in
the kernel; `qdiv_eq` proves it is ordinary `ℚ` division. -/
def qdiv (a b : ℚ) : ℚ :=
  if 0 ≤ b.num then mkRat (a.num * (b.den : ℤ)) ((a.den : ℤ) * b.num).toNat
  else mkRat (-(a.num * (b.den : ℤ))) ((a.den : ℤ) * -b.num).toNat

/-- Idealised IEEE `f32` value: exact finite rationals plus `±inf` and `NaN`. -/
inductive F where
  | fin : ℚ → F
  | pinf : F
  | ninf : F
  | nan : F
deriving DecidableEq, Repr

namespace F

/-- IEEE negation. -/
def neg : F → F
  | fin q => fin (-q)
  | pinf => ninf
  | ninf => pinf
  | nan => nan

/-- IEEE addition (NaN propagates; `inf + -inf = NaN`). -/
def add : F → F → F
  | nan, _ => nan
  | _, nan => nan
  | fin a, fin b => fin (qadd a b)
  | fin _, pinf => pinf
  | fin _, ninf => ninf
  | pinf, fin _ => pinf
  | ninf, fin _ => ninf
  | pinf, pinf => pinf
  | ninf, ninf => ninf
  | pinf, ninf => nan
  | ninf, pinf => nan

/-- IEEE subtraction. -/
def sub (a b : F) : F := add a (neg b)

/-- IEEE multiplication (NaN propagates; `0 * ±inf = NaN`). -/
def mul : F → F → F
  | nan, _ => nan
  | _, nan => nan
  | fin a, fin b => fin (qmul a b)
  | fin a, pinf => if a = 0 then nan else if 0 < a then pinf else ninf
  | fin a, ninf => if a = 0 then nan else if 0 < a then ninf else pinf
  | pinf, fin b => if b = 0 then nan else if 0 < b then pinf else ninf
  | ninf, fin b => if b = 0 then nan else if 0 < b then ninf else pinf
  | pinf, pinf => pinf
  | pinf, ninf => ninf
  | ninf, pinf => ninf
  | ninf, ninf => pinf

/-- IEEE division (the embedding has a single zero, so the sign-of-zero
subtleties of `x / 0.0` collapse to the positive-zero case). -/
def div : F → F → F
  | nan, _ => nan
  | _, nan => nan
  | fin a, fin b =>
      if b = 0 then (if a = 0 then nan else if 0 < a then pinf else ninf)
      else fin (qdiv a b)
  | fin _, pinf => fin 0
  | fin _, ninf => fin 0
  | pinf, fin b => if 0 ≤ b then pinf else ninf
  | ninf, fin b => if 0 ≤ b then ninf else pinf
  | pinf, pinf => nan
  | pinf, ninf => nan
  | ninf, pinf => nan
  | ninf, ninf => nan

/-- IEEE strict comparison `<`: any comparison with NaN is false. -/
def lt : F → F → Bool
  | nan, _ => false
  | _, nan => false
  | ninf, ninf => false
  | ninf, _ => true
  | fin _, ninf => false
  | fin a, fin b => decide (a < b)
  | fin _, pinf => true
  | pinf, _ => false

/-- IEEE comparison `≤`: any comparison with NaN is false. -/
def le : F → F → Bool
  | nan, _ => false
  | _, nan => false
  | ninf, _ => true
  | fin _, ninf => false
  | fin a, fin b => decide (a ≤ b)
  | fin _, pinf => true
  | pinf, pinf => true
  | pinf, _ => false

/-- IEEE equality test (`==` on `f32`): NaN equals nothing. -/
def feq : F → F → Bool
  | nan, _ => false
  | _, nan => false
  | fin a, fin b => decide (a = b)
  | pinf, pinf => true
  | ninf, ninf => true
  | _, _ => false

/-- Rust `f32::min`: returns the other operand when one is NaN. -/
def fmin : F → F → F
  | nan, b => b
  | a, nan => a
  | a, b => if le a b then a else b

/-- Rust `f32::max`: returns the other operand when one is NaN. -/
def fmax : F → F → F
  | nan, b => b
  | a, nan => a
  | a, b => if le b a then a else b

/-- Rust `f32::ceil` (NaN and infinities are fixed points). -/
def fceil : F → F
  | fin q => fin (⌈q⌉ : ℤ)
  | x => x

/-- Rust saturating cast `as u32`: NaN and negatives go to 0, overflow
saturates at `u32::MAX`; truncation towards zero is `floor` for positives. -/
def toU32 : F → ℕ
  | nan => 0
  | ninf => 0
  | pinf => 4294967295
  | fin q => if q ≤ 0 then 0 else min (⌊q⌋ : ℤ).toNat 4294967295

/-- `f32::MAX` = `(2 - 2⁻²³)·2¹²⁷ = 2¹²⁸ - 2¹⁰⁴` (written as an explicit
integer literal so that it reduces in the kernel). -/
def fMAX : F := fin (mkRat 340282346638528859811704183484516925440 1)

/-- `f32::MIN` = `-f32::MAX`. -/
def fMIN : F := fin (mkRat (-340282346638528859811704183484516925440) 1)

end F

instance : Inhabited F := ⟨F.fin 0⟩

/-- glam `Vec3` over the idealised `f32`. -/
structure Vec3 where
  x : F
  y : F
  z : F
deriving DecidableEq, Repr

namespace Vec3

/-- Componentwise addition. -/
def add (a b : Vec3) : Vec3 := ⟨F.add a.x b.x, F.add a.y b.y, F.add a.z b.z⟩

/-- Componentwise subtraction. -/
def sub (a b : Vec3) : Vec3 := ⟨F.sub a.x b.x, F.sub a.y b.y, F.sub a.z b.z⟩

/-- glam `Vec3::min` (componentwise `f32::min`). -/
def minV (a b : Vec3) : Vec3 :=
  ⟨F.fmin a.x b.x, F.fmin a.y b.y, F.fmin a.z b.z⟩

/-- glam `Vec3::max` (componentwise `f32::max`). -/
def maxV (a b : Vec3) : Vec3 :=
  ⟨F.fmax a.x b.x, F.fmax a.y b.y, F.fmax a.z b.z⟩

/-- `Vec3 * f32` (componentwise scale). -/
def smul (a : Vec3) (s : F) : Vec3 := ⟨F.mul a.x s, F.mul a.y s, F.mul a.z s⟩

/-- Component access `v[axis]` (the source only ever indexes with 0, 1, 2). -/
def get (a : Vec3) : ℕ → F
  | 0 => a.x
  | 1 => a.y
  | _ => a.z

/-- Componentwise `≤` as a Bool (used only in statements, not in the code). -/
def fle (a b : Vec3) : Bool := F.le a.x b.x && F.le a.y b.y && F.le a.z b.z

end Vec3

instance : Inhabited Vec3 := ⟨⟨F.fin 0, F.fin 0, F.fin 0⟩⟩

/-- `[f32::MAX; 3]`. -/
def vMAX : Vec3 := ⟨F.fMAX, F.fMAX, F.fMAX⟩

/-- `[f32::MIN; 3]`. -/
def vMIN : Vec3 := ⟨F.fMIN, F.fMIN, F.fMIN⟩

/-- `Vec3::INFINITY`. -/
def vPINF : Vec3 := ⟨F.pinf, F.pinf, F.pinf⟩

/-- `Vec3::NEG_INFINITY`. -/
def vNINF : Vec3 := ⟨F.ninf, F.ninf, F.ninf⟩

/-- `core::mesh::Vertex`: position, normal, uv. -/
structure Vertex where
  pos : Vec3
  normal : Vec3
  uv0 : F
  uv1 : F
deriving DecidableEq, Repr

instance : Inhabited Vertex := ⟨⟨default, default, F.fin 0, F.fin 0⟩⟩

/-- `BVHTriangle`: per-triangle build record.  The source stores the
back-reference `i` as `i32`; it always holds the (nonnegative) base position
of the triangle in the index buffer, so it is modelled as `ℕ`. -/
structure BVHTriangle where
  centroid : Vec3
  min : Vec3
  max : Vec3
  i : ℕ
deriving DecidableEq, Repr

instance : Inhabited BVHTriangle := ⟨⟨default, default, default, 0⟩⟩

/-- `PackedTriangle`: flattened GPU-ready triangle record. -/
structure PackedTriangle where
  v1 : Vec3
  uv10 : F
  v2 : Vec3
  uv11 : F
  v3 : Vec3
  uv20 : F
  n1 : Vec3
  uv21 : F
  n2 : Vec3
  uv30 : F
  n3 : Vec3
  uv31 : F
deriving DecidableEq, Repr

/-- `PackedTriangle::new`. -/
def PackedTriangle.new (v1 v2 v3 : Vertex) : PackedTriangle :=
  { v1 := v1.pos
    v2 := v2.pos
    v3 := v3.pos
    n1 := v1.normal
    n2 := v2.normal
    n3 := v3.normal
    uv10 := v1.uv0
    uv11 := v1.uv1
    uv20 := v2.uv0
    uv21 := v2.uv1
    uv30 := v3.uv0
    uv31 := v3.uv1 }

/-- BVH `Node` (padding fields dropped). -/
structure Node where
  left : ℕ
  right : ℕ
  first : ℕ
  count : ℕ
  aabb_min : Vec3
  aabb_max : Vec3
deriving DecidableEq, Repr

instance : Inhabited Node := ⟨⟨0, 0, 0, 0, default, default⟩⟩

/-- `Node::cost`: half surface area of the box times the triangle count. -/
def Node.cost (nd : Node) : F :=
  let e := Vec3.sub nd.aabb_max nd.aabb_min
  F.mul (F.add (F.add (F.mul e.x e.y) (F.mul e.y e.z)) (F.mul e.x e.z))
    (F.fin nd.count)

/-- `Aabb`. -/
structure Aabb where
  min : Vec3
  max : Vec3
deriving DecidableEq, Repr

/-- `Aabb::default`: `min = Vec3::INFINITY`, `max = Vec3::NEG_INFINITY`. -/
instance : Inhabited Aabb := ⟨⟨vPINF, vNINF⟩⟩

/-- `Aabb::grow`. -/
def Aabb.grow (b : Aabb) (p : BVHTriangle) : Aabb :=
  { min := Vec3.minV b.min p.min, max := Vec3.maxV b.max p.max }

/-- `Aabb::half_area`. -/
def Aabb.half_area (b : Aabb) : F :=
  let e := Vec3.sub b.max b.min
  F.add (F.add (F.mul e.x e.y) (F.mul e.y e.z)) (F.mul e.x e.z)

/-- Build quality setting. -/
inductive Quality where
  | Low
  | High
  | Disabled
deriving DecidableEq, Repr

/-- `BVHStats` (the `Instant` start time is outside the model). -/
structure BVHStats where
  start_time : Unit
  leaf_count : ℕ
  leaf_min_depth : ℕ
  leaf_max_depth : ℕ
  sum_depth : F
  min_tris : ℕ
  max_tris : ℕ
  sum_tris : F
  node_count : ℕ
deriving DecidableEq, Repr

/-- `BVHStats::start`. -/
def BVHStats.start : BVHStats :=
  { start_time := ()
    leaf_count := 0
    leaf_min_depth := 4294967295
    leaf_max_depth := 0
    sum_depth := F.fin 0
    min_tris := 4294967295
    max_tris := 0
    sum_tris := F.fin 0
    node_count := 0 }

/-- `BVHStats::record_node`. -/
def BVHStats.record_node (s : BVHStats) : BVHStats :=
  { s with node_count := s.node_count + 1 }

/-- `BVHStats::record_leaf_node`. -/
def BVHStats.record_leaf_node (s : BVHStats) (triangle_count depth : ℕ) :
    BVHStats :=
  let s := s.record_node
  { s with
    leaf_count := s.leaf_count + 1
    sum_depth := F.add s.sum_depth (F.fin depth)
    leaf_min_depth := min s.leaf_min_depth depth
    leaf_max_depth := max s.leaf_max_depth depth
    sum_tris := F.add s.sum_tris (F.fin triangle_count)
    max_tris := max s.max_tris triangle_count
    min_tris := min s.min_tris triangle_count }

/-- The `BVH` struct. -/
structure BVH where
  build_triangles : List BVHTriangle
  packed_triangles : List PackedTriangle
  nodes : List Node
  n_nodes : ℕ
  quality : Quality
deriving DecidableEq, Repr

namespace BVH

/-- `BVH::MAX_NODES`. -/
def MAX_NODES : ℕ := 520000

/-- `BVH::MAX_DEPTH`. -/
def MAX_DEPTH : ℕ := 32

/-- `BVH::TEST_SPLITS`. -/
def TEST_SPLITS : ℕ := 50

/-- `BVH::empty`. -/
def empty : BVH :=
  { build_triangles := []
    packed_triangles := []
    nodes := []
    n_nodes := 0
    quality := .Disabled }

/-- `BVH::fit_bounds` (the two `&mut [f32; 3]` become a returned pair; the
per-axis loop is the componentwise `min`/`max`). -/
def fit_bounds (mn mx : Vec3) (tri : BVHTriangle) : Vec3 × Vec3 :=
  (Vec3.minV mn tri.min, Vec3.maxV mx tri.max)

/-- Accumulator of the `evaluate_sah` scan (its four locals). -/
structure SahAcc where
  left_bounds : Aabb
  right_bounds : Aabb
  left_count : F
  right_count : F
deriving DecidableEq, Repr

/-- One step of the `evaluate_sah` scan over the triangle range. -/
def sahStep (s : BVH) (axis : ℕ) (pos : F) (acc : SahAcc) (i : ℕ) : SahAcc :=
  let tri := s.build_triangles.getD i default
  if F.lt (tri.centroid.get axis) pos then
    { acc with
      left_count := F.add acc.left_count (F.fin 1)
      left_bounds := acc.left_bounds.grow tri }
  else
    { acc with
      right_count := F.add acc.right_count (F.fin 1)
      right_bounds := acc.right_bounds.grow tri }

/-- `BVH::evaluate_sah`. -/
def evaluate_sah (s : BVH) (axis : ℕ) (pos : F) (start count : ℕ) : F :=
  let acc := (List.range' start count).foldl (sahStep s axis pos)
    ⟨default, default, F.fin 0, F.fin 0⟩
  F.add (F.mul acc.left_count acc.left_bounds.half_area)
    (F.mul acc.right_count acc.right_bounds.half_area)

/-- Inner loop body of the `Quality::High` arm of `find_best_split`: test
one evenly spaced candidate position `i` on axis `a` and keep it when its
SAH cost beats the best so far.  The running `(axis, split_pos, best_cost)`
triple is `st2`. -/
def highSplitStep (s : BVH) (a : ℕ) (axis_min axis_size : F)
    (n_split_tests : ℕ) (start count : ℕ) (st2 : ℕ × F × F) (i : ℕ) :
    ℕ × F × F :=
  let split_t :=
    F.div (F.fin ((i + 1 : ℕ) : ℚ)) (F.add (F.fin n_split_tests) (F.fin 1))
  let test_split_pos := F.add axis_min (F.mul axis_size split_t)
  let cost := s.evaluate_sah a test_split_pos start count
  if F.lt cost st2.2.2 then (a, test_split_pos, cost) else st2

/-- Outer loop body of the `Quality::High` arm of `find_best_split`: skip a
zero-extent axis (`continue`), otherwise run the proportionally scaled
number of split tests on axis `a`. -/
def highAxisStep (s : BVH) (node : Node) (bounds : Vec3) (max_axis : F)
    (start count : ℕ) (st : ℕ × F × F) (a : ℕ) : ℕ × F × F :=
  let axis_size := bounds.get a
  let axis_min := node.aabb_min.get a
  if F.feq axis_size (F.fin 0) then st
  else
    let n_split_tests :=
      max 1 (min (F.toU32 (F.fceil
        (F.mul (F.div axis_size max_axis) (F.fin TEST_SPLITS))))
        TEST_SPLITS)
    (List.range n_split_tests).foldl
      (highSplitStep s a axis_min axis_size n_split_tests start count) st

/-- `BVH::find_best_split`.  The two `&mut` out-parameters `axis` and
`split_pos` become the `axis0`/`split0` arguments (their values at the call
site) and the first two components of the returned triple; the returned `f32`
cost is the third component. -/
def find_best_split (s : BVH) (node : Node) (axis0 : ℕ) (split0 : F)
    (start count : ℕ) : ℕ × F × F :=
  if node.count ≤ 1 then (0, F.fin 0, F.pinf)
  else
    let bounds := Vec3.sub node.aabb_max node.aabb_min
    match s.quality with
    | .Low =>
        let axis :=
          if F.lt bounds.y bounds.x && F.lt bounds.z bounds.x then 0
          else if F.lt bounds.z bounds.y then 1 else 2
        let split_pos :=
          F.add (node.aabb_min.get axis)
            (F.mul (bounds.get axis) (F.fin (mkRat 1 2)))
        (axis, split_pos, s.evaluate_sah axis split_pos start count)
    | .High =>
        let max_axis := F.fmax bounds.x (F.fmax bounds.y bounds.z)
        (List.range 3).foldl
          (highAxisStep s node bounds max_axis start count)
          (axis0, split0, F.pinf)
    | .Disabled => (axis0, split0, F.pinf)

end BVH

/-- Swap the entries at positions `i` and `j` (`Vec::swap`); total: a swap
with an out-of-range index leaves the list unchanged (the source never swaps
out of range). -/
def lswap {α : Type} (l : List α) (i j : ℕ) : List α :=
  match l.get? i, l.get? j with
  | some a, some b => (l.set i b).set j a
  | _, _ => l

/-- Accumulator of the in-place partition loop in `BVH::subdivide` (the
triangle array plus the six `&mut` locals). -/
structure PartAcc where
  tris : List BVHTriangle
  left_min : Vec3
  left_max : Vec3
  right_min : Vec3
  right_max : Vec3
  left_count : ℕ
deriving DecidableEq, Repr

/-- The partition loop of `BVH::subdivide`
(`for i in tri_global_start..tri_global_start + n_tris`), as structural
recursion on the number of remaining iterations; `i` is the current index. -/
def partitionGo (axis : ℕ) (split_pos : F) (start : ℕ) :
    ℕ → ℕ → PartAcc → PartAcc
  | _, 0, acc => acc
  | i, k + 1, acc =>
    let tri := acc.tris.getD i default
    if F.lt (tri.centroid.get axis) split_pos then
      let b := BVH.fit_bounds acc.left_min acc.left_max tri
      partitionGo axis split_pos start (i + 1) k
        { acc with
          left_min := b.1
          left_max := b.2
          tris := lswap acc.tris (start + acc.left_count) i
          left_count := acc.left_count + 1 }
    else
      let b := BVH.fit_bounds acc.right_min acc.right_max tri
      partitionGo axis split_pos start (i + 1) k
        { acc with right_min := b.1, right_max := b.2 }

/-- The whole partition pass of `BVH::subdivide` on the range
`[start, start + n)`, starting from the source's initial values
(`[f32::MAX; 3]` / `[f32::MIN; 3]` boxes, `left_count = 0`). -/
def partitionRange (tris : List BVHTriangle) (axis : ℕ) (split_pos : F)
    (start n : ℕ) : PartAcc :=
  partitionGo axis split_pos start start n ⟨tris, vMAX, vMIN, vMAX, vMIN, 0⟩

namespace BVH

/-- The state update of an accepted split in `BVH::subdivide`: install the
partitioned triangle order, push the two fresh child nodes (left first), and
rewrite the parent in place as an interior node pointing at them
(`left_index = n_nodes`, `right_index = n_nodes + 1`, read before the push),
bumping `n_nodes` by two. -/
def acceptState (s : BVH) (node_idx tri_global_start n_tris : ℕ)
    (p : PartAcc) : BVH :=
  let leftNode : Node :=
    { left := 0, right := 0, first := tri_global_start, count := p.left_count
      aabb_min := p.left_min, aabb_max := p.left_max }
  let rightNode : Node :=
    { left := 0, right := 0, first := tri_global_start + p.left_count
      count := n_tris - p.left_count
      aabb_min := p.right_min, aabb_max := p.right_max }
  let nodes1 := s.nodes ++ [leftNode, rightNode]
  { s with
      build_triangles := p.tris
      nodes := nodes1.set node_idx
        { nodes1.getD node_idx default with
          left := s.n_nodes, right := s.n_nodes + 1, count := 0 }
      n_nodes := s.n_nodes + 2 }

/-- `BVH::subdivide`, with an explicit fuel so the recursion is structural
(and hence evaluable).  The fuel-0 case returns the leaf branch; the wrapper
`subdivide` supplies `MAX_DEPTH + 1 - depth` fuel, and since every recursive
call decrements the fuel while incrementing `depth`, fuel 0 is only reached
with `depth > MAX_DEPTH`, where the source's guard `depth < MAX_DEPTH` takes
the same leaf branch — so this is extensionally the source's recursion. -/
def subdivideGo : ℕ → BVH → BVHStats → ℕ → ℕ → ℕ → ℕ → BVH × BVHStats
  | 0, s, stats, _, _, n_tris, depth => (s, stats.record_leaf_node n_tris depth)
  | fuel + 1, s, stats, node_idx, tri_global_start, n_tris, depth =>
    let parent := s.nodes.getD node_idx default
    let parent_cost := parent.cost
    let fbs := s.find_best_split parent 0 (F.fin 0) tri_global_start n_tris
    let axis := fbs.1
    let split_pos := fbs.2.1
    let cost := fbs.2.2
    if F.lt cost parent_cost && decide (depth < MAX_DEPTH) then
      let p := partitionRange s.build_triangles axis split_pos
        tri_global_start n_tris
      let s1 := acceptState s node_idx tri_global_start n_tris p
      let r1 := subdivideGo fuel s1 stats.record_node s.n_nodes
        tri_global_start p.left_count (depth + 1)
      subdivideGo fuel r1.1 r1.2 (s.n_nodes + 1)
        (tri_global_start + p.left_count) (n_tris - p.left_count) (depth + 1)
    else
      (s, stats.record_leaf_node n_tris depth)

/-- `BVH::subdivide` (see `subdivideGo` for the fuel argument). -/
def subdivide (s : BVH) (stats : BVHStats)
    (node_idx tri_global_start n_tris depth : ℕ) : BVH × BVHStats :=
  subdivideGo (MAX_DEPTH + 1 - depth) s stats node_idx tri_global_start
    n_tris depth

end BVH

/-- One iteration of the `BuildTriangle` construction loop of `BVH::build`:
build the triangle record for base index `i` and fold the root bounds.  The
`1.0 / 3.0` centroid factor is idealised to the exact rational `1/3`. -/
def buildTriStep (vertices : List Vertex) (indices : List ℕ)
    (acc : List BVHTriangle × Vec3 × Vec3) (i : ℕ) :
    List BVHTriangle × Vec3 × Vec3 :=
  let index1 := indices.getD (i + 0) 0
  let index2 := indices.getD (i + 1) 0
  let index3 := indices.getD (i + 2) 0
  let v1 := (vertices.getD index1 default).pos
  let v2 := (vertices.getD index2 default).pos
  let v3 := (vertices.getD index3 default).pos
  let centroid := Vec3.smul (Vec3.add (Vec3.add v1 v2) v3) (F.fin (mkRat 1 3))
  let tri : BVHTriangle :=
    { centroid := centroid
      max := Vec3.maxV v1 (Vec3.maxV v2 v3)
      min := Vec3.minV v1 (Vec3.minV v2 v3)
      i := i }
  let b := BVH.fit_bounds acc.2.1 acc.2.2 tri
  (acc.1 ++ [tri], b.1, b.2)

/-- The `BuildTriangle` construction loop of `BVH::build`
(`for i in (0..indices.len()).step_by(3)`), returning the triangle list and
the folded root bounds. -/
def buildTrianglesFold (vertices : List Vertex) (indices : List ℕ) :
    List BVHTriangle × Vec3 × Vec3 :=
  (List.range' 0 ((indices.length + 2) / 3) 3).foldl
    (buildTriStep vertices indices) ([], vMAX, vMIN)

/-- The `PackedTriangle` re-derivation loop at the end of `BVH::build`. -/
def packTriangles (vertices : List Vertex) (indices : List ℕ)
    (bts : List BVHTriangle) : List PackedTriangle :=
  (List.range bts.length).map (fun i =>
    let bt := bts.getD i default
    PackedTriangle.new
      (vertices.getD (indices.getD (bt.i + 0) 0) default)
      (vertices.getD (indices.getD (bt.i + 1) 0) default)
      (vertices.getD (indices.getD (bt.i + 2) 0) default))

/-- The `BVH` value assembled by `BVH::build` before subdivision: the
constructed `BuildTriangle` array, no packed triangles yet, and a single
root node owning every triangle with the folded root bounds. -/
def rootState (vertices : List Vertex) (indices : List ℕ)
    (quality : Quality) : BVH :=
  let f := buildTrianglesFold vertices indices
  { build_triangles := f.1
    packed_triangles := []
    nodes := [{ left := 0, right := 0, first := 0
                count := indices.length / 3
                aabb_min := f.2.1, aabb_max := f.2.2 }]
    n_nodes := 1
    quality := quality }

/-- `BVH::build`.  Note the source's `Quality::Disabled` arm `return bvh;`
exits before the packing loop, so a Disabled build has an empty
`packed_triangles` array. -/
def BVH.build (vertices : List Vertex) (indices : List ℕ) (quality : Quality)
    (stats : BVHStats) : BVH × BVHStats :=
  let n_tris := indices.length / 3
  if n_tris = 0 then (BVH.empty, stats)
  else
    let bvh0 := rootState vertices indices quality
    match quality with
    | .Disabled => (bvh0, stats)
    | _ =>
      let r := bvh0.subdivide stats 0 0 bvh0.build_triangles.length 0
      ({ r.1 with
          packed_triangles := packTriangles vertices indices r.1.build_triangles },
        r.2)

/-- glam `Quat` (only carried through `Transform`; no claim computes with it). -/
structure Quat where
  qx : F
  qy : F
  qz : F
  qw : F
deriving DecidableEq, Repr

/-- `core::mesh::Transform` (position, rotation, scale). -/
structure Transform where
  pos : Vec3
  rot : Quat
  scale : Vec3
deriving DecidableEq, Repr

/-- glam `Mat4` values reachable in `build_per_mesh`, as a free term algebra:
`Mat4::from_scale_rotation_translation` and `Mat4::inverse` are external glam
library code consumed opaquely (no claim depends on matrix arithmetic). -/
inductive Mat4 where
  | fromScaleRotationTranslation : Transform → Mat4
  | inverse : Mat4 → Mat4
deriving DecidableEq, Repr

/-- `Transform::to_matrix`. -/
def Transform.to_matrix (t : Transform) : Mat4 :=
  Mat4.fromScaleRotationTranslation t

/-- `core::mesh::Material` (the fields are only carried through). -/
structure Material where
  color : Vec3 × F
  emission_color : Vec3 × F
  specular_color : Vec3 × F
  absorption : Vec3 × F
  absorption_stength : F
  emission_strength : F
  smoothness : F
  specular : F
  ior : F
  flag : ℤ
  texture_index : ℕ
  _p1 : F
deriving DecidableEq, Repr

/-- The mesh geometry record referenced by `MeshInstance` (its `vertices` and
`indices`, the two fields `build_per_mesh` reads). -/
structure Mesh where
  vertices : List Vertex
  indices : List ℕ
deriving DecidableEq, Repr

/-- `MeshInstance` as used by `build_per_mesh`: optional label, shared mesh
geometry, per-instance transform and material. -/
structure MeshInstance where
  label : Option String
  mesh : Mesh
  transform : Transform
  material : Material
deriving DecidableEq, Repr

/-- `core::mesh::MeshUniform` (matrices kept symbolic, see `Mat4`). -/
structure MeshUniform where
  world_to_model : Mat4
  model_to_world : Mat4
  node_offset : ℕ
  triangles : ℕ
  triangle_offset : ℕ
  _p1 : F
  material : Material
deriving DecidableEq, Repr

/-- `MeshDataList`. -/
structure MeshDataList where
  triangles : List PackedTriangle
  nodes : List Node
  mesh_uniforms : List MeshUniform
deriving DecidableEq, Repr

/-- `MeshDataList::default`. -/
def MeshDataList.empty : MeshDataList := ⟨[], [], []⟩

/-- The `HashMap<String, (usize, usize)>` of `build_per_mesh`, modelled as an
association list in insertion order (keys are inserted at most once, so the
lookup semantics agree). -/
def lookupFind (l : List (String × ℕ × ℕ)) (k : String) : Option (ℕ × ℕ) :=
  (l.find? (fun e => e.1 == k)).map (·.2)

/-- The cache key of instance number `i`: its label if set, else `i` printed
in decimal (`i.to_string()`). -/
def instKey (i : ℕ) (inst : MeshInstance) : String :=
  inst.label.getD (toString i)

/-- Loop state of `build_per_mesh`: the output data, the cache map, and the
threaded `BVHStats`. -/
structure BPMState where
  data : MeshDataList
  lookup : List (String × ℕ × ℕ)
  stats : BVHStats

/-- One iteration of the `build_per_mesh` loop: on an unseen key, record the
current global array lengths as the key's offsets, build the BVH and append
its output; then emit one `MeshUniform` for the instance from the looked-up
offsets. -/
def bpmStep (quality : Quality) (st : BPMState) (e : ℕ × MeshInstance) :
    BPMState :=
  let i := e.1
  let mesh_instance := e.2
  let key := instKey i mesh_instance
  let st1 :=
    if (lookupFind st.lookup key).isSome then st
    else
      let r := BVH.build mesh_instance.mesh.vertices mesh_instance.mesh.indices
        quality st.stats
      { data :=
          { st.data with
            triangles := st.data.triangles ++ r.1.packed_triangles
            nodes := st.data.nodes ++ r.1.nodes }
        lookup :=
          st.lookup ++ [(key, st.data.nodes.length, st.data.triangles.length)]
        stats := r.2 }
  let off := (lookupFind st1.lookup key).getD (0, 0)
  let model_to_world := mesh_instance.transform.to_matrix
  let uniform : MeshUniform :=
    { world_to_model := model_to_world.inverse
      model_to_world := model_to_world
      node_offset := off.1
      triangles := mesh_instance.mesh.indices.length / 3
      triangle_offset := off.2
      _p1 := F.fin 0
      material := mesh_instance.material }
  { st1 with
    data :=
      { st1.data with mesh_uniforms := st1.data.mesh_uniforms ++ [uniform] } }

/-- `BVH::build_per_mesh`. -/
def BVH.build_per_mesh (meshes : List MeshInstance) (quality : Quality) :
    MeshDataList :=
  (meshes.enum.foldl (bpmStep quality)
    ⟨MeshDataList.empty, [], BVHStats.start⟩).data

instance : Inhabited PackedTriangle :=
  ⟨⟨default, F.fin 0, default, F.fin 0, default, F.fin 0, default, F.fin 0,
    default, F.fin 0, default, F.fin 0⟩⟩

/-- `Quat::IDENTITY` (the Rust `Transform::default` rotation). -/
instance : Inhabited Quat := ⟨⟨F.fin 0, F.fin 0, F.fin 0, F.fin 1⟩⟩

/-- Rust `Transform::default`: zero position, identity rotation, unit scale. -/
instance : Inhabited Transform :=
  ⟨⟨default, default, ⟨F.fin 1, F.fin 1, F.fin 1⟩⟩⟩

/-- Rust `#[derive(Default)]` `Material`: all fields zero. -/
instance : Inhabited Material :=
  ⟨⟨(default, F.fin 0), (default, F.fin 0), (default, F.fin 0),
    (default, F.fin 0), F.fin 0, F.fin 0, F.fin 0, F.fin 0, F.fin 0, 0, 0,
    F.fin 0⟩⟩

instance : Inhabited Mat4 := ⟨Mat4.fromScaleRotationTranslation default⟩

instance : Inhabited MeshUniform :=
  ⟨⟨default, default, 0, 0, 0, F.fin 0, default⟩⟩

instance : Inhabited MeshInstance := ⟨⟨none, ⟨[], []⟩, default, default⟩⟩

/-!
Concrete example inputs used by witnesses and counterexamples.
-/

/-- Vertices of two unit right triangles, one near the origin and one at
`x = 10`: the geometry used by most witnesses. -/
def exVerts : List Vertex :=
  [⟨⟨F.fin 0, F.fin 0, F.fin 0⟩, default, F.fin 0, F.fin 0⟩,
   ⟨⟨F.fin 1, F.fin 0, F.fin 0⟩, default, F.fin 0, F.fin 0⟩,
   ⟨⟨F.fin 0, F.fin 1, F.fin 0⟩, default, F.fin 0, F.fin 0⟩,
   ⟨⟨F.fin 10, F.fin 0, F.fin 0⟩, default, F.fin 0, F.fin 0⟩,
   ⟨⟨F.fin 11, F.fin 0, F.fin 0⟩, default, F.fin 0, F.fin 0⟩,
   ⟨⟨F.fin 10, F.fin 1, F.fin 0⟩, default, F.fin 0, F.fin 0⟩]

/-- Index list of the two example triangles. -/
def exIdx : List ℕ := [0, 1, 2, 3, 4, 5]

/-- The first example triangle alone. -/
def exVerts1 : List Vertex := exVerts.take 3

/-- Index list of the single example triangle. -/
def exIdx1 : List ℕ := [0, 1, 2]

/-- One-triangle mesh geometry shared by several example instances. -/
def exMeshA : Mesh := { vertices := exVerts1, indices := exIdx1 }

/-- A two-triangle mesh geometry, distinct from `exMeshA`. -/
def exMeshB : Mesh := { vertices := exVerts, indices := exIdx }

/-- Scene for the `build_per_mesh` counterexample: two unlabeled instances
sharing `exMeshA`, plus two instances labeled `"x"` with distinct
geometries. -/
def exScene : List MeshInstance :=
  [{ label := none, mesh := exMeshA, transform := default, material := default },
   { label := none, mesh := exMeshA, transform := default, material := default },
   { label := some "x", mesh := exMeshA, transform := default, material := default },
   { label := some "x", mesh := exMeshB, transform := default, material := default }]

/-- The root state (as `build` constructs it just before `subdivide`) of a
Low-quality build of the two example triangles: the SAH midpoint split is
accepted here. -/
def exRootBVH : BVH :=
  { build_triangles := (buildTrianglesFold exVerts exIdx).1
    packed_triangles := []
    nodes := [{ left := 0, right := 0, first := 0, count := 2
                aabb_min := (buildTrianglesFold exVerts exIdx).2.1
                aabb_max := (buildTrianglesFold exVerts exIdx).2.2 }]
    n_nodes := 1
    quality := Quality.Low }

/-- The corresponding root state for the single example triangle (a node
with `count = 1`). -/
def exRootBVH1 : BVH :=
  { build_triangles := (buildTrianglesFold exVerts1 exIdx1).1
    packed_triangles := []
    nodes := [{ left := 0, right := 0, first := 0, count := 1
                aabb_min := (buildTrianglesFold exVerts1 exIdx1).2.1
                aabb_max := (buildTrianglesFold exVerts1 exIdx1).2.2 }]
    n_nodes := 1
    quality := Quality.Low }

/-!
Statement helpers (used only to phrase theorems, not by the embedded code).
-/

/-- The sublist `l[s], …, l[s+n-1]`. -/
def lslice {α : Type} (l : List α) (s n : ℕ) : List α := (l.drop s).take n

/-- The partition predicate of `BVH::subdivide`: the triangle's centroid on
`axis` is strictly left of `split_pos`. -/
def triLeft (axis : ℕ) (split_pos : F) (t : BVHTriangle) : Bool :=
  F.lt (t.centroid.get axis) split_pos

/-- No component of the vector is NaN. -/
def Vec3.noNan (v : Vec3) : Bool :=
  !(v.x == F.nan) && !(v.y == F.nan) && !(v.z == F.nan)

/-- The triangle's `min`/`max` corners have no NaN component. -/
def BVHTriangle.noNan (t : BVHTriangle) : Bool :=
  t.min.noNan && t.max.noNan

/-- The box `[nmin, nmax]` contains the triangle's corner extremes. -/
def boxContainsTri (nmin nmax : Vec3) (t : BVHTriangle) : Bool :=
  Vec3.fle nmin t.min && Vec3.fle t.max nmax

/-- The box `[pmin, pmax]` contains the box `[cmin, cmax]`. -/
def boxContainsBox (pmin pmax cmin cmax : Vec3) : Bool :=
  Vec3.fle pmin cmin && Vec3.fle cmax pmax

/-- The multiset of triangle indices owned by leaves: each node contributes
its range `[first, first+count)` (an interior node has `count = 0` and
contributes nothing). -/
def leafMS (nodes : List Node) : Multiset ℕ :=
  (nodes.map (fun nd => ((List.range' nd.first nd.count : List ℕ) : Multiset ℕ))).sum

/-- Folding `fit_bounds` over a list of triangles (the box produced by the
partition loop and by the root-bounds loop). -/
def foldFit (l : List BVHTriangle) (b : Vec3 × Vec3) : Vec3 × Vec3 :=
  l.foldl (fun acc t => BVH.fit_bounds acc.1 acc.2 t) b

/-- The `evaluate_sah` scan step applied directly to a triangle (used to
relate the index-based scan to the triangle slice it reads). -/
def sahStepT (axis : ℕ) (pos : F) (acc : BVH.SahAcc) (tri : BVHTriangle) :
    BVH.SahAcc :=
  if F.lt (tri.centroid.get axis) pos then
    { acc with
      left_count := F.add acc.left_count (F.fin 1)
      left_bounds := acc.left_bounds.grow tri }
  else
    { acc with
      right_count := F.add acc.right_count (F.fin 1)
      right_bounds := acc.right_bounds.grow tri }

/-- The per-node bounding invariant of claim C8: a leaf's box contains the
corner extremes of every triangle in its range, and an interior node's box
contains both children's boxes. -/
def NodeOK (r : BVH) (j : ℕ) : Prop :=
  ((r.nodes.getD j default).count ≠ 0 →
    ∀ i, (r.nodes.getD j default).first ≤ i →
      i < (r.nodes.getD j default).first + (r.nodes.getD j default).count →
      boxContainsTri (r.nodes.getD j default).aabb_min
        (r.nodes.getD j default).aabb_max
        (r.build_triangles.getD i default) = true) ∧
  ((r.nodes.getD j default).count = 0 →
    boxContainsBox (r.nodes.getD j default).aabb_min
        (r.nodes.getD j default).aabb_max
        (r.nodes.getD (r.nodes.getD j default).left default).aabb_min
        (r.nodes.getD (r.nodes.getD j default).left default).aabb_max = true ∧
    boxContainsBox (r.nodes.getD j default).aabb_min
        (r.nodes.getD j default).aabb_max
        (r.nodes.getD (r.nodes.getD j default).right default).aabb_min
        (r.nodes.getD (r.nodes.getD j default).right default).aabb_max = true)

/-- The structural invariant tying the entry and exit states of one
`subdivide` call on node `idx` owning the triangle range
`[start, start + n)`: `n_nodes` still matches the node array, nodes are only
appended, other existing nodes are untouched, node `idx` keeps its `first`
and box and can only shrink its `count`, the multiset of leaf-owned triangle
indices is unchanged, the triangle array is only permuted and only inside
the window, and every appended node's range stays inside the window. -/
def SubInv (s r : BVH) (idx start n : ℕ) : Prop :=
  r.n_nodes = r.nodes.length ∧
  s.nodes.length ≤ r.nodes.length ∧
  (∀ j, j < s.nodes.length → j ≠ idx →
    r.nodes.getD j default = s.nodes.getD j default) ∧
  (r.nodes.getD idx default).first = (s.nodes.getD idx default).first ∧
  (r.nodes.getD idx default).count ≤ (s.nodes.getD idx default).count ∧
  (r.nodes.getD idx default).aabb_min = (s.nodes.getD idx default).aabb_min ∧
  (r.nodes.getD idx default).aabb_max = (s.nodes.getD idx default).aabb_max ∧
  leafMS r.nodes = leafMS s.nodes ∧
  r.build_triangles.length = s.build_triangles.length ∧
  (∀ j, j < start ∨ start + n ≤ j →
    r.build_triangles.getD j default = s.build_triangles.getD j default) ∧
  List.Perm r.build_triangles s.build_triangles ∧
  (∀ j, s.nodes.length ≤ j → j < r.nodes.length →
    start ≤ (r.nodes.getD j default).first ∧
    (r.nodes.getD j default).first + (r.nodes.getD j default).count
      ≤ start + n)

/-!
## Theorems

First, correctness of the `mkRat`-based rational arithmetic.
-/

/-- `qadd` is rational addition. -/
theorem qadd_eq (a b : ℚ) : qadd a b = a + b := (Rat.add_def' a b).symm

/-- `qsub` is rational subtraction. -/
theorem qsub_eq (a b : ℚ) : qsub a b = a - b := (Rat.sub_def' a b).symm

/-- `qmul` is rational multiplication. -/
theorem qmul_eq (a b : ℚ) : qmul a b = a * b := by
  rw [qmul, Rat.mul_def, Rat.normalize_eq_mkRat]

/-- `qdiv` is rational division. -/
theorem qdiv_eq (a b : ℚ) : qdiv a b = a / b := by
  rw [qdiv, Rat.div_def']
  by_cases h : 0 ≤ b.num
  · rw [if_pos h, Rat.mkRat_eq_divInt, Int.toNat_of_nonneg (by positivity)]
  · push_neg at h
    rw [if_neg (not_le.mpr h), Rat.mkRat_eq_divInt, Int.toNat_of_nonneg
      (mul_nonneg (Int.ofNat_nonneg _) (by omega)),
      show (a.den : ℤ) * -b.num = -((a.den : ℤ) * b.num) by ring,
      Rat.divInt_neg, neg_neg]

/-!
Basic facts about the IEEE comparison structure of `F`.
-/

/-- Nothing is smaller than itself-or-anything when the left side is `+inf`. -/
theorem F.lt_pinf_left (c : F) : F.lt F.pinf c = false := by
  cases c <;> rfl

/-- NaN compares false on the left. -/
theorem F.lt_nan_left (c : F) : F.lt F.nan c = false := by cases c <;> rfl

/-- NaN compares false on the right. -/
theorem F.lt_nan_right (c : F) : F.lt c F.nan = false := by
  cases c <;> rfl

/-- Adding anything to NaN yields NaN. -/
theorem F.add_nan_left (c : F) : F.add F.nan c = F.nan := by cases c <;> rfl

/-- Adding NaN to anything yields NaN. -/
theorem F.add_nan_right (c : F) : F.add c F.nan = F.nan := by
  cases c <;> rfl

/-- The default (un-grown) `Aabb` has `+inf` half-area. -/
theorem Aabb.half_area_default : (default : Aabb).half_area = F.pinf := rfl

/-- `0.0 * (+inf) = NaN`: the zero-count side of an SAH cost is NaN. -/
theorem F.zero_mul_pinf : F.mul (F.fin 0) F.pinf = F.nan := rfl

/-!
List helper lemmas for the in-place swap `lswap`.
-/

/-- Counting elements across a `set` at an in-range position. -/
theorem lcount_set {α : Type} [DecidableEq α] (l : List α) (n : ℕ) (a x : α)
    (h : n < l.length) :
    (l.set n a).count x + (if l.get ⟨n, h⟩ = x then 1 else 0)
      = l.count x + (if a = x then 1 else 0) := by
  rw [List.set_eq_take_cons_drop a h]
  conv_rhs => rw [← List.take_append_drop n l, List.drop_eq_getElem_cons h]
  simp only [List.count_append, List.count_cons]
  by_cases hx : a = x <;> by_cases hg : l.get ⟨n, h⟩ = x <;>
    simp [hx, hg] <;> omega

/-- `lswap` preserves length. -/
theorem lswap_length {α : Type} (l : List α) (i j : ℕ) :
    (lswap l i j).length = l.length := by
  rw [lswap]
  cases hi : l.get? i <;> cases hj : l.get? j <;> simp

/-- `lswap` is a permutation of the list. -/
theorem lswap_perm {α : Type} [DecidableEq α] (l : List α) (i j : ℕ) :
    List.Perm (lswap l i j) l := by
  rw [lswap]
  cases hi : l.get? i <;> cases hj : l.get? j <;> try exact List.Perm.refl _
  rename_i a b
  show List.Perm ((l.set i b).set j a) l
  have hi' : i < l.length := List.get?_eq_some.mp hi |>.1
  have hj' : j < l.length := List.get?_eq_some.mp hj |>.1
  have ha : l.get ⟨i, hi'⟩ = a := by
    have h0 := List.get?_eq_get hi'
    rw [hi] at h0; exact (Option.some.injEq _ _).mp h0.symm
  have hb : l.get ⟨j, hj'⟩ = b := by
    have h0 := List.get?_eq_get hj'
    rw [hj] at h0; exact (Option.some.injEq _ _).mp h0.symm
  rw [List.perm_iff_count]
  intro x
  by_cases hij : i = j
  · subst hij
    have hab : a = b := by rw [← ha, hb]
    subst hab
    rw [List.set_set]
    have h1 := lcount_set l i a x hi'
    rw [ha] at h1
    by_cases hax : a = x <;> simp [hax] at h1 ⊢ <;> omega
  · have hjlen : j < (l.set i b).length := by simpa using hj'
    have h1 := lcount_set (l.set i b) j a x hjlen
    have h2 : (l.set i b).get ⟨j, hjlen⟩ = b := by
      rw [List.get_set]
      rw [if_neg hij, hb]
    have h3 := lcount_set l i b x hi'
    rw [h2] at h1
    rw [ha] at h3
    by_cases hax : a = x <;> by_cases hbx : b = x <;>
      simp [hax, hbx] at h1 h3 ⊢ <;> omega

/-- Reading `lswap` away from both swapped positions. -/
theorem lswap_getD_ne {α : Type} [Inhabited α] (l : List α) (i j k : ℕ)
    (hki : k ≠ i) (hkj : k ≠ j) :
    (lswap l i j).getD k default = l.getD k default := by
  rw [lswap]
  cases hi : l.get? i <;> cases hj : l.get? j <;> try rfl
  rename_i a b
  show ((l.set i b).set j a).getD k default = _
  simp only [List.getD_eq_getElem?_getD]
  rw [List.getElem?_set_ne (fun h => hkj h.symm),
    List.getElem?_set_ne (fun h => hki h.symm)]

/-- Reading `lswap` at the second swapped position yields the element from
the first. -/
theorem lswap_getD_right {α : Type} [Inhabited α] (l : List α) (i j : ℕ)
    (hi : i < l.length) (hj : j < l.length) :
    (lswap l i j).getD j default = l.getD i default := by
  have hsi := List.get?_eq_get hi
  have hsj := List.get?_eq_get hj
  rw [lswap, hsi, hsj]
  show ((l.set i (l.get ⟨j, hj⟩)).set j (l.get ⟨i, hi⟩)).getD j default = _
  simp only [List.getD_eq_getElem?_getD]
  rw [List.getElem?_set_self (by simpa using hj)]
  simp [List.getElem?_eq_getElem hi, List.get_eq_getElem]

/-- Reading `lswap` at the first swapped position yields the element from
the second (when the two positions differ). -/
theorem lswap_getD_left {α : Type} [Inhabited α] (l : List α) (i j : ℕ)
    (hi : i < l.length) (hj : j < l.length) (hij : i ≠ j) :
    (lswap l i j).getD i default = l.getD j default := by
  have hsi := List.get?_eq_get hi
  have hsj := List.get?_eq_get hj
  rw [lswap, hsi, hsj]
  show ((l.set i (l.get ⟨j, hj⟩)).set j (l.get ⟨i, hi⟩)).getD i default = _
  simp only [List.getD_eq_getElem?_getD]
  rw [List.getElem?_set_ne (fun h => hij h.symm),
    List.getElem?_set_self (by simpa using hi)]
  simp [List.getElem?_eq_getElem hj, List.get_eq_getElem]

/-!
Shape lemmas for the partition loop and `subdivide`.
-/

/-- The partition loop never changes the length of the triangle array. -/
theorem partitionGo_tris_length (axis : ℕ) (sp : F) (start : ℕ) :
    ∀ (k i : ℕ) (acc : PartAcc),
      (partitionGo axis sp start i k acc).tris.length = acc.tris.length := by
  intro k
  induction k with
  | zero => intro i acc; rfl
  | succ k ih =>
    intro i acc
    rw [partitionGo]
    split
    · rw [ih]; exact lswap_length _ _ _
    · rw [ih]

/-- `partitionRange` never changes the length of the triangle array. -/
theorem partitionRange_tris_length (tris : List BVHTriangle) (axis : ℕ)
    (sp : F) (start n : ℕ) :
    (partitionRange tris axis sp start n).tris.length = tris.length :=
  partitionGo_tris_length axis sp start n start _

/-- `subdivideGo` never changes the length of the triangle array. -/
theorem subdivideGo_bt_length :
    ∀ (fuel : ℕ) (s : BVH) (stats : BVHStats) (idx st n d : ℕ),
      (BVH.subdivideGo fuel s stats idx st n d).1.build_triangles.length
        = s.build_triangles.length := by
  intro fuel
  induction fuel with
  | zero => intro s stats idx st n d; rfl
  | succ fuel ih =>
    intro s stats idx st n d
    rw [BVH.subdivideGo]
    split
    · rw [ih, ih]
      exact partitionRange_tris_length _ _ _ _ _
    · rfl

/-- `subdivide` never changes the length of the triangle array. -/
theorem subdivide_bt_length (s : BVH) (stats : BVHStats) (idx st n d : ℕ) :
    (s.subdivide stats idx st n d).1.build_triangles.length
      = s.build_triangles.length :=
  subdivideGo_bt_length _ s stats idx st n d

/-- `subdivideGo` only ever appends nodes: `n_nodes` is monotone. -/
theorem subdivideGo_n_nodes_le :
    ∀ (fuel : ℕ) (s : BVH) (stats : BVHStats) (idx st n d : ℕ),
      s.n_nodes ≤ (BVH.subdivideGo fuel s stats idx st n d).1.n_nodes := by
  intro fuel
  induction fuel with
  | zero => intro s stats idx st n d; exact Nat.le_refl _
  | succ fuel ih =>
    intro s stats idx st n d
    rw [BVH.subdivideGo]
    split
    · refine Nat.le_trans ?_ (Nat.le_trans (ih _ _ _ _ _ _) (ih _ _ _ _ _ _))
      exact Nat.le_add_right _ 2
    · exact Nat.le_refl _

/-- Helper form of `subdivideGo_n_nodes_le` with a free lower bound. -/
theorem subdivideGo_n_nodes_le_of (fuel : ℕ) (s : BVH) (stats : BVHStats)
    (idx st n d m : ℕ) (hm : m ≤ s.n_nodes) :
    m ≤ (BVH.subdivideGo fuel s stats idx st n d).1.n_nodes :=
  Nat.le_trans hm (subdivideGo_n_nodes_le fuel s stats idx st n d)

/-- A `subdivide` call whose best split does not beat the parent cost, or
whose depth has reached `MAX_DEPTH`, records a leaf and changes nothing. -/
theorem subdivide_eq_leaf (s : BVH) (stats : BVHStats) (idx st n d : ℕ)
    (h : ¬(F.lt (s.find_best_split (s.nodes.getD idx default) 0 (F.fin 0)
          st n).2.2 (s.nodes.getD idx default).cost = true ∧ d < BVH.MAX_DEPTH)) :
    s.subdivide stats idx st n d = (s, stats.record_leaf_node n d) := by
  rw [BVH.subdivide]
  rcases hf : BVH.MAX_DEPTH + 1 - d with _ | k
  · rfl
  · have hcond : (F.lt (s.find_best_split (s.nodes.getD idx default) 0 (F.fin 0)
        st n).2.2 (s.nodes.getD idx default).cost
        && decide (d < BVH.MAX_DEPTH)) = false := by
      rcases Decidable.not_and_iff_or_not.mp h with h1 | h1
      · rw [Bool.eq_false_iff.mpr h1, Bool.false_and]
      · rw [decide_eq_false h1, Bool.and_false]
    rw [BVH.subdivideGo]
    simp only [hcond]
    rfl

/-- An accepted split appends at least the two fresh child nodes. -/
theorem subdivide_accept_n_nodes (s : BVH) (stats : BVHStats) (idx st n d : ℕ)
    (h : F.lt (s.find_best_split (s.nodes.getD idx default) 0 (F.fin 0)
          st n).2.2 (s.nodes.getD idx default).cost = true ∧ d < BVH.MAX_DEPTH) :
    s.n_nodes + 2 ≤ (s.subdivide stats idx st n d).1.n_nodes := by
  rw [BVH.subdivide]
  rcases hf : BVH.MAX_DEPTH + 1 - d with _ | k
  · exfalso
    have hd := h.2
    rw [BVH.MAX_DEPTH] at hd hf
    omega
  · rw [BVH.subdivideGo]
    rw [if_pos (show (F.lt _ _ && decide (d < BVH.MAX_DEPTH)) = true by
      rw [h.1, decide_eq_true h.2]; rfl)]
    refine subdivideGo_n_nodes_le_of k _ _ _ _ _ _ _ ?hstep
    refine subdivideGo_n_nodes_le_of k _ _ _ _ _ _ _ ?hstep2
    exact Nat.le_refl _

/-- Claim C10: a node holding at most one triangle gets an infinite best
split cost regardless of quality setting, so `subdivide` always records it
as a leaf (statistics updated, state unchanged) and never splits it. -/
theorem claim_c10 (s : BVH) (stats : BVHStats) (idx st n d : ℕ)
    (axis0 : ℕ) (split0 : F)
    (h : (s.nodes.getD idx default).count ≤ 1) :
    (s.find_best_split (s.nodes.getD idx default) axis0 split0 st n).2.2
        = F.pinf ∧
    s.subdivide stats idx st n d = (s, stats.record_leaf_node n d) := by
  have hfbs : ∀ (a0 : ℕ) (s0 : F),
      (s.find_best_split (s.nodes.getD idx default) a0 s0 st n) = (0, F.fin 0, F.pinf) := by
    intro a0 s0
    rw [BVH.find_best_split, if_pos h]
  refine ⟨by rw [hfbs], ?_⟩
  refine subdivide_eq_leaf s stats idx st n d ?_
  rintro ⟨hlt, -⟩
  rw [hfbs] at hlt
  rw [show (0, F.fin 0, F.pinf).2.2 = F.pinf from rfl, F.lt_pinf_left] at hlt
  exact Bool.false_ne_true hlt

/-- Witness for C10 at the concrete one-triangle root state. -/
theorem claim_c10_witness :
    (exRootBVH1.find_best_split (exRootBVH1.nodes.getD 0 default) 0 (F.fin 0)
        0 1).2.2 = F.pinf ∧
    exRootBVH1.subdivide BVHStats.start 0 0 1 0
      = (exRootBVH1, BVHStats.start.record_leaf_node 1 0) :=
  claim_c10 exRootBVH1 BVHStats.start 0 0 1 0 0 (F.fin 0) (by decide)

/-- Claim C9: building with an empty index list returns the `empty` BVH for
every quality setting — zero `n_nodes`, empty node array, empty packed
triangle array — and, the function being total, it cannot panic. -/
theorem claim_c9 (v : List Vertex) (q : Quality) (stats : BVHStats) :
    BVH.build v [] q stats = (BVH.empty, stats) ∧
    (BVH.build v [] q stats).1.n_nodes = 0 ∧
    (BVH.build v [] q stats).1.nodes = [] ∧
    (BVH.build v [] q stats).1.packed_triangles = [] :=
  ⟨rfl, rfl, rfl, rfl⟩

/-- Claim C4: a `subdivide` call splits exactly when the best found split
cost is strictly below the parent's `cost()` (half-area times count) and the
depth is strictly below `MAX_DEPTH = 32`; otherwise the node is left as a
leaf and its triangle count and depth are recorded in the statistics via
`record_leaf_node`. -/
theorem claim_c4 (s : BVH) (stats : BVHStats) (idx st n d : ℕ) :
    (¬(F.lt (s.find_best_split (s.nodes.getD idx default) 0 (F.fin 0)
          st n).2.2 (s.nodes.getD idx default).cost = true ∧ d < BVH.MAX_DEPTH) →
        s.subdivide stats idx st n d = (s, stats.record_leaf_node n d)) ∧
    ((F.lt (s.find_best_split (s.nodes.getD idx default) 0 (F.fin 0)
          st n).2.2 (s.nodes.getD idx default).cost = true ∧ d < BVH.MAX_DEPTH) →
        s.n_nodes + 2 ≤ (s.subdivide stats idx st n d).1.n_nodes ∧
        s.subdivide stats idx st n d ≠ (s, stats.record_leaf_node n d)) ∧
    BVH.MAX_DEPTH = 32 := by
  refine ⟨subdivide_eq_leaf s stats idx st n d,
    fun h => ⟨subdivide_accept_n_nodes s stats idx st n d h, ?_⟩, rfl⟩
  intro heq
  have hle := subdivide_accept_n_nodes s stats idx st n d h
  rw [heq, show (s, stats.record_leaf_node n d).1 = s from rfl] at hle
  omega

/-- Witness for C4 at the concrete two-triangle root state, where the split
is accepted. -/
theorem claim_c4_witness :
    exRootBVH.n_nodes + 2
        ≤ (exRootBVH.subdivide BVHStats.start 0 0 2 0).1.n_nodes ∧
    exRootBVH.subdivide BVHStats.start 0 0 2 0
        ≠ (exRootBVH, BVHStats.start.record_leaf_node 2 0) :=
  (claim_c4 exRootBVH BVHStats.start 0 0 2 0).2.1 (by decide)

/-- Each iteration of the triangle construction loop appends one record. -/
theorem buildTriStep_length (vertices : List Vertex) (indices : List ℕ)
    (acc : List BVHTriangle × Vec3 × Vec3) (i : ℕ) :
    (buildTriStep vertices indices acc i).1.length = acc.1.length + 1 := by
  rw [buildTriStep]
  simp

/-- Length of the folded triangle construction loop. -/
theorem buildTriFold_length_aux (vertices : List Vertex) (indices : List ℕ) :
    ∀ (xs : List ℕ) (acc : List BVHTriangle × Vec3 × Vec3),
      ((xs.foldl (buildTriStep vertices indices) acc).1).length
        = acc.1.length + xs.length := by
  intro xs
  induction xs with
  | nil => intro acc; rfl
  | cons x xs ih =>
    intro acc
    rw [List.foldl_cons, ih, buildTriStep_length]
    simp [Nat.add_assoc, Nat.add_comm 1]

/-- The builder constructs one `BVHTriangle` per step-3 loop iteration. -/
theorem buildTrianglesFold_length (vertices : List Vertex) (indices : List ℕ) :
    (buildTrianglesFold vertices indices).1.length = (indices.length + 2) / 3 := by
  rw [buildTrianglesFold, buildTriFold_length_aux]
  simp

/-- Entry `k` of the packed triangle array re-derives the triangle whose
source base index is recorded in `bts[k].i`. -/
theorem packTriangles_getD (v : List Vertex) (i : List ℕ)
    (bts : List BVHTriangle) (k : ℕ) (hk : k < bts.length) :
    (packTriangles v i bts).getD k default
      = PackedTriangle.new
          (v.getD (i.getD ((bts.getD k default).i + 0) 0) default)
          (v.getD (i.getD ((bts.getD k default).i + 1) 0) default)
          (v.getD (i.getD ((bts.getD k default).i + 2) 0) default) := by
  rw [packTriangles]
  rw [List.getD_eq_getElem _ _ (by simpa using hk)]
  rw [List.getElem_map, List.getElem_range]

/-- The packed triangle array has one entry per build triangle. -/
theorem packTriangles_length (v : List Vertex) (i : List ℕ)
    (bts : List BVHTriangle) :
    (packTriangles v i bts).length = bts.length := by
  rw [packTriangles]; simp

/-- For a non-`Disabled` build of non-empty geometry, the packed triangle
array is exactly the re-derivation pass over the final build triangles. -/
theorem build_packed_eq (v : List Vertex) (idx : List ℕ) (q : Quality)
    (stats : BVHStats) (hq : q ≠ Quality.Disabled) (h0 : idx.length / 3 ≠ 0) :
    (BVH.build v idx q stats).1.packed_triangles
      = packTriangles v idx ((BVH.build v idx q stats).1.build_triangles) := by
  rw [BVH.build, if_neg h0]
  cases q with
  | Disabled => exact absurd rfl hq
  | Low => rfl
  | High => rfl

/-- For a build of non-empty geometry, the final build triangle array has as
many entries as the construction loop produced. -/
theorem build_bt_length (v : List Vertex) (idx : List ℕ) (q : Quality)
    (stats : BVHStats) (h0 : idx.length / 3 ≠ 0) :
    (BVH.build v idx q stats).1.build_triangles.length
      = (buildTrianglesFold v idx).1.length := by
  rw [BVH.build, if_neg h0]
  cases q with
  | Disabled => rfl
  | Low => exact subdivideGo_bt_length _ _ _ _ _ _ _
  | High => exact subdivideGo_bt_length _ _ _ _ _ _ _

/-- Claim C1 (amended to non-`Disabled` quality): for `Low`/`High` builds of
well-formed geometry (`indices.len() % 3 = 0`), the packed triangle array
has exactly `indices.len()/3` entries — one per triangle — and entry `k` is
the encoding, from the source vertex/index buffers, of the triangle whose
base index is recorded in `build_triangles[k].i` after partitioning, so a
leaf's `first..first+count` range indexes contiguous packed triangles in the
final triangle order.  (A `Disabled` build returns before the packing loop,
see `claim_c1_counterexample`.) -/
theorem claim_c1 (v : List Vertex) (idx : List ℕ) (q : Quality)
    (stats : BVHStats) (hq : q ≠ Quality.Disabled) (h3 : idx.length % 3 = 0) :
    (BVH.build v idx q stats).1.packed_triangles.length = idx.length / 3 ∧
    (BVH.build v idx q stats).1.build_triangles.length = idx.length / 3 ∧
    ∀ k, k < idx.length / 3 →
      (BVH.build v idx q stats).1.packed_triangles.getD k default
        = PackedTriangle.new
            (v.getD (idx.getD
              (((BVH.build v idx q stats).1.build_triangles.getD k default).i + 0) 0) default)
            (v.getD (idx.getD
              (((BVH.build v idx q stats).1.build_triangles.getD k default).i + 1) 0) default)
            (v.getD (idx.getD
              (((BVH.build v idx q stats).1.build_triangles.getD k default).i + 2) 0) default) := by
  by_cases h0 : idx.length / 3 = 0
  · rw [BVH.build, if_pos h0, h0]
    exact ⟨rfl, rfl, fun k hk => absurd hk (Nat.not_lt_zero k)⟩
  · have hbt : (BVH.build v idx q stats).1.build_triangles.length
        = idx.length / 3 := by
      rw [build_bt_length v idx q stats h0, buildTrianglesFold_length]
      omega
    refine ⟨?_, hbt, ?_⟩
    · rw [build_packed_eq v idx q stats hq h0, packTriangles_length, hbt]
    · intro k hk
      rw [build_packed_eq v idx q stats hq h0,
        packTriangles_getD v idx _ k (by rw [hbt]; exact hk)]

/-- Counterexample to C1 as stated: with `Quality::Disabled` the source's
`return bvh;` exits `build` before the packing loop, so a one-triangle
geometry yields an empty `packed_triangles` array instead of one entry per
triangle. -/
theorem claim_c1_counterexample :
    (BVH.build exVerts1 exIdx1 Quality.Disabled BVHStats.start).1.packed_triangles.length
      ≠ exIdx1.length / 3 := by decide

/-- Witness for the amended C1, at the two-triangle Low-quality build. -/
theorem claim_c1_witness :
    Quality.Low ≠ Quality.Disabled ∧ exIdx.length % 3 = 0 ∧
    (BVH.build exVerts exIdx Quality.Low BVHStats.start).1.packed_triangles.length
      = exIdx.length / 3 :=
  ⟨by decide, by decide,
    (claim_c1 exVerts exIdx Quality.Low BVHStats.start (by decide) (by decide)).1⟩

/-- Counterexample to C7 as stated: in `exScene` under `Quality::Low`,
instances 0 and 1 share the same geometry (`exMeshA`) but are unlabeled, so
they get the positional cache keys `"0"`/`"1"`, the geometry is built twice,
and their uniforms carry different `node_offset`/`triangle_offset` (0 vs 1);
instances 2 and 3 have distinct geometries but share the label `"x"`, so
instance 3 reuses instance 2's offsets and their (nonempty) node ranges in
the global arrays coincide instead of being disjoint. -/
theorem claim_c7_counterexample :
    ((BVH.build_per_mesh exScene Quality.Low).mesh_uniforms.map
        (fun u => (u.node_offset, u.triangle_offset)))
      = [(0, 0), (1, 1), (2, 2), (2, 2)] ∧
    (exScene.map (fun m => m.mesh)).getD 0 exMeshB
      = (exScene.map (fun m => m.mesh)).getD 1 exMeshB ∧
    (exScene.map (fun m => m.mesh)).getD 2 exMeshB
      ≠ (exScene.map (fun m => m.mesh)).getD 3 exMeshB ∧
    1 ≤ (BVH.build exMeshA.vertices exMeshA.indices Quality.Low
          BVHStats.start).1.nodes.length ∧
    1 ≤ (BVH.build exMeshB.vertices exMeshB.indices Quality.Low
          BVHStats.start).1.nodes.length := by
  refine ⟨?_, by decide, by decide, by decide, by decide⟩
  decide

/-!
Lemmas about `lslice`, the window of a list a `subdivide` call works on.
-/

/-- Length of a slice. -/
theorem lslice_length {α : Type} (l : List α) (s n : ℕ) :
    (lslice l s n).length = min n (l.length - s) := by
  simp [lslice]

/-- Length of a fully in-range slice. -/
theorem lslice_length_of_le {α : Type} {l : List α} {s n : ℕ}
    (h : s + n ≤ l.length) : (lslice l s n).length = n := by
  rw [lslice_length]; omega

/-- Peeling the first element off a slice. -/
theorem lslice_cons {α : Type} [Inhabited α] {l : List α} {s : ℕ} (m : ℕ)
    (h : s < l.length) :
    lslice l s (m + 1) = l.getD s default :: lslice l (s + 1) m := by
  rw [lslice, lslice, List.drop_eq_getElem_cons h, List.take_succ_cons,
    List.getD_eq_getElem l default h]

/-- Reading inside a slice. -/
theorem lslice_getD {α : Type} [Inhabited α] {l : List α} {s n j : ℕ}
    (hj : j < n) (hsj : s + j < l.length) :
    (lslice l s n).getD j default = l.getD (s + j) default := by
  have hlen : j < (lslice l s n).length := by rw [lslice_length]; omega
  rw [List.getD_eq_getElem _ _ hlen, List.getD_eq_getElem _ _ hsj]
  simp only [lslice, List.getElem_take, List.getElem_drop]

/-- Every in-range read belongs to the slice. -/
theorem getD_mem_lslice {α : Type} [Inhabited α] {l : List α} {s n j : ℕ}
    (hs : s ≤ j) (hj : j < s + n) (hl : j < l.length) :
    l.getD j default ∈ lslice l s n := by
  have h1 : (lslice l s n).getD (j - s) default = l.getD j default := by
    rw [lslice_getD (by omega) (by omega)]
    congr 1; omega
  have hlen : j - s < (lslice l s n).length := by rw [lslice_length]; omega
  rw [← h1, List.getD_eq_getElem _ _ hlen]
  exact List.getElem_mem hlen

/-- Conversely, every slice member is an in-range read. -/
theorem mem_lslice_ex {α : Type} [Inhabited α] {l : List α} {s n : ℕ} {x : α}
    (h : x ∈ lslice l s n) :
    ∃ j, s ≤ j ∧ j < s + n ∧ j < l.length ∧ l.getD j default = x := by
  obtain ⟨k, hk, he⟩ := List.mem_iff_getElem.mp h
  rw [lslice_length] at hk
  refine ⟨s + k, by omega, by omega, by omega, ?_⟩
  rw [← he, List.getD_eq_getElem _ _ (by omega)]
  simp only [lslice, List.getElem_take, List.getElem_drop]

/-- Two lists of equal length that agree on a window have equal slices
there. -/
theorem lslice_congr {α : Type} [Inhabited α] {la lb : List α} {s n : ℕ}
    (hlen : la.length = lb.length)
    (h : ∀ j, s ≤ j → j < s + n → la.getD j default = lb.getD j default) :
    lslice la s n = lslice lb s n := by
  apply List.ext_getElem
  · rw [lslice_length, lslice_length, hlen]
  · intro k hk1 hk2
    rw [lslice_length] at hk1
    have h1 := h (s + k) (by omega) (by omega)
    rw [List.getD_eq_getElem _ _ (by omega), List.getD_eq_getElem _ _ (by omega)] at h1
    simpa only [lslice, List.getElem_take, List.getElem_drop] using h1

/-- A list decomposes around a window. -/
theorem lslice_decomp {α : Type} (l : List α) (s n : ℕ) :
    l = l.take s ++ (lslice l s n ++ l.drop (s + n)) := by
  rw [lslice, ← List.drop_drop]
  rw [List.take_append_drop n (l.drop s), List.take_append_drop s l]

/-- Permuted lists that agree outside a window have permuted windows. -/
theorem lslice_perm_of_frame {α : Type} [Inhabited α] [DecidableEq α]
    {la lb : List α} {s n : ℕ} (hperm : List.Perm la lb)
    (h : ∀ j, j < s ∨ s + n ≤ j → la.getD j default = lb.getD j default) :
    List.Perm (lslice la s n) (lslice lb s n) := by
  have hlen : la.length = lb.length := hperm.length_eq
  have htake : la.take s = lb.take s := by
    apply List.ext_getElem
    · simp [hlen]
    · intro k hk1 hk2
      have h1 := h k (Or.inl (by simp at hk1; omega))
      rw [List.getD_eq_getElem _ _ (by simp at hk1; omega),
        List.getD_eq_getElem _ _ (by simp at hk2; omega)] at h1
      simpa using h1
  have hdrop : la.drop (s + n) = lb.drop (s + n) := by
    apply List.ext_getElem
    · simp [hlen]
    · intro k hk1 hk2
      have h1 := h (s + n + k) (Or.inr (by omega))
      rw [List.getD_eq_getElem _ _ (by simp at hk1; omega),
        List.getD_eq_getElem _ _ (by simp at hk2; omega)] at h1
      simpa using h1
  rw [List.perm_iff_count]
  intro x
  have hca := congrArg (List.count x) (lslice_decomp la s n)
  have hcb := congrArg (List.count x) (lslice_decomp lb s n)
  rw [List.count_append, List.count_append] at hca hcb
  have hcp := List.Perm.count_eq hperm x
  rw [htake, hdrop] at hca
  omega

/-- Full specification of the partition loop of `BVH::subdivide`, relative
to its entry state: it adds the strictly-left triangles of the remaining
window contiguously after the already-placed left zone (in encounter
order), leaves everything before the left zone and after the window
untouched, permutes the array, keeps every element at or beyond the final
left zone non-left, and folds the two bounding boxes over exactly the left
and right parts of the window. -/
theorem partitionGo_spec (axis : ℕ) (sp : F) (start : ℕ) :
    ∀ (k i : ℕ) (acc : PartAcc),
      start + acc.left_count ≤ i →
      i + k ≤ acc.tris.length →
      (∀ j, start + acc.left_count ≤ j → j < i →
        triLeft axis sp (acc.tris.getD j default) = false) →
      (partitionGo axis sp start i k acc).left_count
          = acc.left_count
            + ((lslice acc.tris i k).filter (triLeft axis sp)).length ∧
      (partitionGo axis sp start i k acc).tris.length = acc.tris.length ∧
      (∀ j, j < start + acc.left_count ∨ i + k ≤ j →
        (partitionGo axis sp start i k acc).tris.getD j default
          = acc.tris.getD j default) ∧
      lslice (partitionGo axis sp start i k acc).tris (start + acc.left_count)
          ((lslice acc.tris i k).filter (triLeft axis sp)).length
        = (lslice acc.tris i k).filter (triLeft axis sp) ∧
      (∀ j, start + (partitionGo axis sp start i k acc).left_count ≤ j →
        j < i + k →
        triLeft axis sp
          ((partitionGo axis sp start i k acc).tris.getD j default) = false) ∧
      List.Perm (partitionGo axis sp start i k acc).tris acc.tris ∧
      ((partitionGo axis sp start i k acc).left_min,
        (partitionGo axis sp start i k acc).left_max)
        = foldFit ((lslice acc.tris i k).filter (triLeft axis sp))
            (acc.left_min, acc.left_max) ∧
      ((partitionGo axis sp start i k acc).right_min,
        (partitionGo axis sp start i k acc).right_max)
        = foldFit ((lslice acc.tris i k).filter (fun t => !triLeft axis sp t))
            (acc.right_min, acc.right_max) := by
  intro k
  induction k with
  | zero =>
    intro i acc h1 h2 h3
    refine ⟨by simp [partitionGo, lslice], rfl, fun j hj => rfl,
      by simp [partitionGo, lslice], ?_, List.Perm.refl _,
      by simp [partitionGo, lslice, foldFit],
      by simp [partitionGo, lslice, foldFit]⟩
    intro j hj1 hj2
    exact h3 j (Nat.le_trans (Nat.add_le_add_left (Nat.le_refl _) start) hj1)
      (by omega)
  | succ k ih =>
    intro i acc h1 h2 h3
    have hilen : i < acc.tris.length := by omega
    have hRS : lslice acc.tris i (k + 1)
        = acc.tris.getD i default :: lslice acc.tris (i + 1) k :=
      lslice_cons k hilen
    by_cases hP : triLeft axis sp (acc.tris.getD i default) = true
    · -- the element goes left: swap it into the left zone
      have hPlt : F.lt ((acc.tris.getD i default).centroid.get axis) sp = true := hP
      rw [partitionGo, if_pos hPlt]
      set tri := acc.tris.getD i default with htri
      set acc' : PartAcc :=
        { acc with
          left_min := (BVH.fit_bounds acc.left_min acc.left_max tri).1
          left_max := (BVH.fit_bounds acc.left_min acc.left_max tri).2
          tris := lswap acc.tris (start + acc.left_count) i
          left_count := acc.left_count + 1 } with hacc
      have hlc' : acc'.left_count = acc.left_count + 1 := by rw [hacc]
      have htris' : acc'.tris = lswap acc.tris (start + acc.left_count) i := by
        rw [hacc]
      have hlmin' : acc'.left_min = (BVH.fit_bounds acc.left_min acc.left_max tri).1 := by
        rw [hacc]
      have hlmax' : acc'.left_max = (BVH.fit_bounds acc.left_min acc.left_max tri).2 := by
        rw [hacc]
      have hrmin' : acc'.right_min = acc.right_min := by rw [hacc]
      have hrmax' : acc'.right_max = acc.right_max := by rw [hacc]
      have hlen' : acc'.tris.length = acc.tris.length := by
        rw [htris']; exact lswap_length _ _ _
      have hslc : start + acc.left_count < acc.tris.length := by omega
      have hswap_at : acc'.tris.getD (start + acc.left_count) default = tri := by
        rw [htris']
        by_cases he : start + acc.left_count = i
        · rw [he, lswap_getD_right _ _ _ hilen hilen]
        · exact lswap_getD_left _ _ _ hslc hilen he
      have hswap_i : acc'.tris.getD i default
          = acc.tris.getD (start + acc.left_count) default := by
        rw [htris']; exact lswap_getD_right _ _ _ hslc hilen
      have hfr : ∀ j, j ≠ start + acc.left_count → j ≠ i →
          acc'.tris.getD j default = acc.tris.getD j default := by
        intro j hj1 hj2
        rw [htris']; exact lswap_getD_ne _ _ _ _ hj1 hj2
      have hmid' : ∀ j, start + acc'.left_count ≤ j → j < i + 1 →
          triLeft axis sp (acc'.tris.getD j default) = false := by
        intro j hj1 hj2
        rw [hlc'] at hj1
        by_cases hji : j = i
        · subst hji
          rw [hswap_i]
          exact h3 _ (Nat.le_refl _) (by omega)
        · rw [hfr j (by omega) hji]
          exact h3 j (by omega) (by omega)
      have hRS' : lslice acc'.tris (i + 1) k = lslice acc.tris (i + 1) k := by
        refine lslice_congr hlen' ?_
        intro j hj1 hj2
        exact hfr j (by omega) (by omega)
      obtain ⟨ih1, ih2, ih3, ih4, ih5, ih6, ih7, ih8⟩ :=
        ih (i + 1) acc' (by rw [hlc']; omega) (by rw [hlen']; omega) hmid'
      rw [hRS'] at ih1 ih4 ih7 ih8
      rw [hlc'] at ih1 ih3 ih4
      rw [hlmin', hlmax'] at ih7
      rw [hrmin', hrmax'] at ih8
      rw [hlen'] at ih2
      have hfl : (lslice acc.tris i (k + 1)).filter (triLeft axis sp)
          = tri :: (lslice acc.tris (i + 1) k).filter (triLeft axis sp) := by
        rw [hRS, List.filter_cons_of_pos hP]
      have hflR : (lslice acc.tris i (k + 1)).filter (fun t => !triLeft axis sp t)
          = (lslice acc.tris (i + 1) k).filter (fun t => !triLeft axis sp t) := by
        rw [hRS, List.filter_cons_of_neg (by simp [hP])]
      refine ⟨?_, ?_, ?_, ?_, ?_, ?_, ?_, ?_⟩
      · rw [ih1, hfl]
        simp [Nat.add_assoc, Nat.add_comm 1]
      · exact ih2
      · intro j hj
        rw [ih3 j (by omega)]
        exact hfr j (by omega) (by omega)
      · rw [hfl]
        have hstep : start + acc.left_count
            < (partitionGo axis sp start (i + 1) k acc').tris.length := by
          rw [ih2]; omega
        rw [show ((tri :: (lslice acc.tris (i + 1) k).filter (triLeft axis sp)).length)
          = ((lslice acc.tris (i + 1) k).filter (triLeft axis sp)).length + 1 from by
            simp]
        rw [lslice_cons _ hstep]
        have hhd : (partitionGo axis sp start (i + 1) k acc').tris.getD
            (start + acc.left_count) default = tri := by
          rw [ih3 _ (by omega)]
          exact hswap_at
        rw [hhd, Nat.add_assoc]
        exact congrArg _ ih4
      · intro j hj1 hj2
        exact ih5 j hj1 (by omega)
      · rw [htris'] at ih6
        exact List.Perm.trans ih6 (lswap_perm _ _ _)
      · rw [ih7, hfl]
        rfl
      · rw [ih8, hflR]
    · -- the element stays right: no swap
      have hPlt : ¬(F.lt ((acc.tris.getD i default).centroid.get axis) sp = true) := hP
      rw [partitionGo, if_neg hPlt]
      set tri := acc.tris.getD i default with htri
      set acc' : PartAcc :=
        { acc with
          right_min := (BVH.fit_bounds acc.right_min acc.right_max tri).1
          right_max := (BVH.fit_bounds acc.right_min acc.right_max tri).2 } with hacc
      have hlc' : acc'.left_count = acc.left_count := by rw [hacc]
      have htris' : acc'.tris = acc.tris := by rw [hacc]
      have hlmin' : acc'.left_min = acc.left_min := by rw [hacc]
      have hlmax' : acc'.left_max = acc.left_max := by rw [hacc]
      have hrmin' : acc'.right_min = (BVH.fit_bounds acc.right_min acc.right_max tri).1 := by
        rw [hacc]
      have hrmax' : acc'.right_max = (BVH.fit_bounds acc.right_min acc.right_max tri).2 := by
        rw [hacc]
      have hmid' : ∀ j, start + acc'.left_count ≤ j → j < i + 1 →
          triLeft axis sp (acc'.tris.getD j default) = false := by
        intro j hj1 hj2
        rw [hlc'] at hj1
        rw [htris']
        by_cases hji : j = i
        · subst hji
          exact Bool.eq_false_iff.mpr hP
        · exact h3 j hj1 (by omega)
      obtain ⟨ih1, ih2, ih3, ih4, ih5, ih6, ih7, ih8⟩ :=
        ih (i + 1) acc' (by rw [hlc']; omega) (by rw [htris']; omega) hmid'
      rw [htris'] at ih1 ih2 ih3 ih4 ih6
      rw [hlc'] at ih1 ih3 ih4
      rw [hlmin', hlmax'] at ih7
      rw [hrmin', hrmax'] at ih8
      rw [htris'] at ih7 ih8
      have hfl : (lslice acc.tris i (k + 1)).filter (triLeft axis sp)
          = (lslice acc.tris (i + 1) k).filter (triLeft axis sp) := by
        rw [hRS, List.filter_cons_of_neg hP]
      have hflR : (lslice acc.tris i (k + 1)).filter (fun t => !triLeft axis sp t)
          = tri :: (lslice acc.tris (i + 1) k).filter (fun t => !triLeft axis sp t) := by
        rw [hRS, List.filter_cons_of_pos
          (by rw [Bool.not_eq_true']; exact Bool.eq_false_iff.mpr hP)]
      refine ⟨?_, ?_, ?_, ?_, ?_, ?_, ?_, ?_⟩
      · rw [ih1, hfl]
      · exact ih2
      · intro j hj
        exact ih3 j (by omega)
      · rw [hfl]
        exact ih4
      · intro j hj1 hj2
        exact ih5 j hj1 (by omega)
      · exact ih6
      · rw [ih7, hfl]
      · rw [ih8, hflR]
        rfl

/-!
Characterisation of `evaluate_sah` and `find_best_split`.
-/

/-- The index-based SAH scan is the fold of `sahStepT` over the slice it
reads. -/
theorem sah_range_fold (s : BVH) (axis : ℕ) (pos : F) :
    ∀ (count start : ℕ), start + count ≤ s.build_triangles.length →
      ∀ acc, (List.range' start count).foldl (BVH.sahStep s axis pos) acc
        = (lslice s.build_triangles start count).foldl (sahStepT axis pos) acc := by
  intro count
  induction count with
  | zero => intro start h acc; rfl
  | succ count ih =>
    intro start h acc
    rw [List.range'_succ, lslice_cons count (by omega), List.foldl_cons,
      List.foldl_cons, ih (start + 1) (by omega)]
    rfl

/-- The SAH scan counts and grows exactly the left/right parts of the list
it folds over. -/
theorem sahFoldT_spec (axis : ℕ) (pos : F) :
    ∀ (l : List BVHTriangle) (acc : BVH.SahAcc) (m r : ℕ),
      acc.left_count = F.fin m → acc.right_count = F.fin r →
      (l.foldl (sahStepT axis pos) acc).left_count
          = F.fin ((m + (l.filter (triLeft axis pos)).length : ℕ)) ∧
      (l.foldl (sahStepT axis pos) acc).right_count
          = F.fin ((r + (l.filter (fun t => !triLeft axis pos t)).length : ℕ)) ∧
      ((l.filter (triLeft axis pos)).length = 0 →
        (l.foldl (sahStepT axis pos) acc).left_bounds = acc.left_bounds) ∧
      ((l.filter (fun t => !triLeft axis pos t)).length = 0 →
        (l.foldl (sahStepT axis pos) acc).right_bounds = acc.right_bounds) := by
  intro l
  induction l with
  | nil =>
    intro acc m r hm hr
    exact ⟨by simpa using hm, by simpa using hr, fun h => rfl, fun h => rfl⟩
  | cons t l ih =>
    intro acc m r hm hr
    by_cases hP : triLeft axis pos t = true
    · have hPlt : F.lt (t.centroid.get axis) pos = true := hP
      have hstep : sahStepT axis pos acc t
          = { acc with left_count := F.add acc.left_count (F.fin 1)
                       left_bounds := acc.left_bounds.grow t } := by
        rw [sahStepT, if_pos hPlt]
      have hlc : (sahStepT axis pos acc t).left_count = F.fin ((m + 1 : ℕ)) := by
        rw [hstep]
        show F.add acc.left_count (F.fin 1) = _
        rw [hm]
        show F.fin (qadd m 1) = _
        rw [qadd_eq]
        norm_num
      have hrc : (sahStepT axis pos acc t).right_count = F.fin r := by
        rw [hstep]; exact hr
      obtain ⟨ih1, ih2, ih3, ih4⟩ :=
        ih (sahStepT axis pos acc t) (m + 1) r hlc hrc
      rw [List.foldl_cons]
      have hfp : List.filter (triLeft axis pos) (t :: l)
          = t :: List.filter (triLeft axis pos) l := List.filter_cons_of_pos hP
      have hfn : List.filter (fun x => !triLeft axis pos x) (t :: l)
          = List.filter (fun x => !triLeft axis pos x) l :=
        List.filter_cons_of_neg (by simp [hP])
      refine ⟨?_, ?_, ?_, ?_⟩
      · rw [ih1, hfp]
        congr 1
        simp only [List.length_cons]
        push_cast
        ring
      · rw [ih2, hfn]
      · intro hc
        rw [hfp] at hc
        simp at hc
      · intro hc
        rw [hfn] at hc
        rw [ih4 hc, hstep]
    · have hPlt : ¬(F.lt (t.centroid.get axis) pos = true) := hP
      have hstep : sahStepT axis pos acc t
          = { acc with right_count := F.add acc.right_count (F.fin 1)
                       right_bounds := acc.right_bounds.grow t } := by
        rw [sahStepT, if_neg hPlt]
      have hlc : (sahStepT axis pos acc t).left_count = F.fin m := by
        rw [hstep]; exact hm
      have hrc : (sahStepT axis pos acc t).right_count = F.fin ((r + 1 : ℕ)) := by
        rw [hstep]
        show F.add acc.right_count (F.fin 1) = _
        rw [hr]
        show F.fin (qadd r 1) = _
        rw [qadd_eq]
        norm_num
      obtain ⟨ih1, ih2, ih3, ih4⟩ :=
        ih (sahStepT axis pos acc t) m (r + 1) hlc hrc
      rw [List.foldl_cons]
      have hfp : List.filter (triLeft axis pos) (t :: l)
          = List.filter (triLeft axis pos) l := List.filter_cons_of_neg hP
      have hfn : List.filter (fun x => !triLeft axis pos x) (t :: l)
          = t :: List.filter (fun x => !triLeft axis pos x) l :=
        List.filter_cons_of_pos (by simp [Bool.eq_false_iff.mpr hP])
      refine ⟨?_, ?_, ?_, ?_⟩
      · rw [ih1, hfp]
      · rw [ih2, hfn]
        congr 1
        simp only [List.length_cons]
        push_cast
        ring
      · intro hc
        rw [hfp] at hc
        rw [ih3 hc, hstep]
      · intro hc
        rw [hfn] at hc
        simp at hc

/-- If a candidate split puts every triangle of the range on one side, its
SAH cost is NaN (`0.0 * inf` from the un-grown default box). -/
theorem evaluate_sah_nan (s : BVH) (axis : ℕ) (pos : F) (start count : ℕ)
    (hsc : start + count ≤ s.build_triangles.length)
    (h : ((lslice s.build_triangles start count).filter (triLeft axis pos)).length = 0
      ∨ ((lslice s.build_triangles start count).filter
          (fun t => !triLeft axis pos t)).length = 0) :
    s.evaluate_sah axis pos start count = F.nan := by
  rw [BVH.evaluate_sah]
  rw [show (List.range' start count).foldl (BVH.sahStep s axis pos)
        ⟨default, default, F.fin 0, F.fin 0⟩
      = (lslice s.build_triangles start count).foldl (sahStepT axis pos)
        ⟨default, default, F.fin 0, F.fin 0⟩ from
     sah_range_fold s axis pos count start hsc _]
  obtain ⟨h1, h2, h3, h4⟩ := sahFoldT_spec axis pos
    (lslice s.build_triangles start count) ⟨default, default, F.fin 0, F.fin 0⟩
    0 0 (by norm_num) (by norm_num)
  rcases h with h | h
  · rw [h1, h3 h, h]
    show F.add (F.mul (F.fin 0) (Aabb.half_area default)) _ = F.nan
    rw [Aabb.half_area_default]
    rw [show F.mul (F.fin 0) F.pinf = F.nan from rfl, F.add_nan_left]
  · rw [h2, h4 h, h]
    show F.add _ (F.mul (F.fin 0) (Aabb.half_area default)) = F.nan
    rw [Aabb.half_area_default]
    rw [show F.mul (F.fin 0) F.pinf = F.nan from rfl, F.add_nan_right]

/-- A candidate split whose cost beats anything puts at least one triangle
on each side of the range. -/
theorem evaluate_sah_lt_balanced (s : BVH) (axis : ℕ) (pos : F)
    (start count : ℕ) (c : F)
    (hsc : start + count ≤ s.build_triangles.length)
    (h : F.lt (s.evaluate_sah axis pos start count) c = true) :
    1 ≤ ((lslice s.build_triangles start count).filter (triLeft axis pos)).length ∧
    ((lslice s.build_triangles start count).filter (triLeft axis pos)).length
      < count := by
  have hleft : ¬((lslice s.build_triangles start count).filter
      (triLeft axis pos)).length = 0 := by
    intro hz
    rw [evaluate_sah_nan s axis pos start count hsc (Or.inl hz), F.lt_nan_left] at h
    exact Bool.false_ne_true h
  have hright : ¬((lslice s.build_triangles start count).filter
      (fun t => !triLeft axis pos t)).length = 0 := by
    intro hz
    rw [evaluate_sah_nan s axis pos start count hsc (Or.inr hz), F.lt_nan_left] at h
    exact Bool.false_ne_true h
  have hsum : ((lslice s.build_triangles start count).filter (triLeft axis pos)).length
      + ((lslice s.build_triangles start count).filter
          (fun t => !triLeft axis pos t)).length
      = count := by
    have hperm := List.filter_append_perm (triLeft axis pos)
      (lslice s.build_triangles start count)
    have hlenp := hperm.length_eq
    rw [List.length_append] at hlenp
    rw [hlenp, lslice_length_of_le hsc]
  omega

/-- A fold preserves any invariant its step preserves. -/
theorem foldl_inv {α β : Type} (Inv : α → Prop) (f : α → β → α)
    (hf : ∀ st b, Inv st → Inv (f st b)) :
    ∀ (l : List β) (a : α), Inv a → Inv (l.foldl f a) := by
  intro l
  induction l with
  | nil => intro a ha; exact ha
  | cons x xs ih => intro a ha; exact ih _ (hf a x ha)

/-- The best-so-far triple is either still infinite or the SAH cost of its
own axis/position: preserved by one split test. -/
theorem highSplitStep_inv (s : BVH) (a : ℕ) (axis_min axis_size : F)
    (nt start count : ℕ) (st2 : ℕ × F × F) (i : ℕ)
    (h : st2.2.2 = F.pinf ∨ st2.2.2 = s.evaluate_sah st2.1 st2.2.1 start count) :
    (BVH.highSplitStep s a axis_min axis_size nt start count st2 i).2.2 = F.pinf ∨
    (BVH.highSplitStep s a axis_min axis_size nt start count st2 i).2.2
      = s.evaluate_sah
          (BVH.highSplitStep s a axis_min axis_size nt start count st2 i).1
          (BVH.highSplitStep s a axis_min axis_size nt start count st2 i).2.1
          start count := by
  rw [BVH.highSplitStep]
  split
  · exact Or.inr rfl
  · exact h

/-- The same invariant is preserved by a whole axis pass. -/
theorem highAxisStep_inv (s : BVH) (node : Node) (bounds : Vec3)
    (max_axis : F) (start count : ℕ) (st : ℕ × F × F) (a : ℕ)
    (h : st.2.2 = F.pinf ∨ st.2.2 = s.evaluate_sah st.1 st.2.1 start count) :
    (BVH.highAxisStep s node bounds max_axis start count st a).2.2 = F.pinf ∨
    (BVH.highAxisStep s node bounds max_axis start count st a).2.2
      = s.evaluate_sah
          (BVH.highAxisStep s node bounds max_axis start count st a).1
          (BVH.highAxisStep s node bounds max_axis start count st a).2.1
          start count := by
  rw [BVH.highAxisStep]
  split
  · exact h
  · exact foldl_inv
      (fun st2 : ℕ × F × F => st2.2.2 = F.pinf
        ∨ st2.2.2 = s.evaluate_sah st2.1 st2.2.1 start count)
      (BVH.highSplitStep s a (node.aabb_min.get a) (bounds.get a) _ start count)
      (fun st2 i hinv => highSplitStep_inv s a _ _ _ start count st2 i hinv)
      _ st h

/-- `find_best_split` returns either an infinite cost or the SAH cost of
exactly the axis/position pair it returns. -/
theorem find_best_split_cases (s : BVH) (node : Node) (a0 : ℕ) (s0 : F)
    (start count : ℕ) :
    (s.find_best_split node a0 s0 start count).2.2 = F.pinf ∨
    (s.find_best_split node a0 s0 start count).2.2
      = s.evaluate_sah (s.find_best_split node a0 s0 start count).1
          (s.find_best_split node a0 s0 start count).2.1 start count := by
  rw [BVH.find_best_split]
  by_cases hc : node.count ≤ 1
  · rw [if_pos hc]; exact Or.inl rfl
  · rw [if_neg hc]
    cases hq : s.quality with
    | Disabled => exact Or.inl rfl
    | Low => exact Or.inr rfl
    | High =>
      exact foldl_inv
        (fun st : ℕ × F × F => st.2.2 = F.pinf
          ∨ st.2.2 = s.evaluate_sah st.1 st.2.1 start count)
        (BVH.highAxisStep s node (Vec3.sub node.aabb_max node.aabb_min)
          (F.fmax (Vec3.sub node.aabb_max node.aabb_min).x
            (F.fmax (Vec3.sub node.aabb_max node.aabb_min).y
              (Vec3.sub node.aabb_max node.aabb_min).z)) start count)
        (fun st a hinv => highAxisStep_inv s node _ _ start count st a hinv)
        (List.range 3) (a0, s0, F.pinf) (Or.inl rfl)

/-- Specification of the whole partition pass over `[start, start + n)`:
`left_count` counts the strictly-left triangles of the window, the window is
reordered into the left part (in encounter order) followed by only non-left
elements, everything outside the window is untouched, the whole array is a
permutation of the input, and the two boxes fold over exactly the left and
right parts. -/
theorem partitionRange_spec (tris : List BVHTriangle) (axis : ℕ) (sp : F)
    (start n : ℕ) (hlen : start + n ≤ tris.length) :
    (partitionRange tris axis sp start n).left_count
        = ((lslice tris start n).filter (triLeft axis sp)).length ∧
    (partitionRange tris axis sp start n).tris.length = tris.length ∧
    (∀ j, j < start ∨ start + n ≤ j →
      (partitionRange tris axis sp start n).tris.getD j default
        = tris.getD j default) ∧
    lslice (partitionRange tris axis sp start n).tris start
        ((lslice tris start n).filter (triLeft axis sp)).length
      = (lslice tris start n).filter (triLeft axis sp) ∧
    (∀ j, start + (partitionRange tris axis sp start n).left_count ≤ j →
      j < start + n →
      triLeft axis sp
        ((partitionRange tris axis sp start n).tris.getD j default) = false) ∧
    List.Perm (partitionRange tris axis sp start n).tris tris ∧
    ((partitionRange tris axis sp start n).left_min,
      (partitionRange tris axis sp start n).left_max)
      = foldFit ((lslice tris start n).filter (triLeft axis sp)) (vMAX, vMIN) ∧
    ((partitionRange tris axis sp start n).right_min,
      (partitionRange tris axis sp start n).right_max)
      = foldFit ((lslice tris start n).filter (fun t => !triLeft axis sp t))
          (vMAX, vMIN) := by
  have h := partitionGo_spec axis sp start n start
    ⟨tris, vMAX, vMIN, vMAX, vMIN, 0⟩
    (by simp) (by simpa using hlen) (by intro j hj1 hj2; omega)
  simpa [partitionRange] using h

/-- A best split whose cost beats anything (in particular an accepted split,
whose cost beats the parent cost) puts at least one triangle strictly left
and at least one not-left: its `left_count` after partitioning is in
`[1, n)`.  This is the NaN mechanism: a one-sided candidate has SAH cost
`0.0 * (+inf) = NaN`, and `NaN < c` is false. -/
theorem fbs_lt_balanced (s : BVH) (node : Node) (a0 : ℕ) (s0 : F)
    (start count : ℕ) (c : F)
    (hsc : start + count ≤ s.build_triangles.length)
    (h : F.lt (s.find_best_split node a0 s0 start count).2.2 c = true) :
    1 ≤ ((lslice s.build_triangles start count).filter
          (triLeft (s.find_best_split node a0 s0 start count).1
            (s.find_best_split node a0 s0 start count).2.1)).length ∧
    ((lslice s.build_triangles start count).filter
          (triLeft (s.find_best_split node a0 s0 start count).1
            (s.find_best_split node a0 s0 start count).2.1)).length < count := by
  rcases find_best_split_cases s node a0 s0 start count with hc | hc
  · rw [hc, F.lt_pinf_left] at h
    exact absurd h Bool.false_ne_true
  · have h' : F.lt (s.evaluate_sah (s.find_best_split node a0 s0 start count).1
        (s.find_best_split node a0 s0 start count).2.1 start count) c = true := by
      rw [← hc]; exact h
    exact evaluate_sah_lt_balanced s _ _ start count c hsc h'

/-!
Reading lemmas for `set`/append, the leaf-range multiset, and the accepted
split state.
-/

/-- Reading an append in its left part. -/
theorem getD_append_left {α : Type} [Inhabited α] (l1 l2 : List α) (j : ℕ)
    (h : j < l1.length) :
    (l1 ++ l2).getD j default = l1.getD j default := by
  simp only [List.getD_eq_getElem?_getD]
  rw [List.getElem?_append, if_pos h]

/-- Reading an append in its right part. -/
theorem getD_append_right {α : Type} [Inhabited α] (l1 l2 : List α) (j : ℕ)
    (h : l1.length ≤ j) :
    (l1 ++ l2).getD j default = l2.getD (j - l1.length) default := by
  simp only [List.getD_eq_getElem?_getD]
  rw [List.getElem?_append_right h]

/-- Reading a `set` away from the written position. -/
theorem getD_set_ne {α : Type} [Inhabited α] (l : List α) (i j : ℕ) (a : α)
    (h : i ≠ j) :
    (l.set i a).getD j default = l.getD j default := by
  simp only [List.getD_eq_getElem?_getD]
  rw [List.getElem?_set_ne h]

/-- Reading a `set` at the written position. -/
theorem getD_set_self {α : Type} [Inhabited α] (l : List α) (i : ℕ) (a : α)
    (h : i < l.length) :
    (l.set i a).getD i default = a := by
  simp only [List.getD_eq_getElem?_getD]
  rw [List.getElem?_set_self (by simpa using h)]
  rfl

/-- `leafMS` of a cons. -/
theorem leafMS_cons (x : Node) (l : List Node) :
    leafMS (x :: l)
      = ((List.range' x.first x.count : List ℕ) : Multiset ℕ) + leafMS l := by
  simp [leafMS]

/-- `leafMS` of an append. -/
theorem leafMS_append (l1 l2 : List Node) :
    leafMS (l1 ++ l2) = leafMS l1 + leafMS l2 := by
  simp [leafMS]

/-- `leafMS` of a `set`: the written node's range replaces the old one. -/
theorem leafMS_set (l : List Node) (i : ℕ) (a : Node) (h : i < l.length) :
    leafMS (l.set i a)
        + ((List.range' (l.getD i default).first (l.getD i default).count :
            List ℕ) : Multiset ℕ)
      = leafMS l + ((List.range' a.first a.count : List ℕ) : Multiset ℕ) := by
  induction l generalizing i with
  | nil => simp at h
  | cons x xs ih =>
    cases i with
    | zero =>
      simp only [List.set_cons_zero, leafMS_cons, List.getD_cons_zero]
      abel
    | succ i =>
      simp only [List.set_cons_succ, leafMS_cons, List.getD_cons_succ]
      have := ih i (by simpa using h)
      rw [add_assoc, this]
      abel

/-- Splitting a contiguous index range as a multiset. -/
theorem range_ms_split (s m n : ℕ) :
    ((List.range' s m : List ℕ) : Multiset ℕ)
        + ((List.range' (s + m) n : List ℕ) : Multiset ℕ)
      = ((List.range' s (m + n) : List ℕ) : Multiset ℕ) := by
  rw [Multiset.coe_add]
  congr 1
  rw [List.range'_append_1, Nat.add_comm]

/-- The accepted-split state installs the partitioned triangle array. -/
theorem acceptState_bt (s : BVH) (idx start n : ℕ) (p : PartAcc) :
    (BVH.acceptState s idx start n p).build_triangles = p.tris := rfl

/-- The accepted-split state bumps `n_nodes` by two. -/
theorem acceptState_n_nodes (s : BVH) (idx start n : ℕ) (p : PartAcc) :
    (BVH.acceptState s idx start n p).n_nodes = s.n_nodes + 2 := rfl

/-- The accepted-split state appends two nodes. -/
theorem acceptState_nodes_length (s : BVH) (idx start n : ℕ) (p : PartAcc) :
    (BVH.acceptState s idx start n p).nodes.length = s.nodes.length + 2 := by
  simp [BVH.acceptState]

/-- Other existing nodes are untouched by an accepted split. -/
theorem acceptState_getD_lt (s : BVH) (idx start n : ℕ) (p : PartAcc)
    (j : ℕ) (hj : j < s.nodes.length) (hji : j ≠ idx) :
    (BVH.acceptState s idx start n p).nodes.getD j default
      = s.nodes.getD j default := by
  show ((s.nodes ++ _).set idx _).getD j default = _
  rw [getD_set_ne _ _ _ _ (Ne.symm hji), getD_append_left _ _ _ hj]

/-- The split node becomes an interior node pointing at the two appended
children, keeping its `first` and box. -/
theorem acceptState_getD_idx (s : BVH) (idx start n : ℕ) (p : PartAcc)
    (hidx : idx < s.nodes.length) :
    (BVH.acceptState s idx start n p).nodes.getD idx default
      = { s.nodes.getD idx default with
          left := s.n_nodes, right := s.n_nodes + 1, count := 0 } := by
  show ((s.nodes ++ _).set idx _).getD idx default = _
  rw [getD_set_self _ _ _ (by simp only [List.length_append]; omega),
    getD_append_left _ _ _ hidx]

/-- The appended left child owns `[start, start + left_count)` with the
left partition box. -/
theorem acceptState_getD_left (s : BVH) (idx start n : ℕ) (p : PartAcc)
    (hidx : idx < s.nodes.length) :
    (BVH.acceptState s idx start n p).nodes.getD s.nodes.length default
      = { left := 0, right := 0, first := start, count := p.left_count
          aabb_min := p.left_min, aabb_max := p.left_max } := by
  show ((s.nodes ++ _).set idx _).getD s.nodes.length default = _
  rw [getD_set_ne _ _ _ _ (by omega),
    getD_append_right _ _ _ (Nat.le_refl _), Nat.sub_self]
  rfl

/-- The appended right child owns `[start + left_count, start + n)` with the
right partition box. -/
theorem acceptState_getD_right (s : BVH) (idx start n : ℕ) (p : PartAcc)
    (hidx : idx < s.nodes.length) :
    (BVH.acceptState s idx start n p).nodes.getD (s.nodes.length + 1) default
      = { left := 0, right := 0, first := start + p.left_count
          count := n - p.left_count
          aabb_min := p.right_min, aabb_max := p.right_max } := by
  show ((s.nodes ++ _).set idx _).getD (s.nodes.length + 1) default = _
  rw [getD_set_ne _ _ _ _ (by omega),
    getD_append_right _ _ _ (by omega), Nat.add_sub_cancel_left]
  rfl

/-- Setting a count-zero node removes the old node's range from `leafMS`. -/
theorem leafMS_set_zero (l : List Node) (i : ℕ) (a : Node) (h : i < l.length)
    (ha : a.count = 0) :
    leafMS (l.set i a)
        + ((List.range' (l.getD i default).first (l.getD i default).count :
            List ℕ) : Multiset ℕ)
      = leafMS l := by
  have h1 := leafMS_set l i a h
  rw [ha] at h1
  simpa using h1

/-- Replacing a node by an interior (count-zero) copy while appending two
children that tile its range preserves `leafMS`. -/
theorem leafMS_accept_helper (l : List Node) (idx : ℕ) (L R : Node)
    (x y : ℕ) (hidx : idx < l.length)
    (hfirst : (l.getD idx default).first = L.first)
    (hcount : (l.getD idx default).count = L.count + R.count)
    (hR : R.first = L.first + L.count) :
    leafMS ((l ++ [L, R]).set idx
      { (l ++ [L, R]).getD idx default with left := x, right := y, count := 0 })
      = leafMS l := by
  have hlen : idx < (l ++ [L, R]).length := by
    rw [List.length_append]; omega
  have h1 := leafMS_set_zero (l ++ [L, R]) idx
    ({ (l ++ [L, R]).getD idx default with left := x, right := y, count := 0 })
    hlen rfl
  rw [getD_append_left _ _ _ hidx] at h1 ⊢
  rw [hfirst, hcount] at h1
  have h2 : leafMS (l ++ [L, R])
      = leafMS l
        + ((List.range' L.first (L.count + R.count) : List ℕ) : Multiset ℕ) := by
    rw [leafMS_append, leafMS_cons, leafMS_cons,
      show leafMS [] = 0 from rfl, add_zero, hR,
      range_ms_split L.first L.count R.count]
  rw [h2] at h1
  exact add_right_cancel h1

/-- An accepted split preserves the multiset of leaf-owned triangle
indices: the parent's range `[start, start + n)` is replaced by the two
children's ranges, which tile it. -/
theorem acceptState_leafMS (s : BVH) (idx start n : ℕ) (p : PartAcc)
    (hidx : idx < s.nodes.length)
    (hfirst : (s.nodes.getD idx default).first = start)
    (hcount : (s.nodes.getD idx default).count = n)
    (hlc : p.left_count ≤ n) :
    leafMS (BVH.acceptState s idx start n p).nodes = leafMS s.nodes := by
  refine leafMS_accept_helper s.nodes idx _ _ s.n_nodes (s.n_nodes + 1)
    hidx hfirst ?_ ?_
  · rw [hcount]
    show n = p.left_count + (n - p.left_count)
    omega
  · rfl

/-- `SubInv` holds reflexively for any well-formed state. -/
theorem SubInv_refl (s : BVH) (idx start n : ℕ)
    (h : s.n_nodes = s.nodes.length) : SubInv s s idx start n :=
  ⟨h, Nat.le_refl _, fun _ _ _ => rfl, rfl, Nat.le_refl _, rfl, rfl, rfl, rfl,
    fun _ _ => rfl, List.Perm.refl _,
    fun _ hj1 hj2 => ((Nat.not_lt.mpr hj1) hj2).elim⟩

/-- Master structural invariant of the subdivision recursion: a `subdivide`
call on a well-formed state (node count matching the array, node `idx`
present and owning exactly `[start, start + n)` inside the triangle array)
satisfies `SubInv` — in particular it preserves the leaf-owned index
multiset and only permutes the triangle window it owns. -/
theorem subdivideGo_master :
    ∀ (fuel : ℕ) (s : BVH) (stats : BVHStats) (idx start n d : ℕ),
      s.n_nodes = s.nodes.length →
      idx < s.nodes.length →
      (s.nodes.getD idx default).first = start →
      (s.nodes.getD idx default).count = n →
      start + n ≤ s.build_triangles.length →
      SubInv s (BVH.subdivideGo fuel s stats idx start n d).1 idx start n := by
  intro fuel
  induction fuel with
  | zero =>
    intro s stats idx start n d h1 h2 h3 h4 h5
    exact SubInv_refl s idx start n h1
  | succ fuel ih =>
    intro s stats idx start n d h1 h2 h3 h4 h5
    rw [BVH.subdivideGo]
    split
    · rename_i hacc
      rw [Bool.and_eq_true, decide_eq_true_eq] at hacc
      obtain ⟨hlt, hd⟩ := hacc
      set fbs := s.find_best_split (s.nodes.getD idx default) 0 (F.fin 0)
        start n with hfbs
      set P := partitionRange s.build_triangles fbs.1 fbs.2.1 start n with hPd
      have hspec := partitionRange_spec s.build_triangles fbs.1 fbs.2.1
        start n h5
      rw [← hPd] at hspec
      obtain ⟨hPlc, hPlen, hPframe, hPleft, hPnleft, hPperm, hPlbox, hPrbox⟩ :=
        hspec
      have hbal := fbs_lt_balanced s (s.nodes.getD idx default) 0 (F.fin 0)
        start n (s.nodes.getD idx default).cost h5 (by rw [← hfbs]; exact hlt)
      rw [← hfbs] at hbal
      have hlc1 : 1 ≤ P.left_count := by rw [hPlc]; exact hbal.1
      have hlcn : P.left_count < n := by rw [hPlc]; exact hbal.2
      set t := BVH.acceptState s idx start n P with ht
      have htbt : t.build_triangles = P.tris := by
        rw [ht]; exact acceptState_bt s idx start n P
      have htnn : t.n_nodes = s.n_nodes + 2 := by
        rw [ht]; exact acceptState_n_nodes s idx start n P
      have htlen : t.nodes.length = s.nodes.length + 2 := by
        rw [ht]; exact acceptState_nodes_length s idx start n P
      have htL : t.nodes.getD s.n_nodes default
          = { left := 0, right := 0, first := start, count := P.left_count
              aabb_min := P.left_min, aabb_max := P.left_max } := by
        rw [ht, h1]; exact acceptState_getD_left s idx start n P h2
      have htR : t.nodes.getD (s.n_nodes + 1) default
          = { left := 0, right := 0, first := start + P.left_count
              count := n - P.left_count
              aabb_min := P.right_min, aabb_max := P.right_max } := by
        rw [ht, h1]; exact acceptState_getD_right s idx start n P h2
      have htidx : t.nodes.getD idx default
          = { s.nodes.getD idx default with
              left := s.n_nodes, right := s.n_nodes + 1, count := 0 } := by
        rw [ht]; exact acceptState_getD_idx s idx start n P h2
      have htfr : ∀ j, j < s.nodes.length → j ≠ idx →
          t.nodes.getD j default = s.nodes.getD j default := by
        intro j hj hji
        rw [ht]; exact acceptState_getD_lt s idx start n P j hj hji
      have htms : leafMS t.nodes = leafMS s.nodes := by
        rw [ht]
        exact acceptState_leafMS s idx start n P h2 h3 h4 (Nat.le_of_lt hlcn)
      have ihL := ih t stats.record_node s.n_nodes start P.left_count (d + 1)
        (by rw [htnn, htlen, h1])
        (by rw [htlen]; omega)
        (by rw [htL])
        (by rw [htL])
        (by rw [htbt, hPlen]; omega)
      set r1 := BVH.subdivideGo fuel t stats.record_node s.n_nodes start
        P.left_count (d + 1) with hr1
      obtain ⟨iL1, iL2, iL3, iL4, iL5, iL6, iL7, iL8, iL9, iL10, iL11, iL12⟩ :=
        ihL
      have hr1R : r1.1.nodes.getD (s.n_nodes + 1) default
          = { left := 0, right := 0, first := start + P.left_count
              count := n - P.left_count
              aabb_min := P.right_min, aabb_max := P.right_max } := by
        rw [iL3 (s.n_nodes + 1) (by omega) (by omega), htR]
      have ihR := ih r1.1 r1.2 (s.n_nodes + 1) (start + P.left_count)
        (n - P.left_count) (d + 1)
        iL1
        (by have := iL2; omega)
        (by rw [hr1R])
        (by rw [hr1R])
        (by rw [iL9, htbt, hPlen]; omega)
      set r := BVH.subdivideGo fuel r1.1 r1.2 (s.n_nodes + 1)
        (start + P.left_count) (n - P.left_count) (d + 1) with hr
      obtain ⟨iR1, iR2, iR3, iR4, iR5, iR6, iR7, iR8, iR9, iR10, iR11, iR12⟩ :=
        ihR
      have hidxr1 : r1.1.nodes.getD idx default
          = { s.nodes.getD idx default with
              left := s.n_nodes, right := s.n_nodes + 1, count := 0 } := by
        rw [iL3 idx (by omega) (by omega), htidx]
      have hidxr : r.1.nodes.getD idx default
          = { s.nodes.getD idx default with
              left := s.n_nodes, right := s.n_nodes + 1, count := 0 } := by
        rw [iR3 idx (by omega) (by omega), hidxr1]
      refine ⟨iR1, by omega, ?_, ?_, ?_, ?_, ?_, ?_, ?_, ?_, ?_, ?_⟩
      · -- frame on pre-existing nodes
        intro j hj hji
        rw [iR3 j (by omega) (by omega), iL3 j (by omega) (by omega),
          htfr j hj hji]
      · rw [hidxr]
      · rw [hidxr]
        exact Nat.zero_le _
      · rw [hidxr]
      · rw [hidxr]
      · -- leafMS preserved
        rw [iR8, iL8, htms]
      · -- triangle array length preserved
        rw [iR9, iL9, htbt, hPlen]
      · -- frame outside the window
        intro j hj
        have e3 : r.1.build_triangles.getD j default
            = r1.1.build_triangles.getD j default := by
          refine iR10 j ?_
          rcases hj with hj | hj
          · exact Or.inl (by omega)
          · exact Or.inr (by omega)
        have e2 : r1.1.build_triangles.getD j default
            = t.build_triangles.getD j default := by
          refine iL10 j ?_
          rcases hj with hj | hj
          · exact Or.inl hj
          · exact Or.inr (by omega)
        have e1 : t.build_triangles.getD j default
            = s.build_triangles.getD j default := by
          rw [htbt]; exact hPframe j hj
        rw [e3, e2, e1]
      · -- permutation
        exact iR11.trans (iL11.trans (by rw [htbt]; exact hPperm))
      · -- appended nodes stay inside the window
        intro j hjs hjr
        by_cases hj1 : j < t.nodes.length
        · by_cases hjL : j = s.n_nodes
          · have e : r.1.nodes.getD j default = r1.1.nodes.getD j default :=
              iR3 j (by omega) (by omega)
            rw [e, hjL]
            have f1 : (r1.1.nodes.getD s.n_nodes default).first = start := by
              rw [iL4, htL]
            have f2 : (r1.1.nodes.getD s.n_nodes default).count
                ≤ P.left_count := by
              have h' := iL5
              rw [htL] at h'
              exact h'
            omega
          · have hjR : j = s.n_nodes + 1 := by omega
            rw [hjR]
            have f1 : (r.1.nodes.getD (s.n_nodes + 1) default).first
                = start + P.left_count := by
              rw [iR4, hr1R]
            have f2 : (r.1.nodes.getD (s.n_nodes + 1) default).count
                ≤ n - P.left_count := by
              have h' := iR5
              rw [hr1R] at h'
              exact h'
            omega
        · by_cases hj2 : j < r1.1.nodes.length
          · have hb := iL12 j (by omega) hj2
            have e : r.1.nodes.getD j default = r1.1.nodes.getD j default :=
              iR3 j hj2 (by omega)
            rw [e]
            omega
          · have hb := iR12 j (by omega) hjr
            omega
    · exact SubInv_refl s idx start n h1

/-- `subdivide` form of the master invariant. -/
theorem subdivide_master (s : BVH) (stats : BVHStats) (idx start n d : ℕ)
    (h1 : s.n_nodes = s.nodes.length) (h2 : idx < s.nodes.length)
    (h3 : (s.nodes.getD idx default).first = start)
    (h4 : (s.nodes.getD idx default).count = n)
    (h5 : start + n ≤ s.build_triangles.length) :
    SubInv s (s.subdivide stats idx start n d).1 idx start n :=
  subdivideGo_master _ s stats idx start n d h1 h2 h3 h4 h5

/-- `leafMS` of a one-node array. -/
theorem leafMS_singleton (x : Node) :
    leafMS [x] = ((List.range' x.first x.count : List ℕ) : Multiset ℕ) := by
  rw [leafMS_cons, show leafMS [] = 0 from rfl, add_zero]

/-- The pre-subdivision root state's single node owns `[0, n_tris)`. -/
theorem rootState_leafMS (v : List Vertex) (idx : List ℕ) (q : Quality) :
    leafMS (rootState v idx q).nodes
      = ((List.range' 0 (idx.length / 3) : List ℕ) : Multiset ℕ) :=
  leafMS_singleton _

/-- Claim C2: for every build of well-formed geometry
(`indices.len() % 3 = 0`) under every quality setting, the multiset of
triangle indices owned by leaves (nodes with `count > 0`; interior nodes
own nothing) is exactly `{0, …, n_tris − 1}` — so leaf ranges
`[first, first + count)` are pairwise disjoint and tile `[0, n_tris)` with
no gaps — and the final `build_triangles` array is a permutation of the
constructed triangle array. -/
theorem claim_c2 (v : List Vertex) (idx : List ℕ) (q : Quality)
    (stats : BVHStats) (hm : idx.length % 3 = 0) :
    leafMS (BVH.build v idx q stats).1.nodes
      = ((List.range' 0 (idx.length / 3) : List ℕ) : Multiset ℕ) ∧
    List.Perm (BVH.build v idx q stats).1.build_triangles
      (buildTrianglesFold v idx).1 := by
  by_cases h0 : idx.length / 3 = 0
  · have hlen0 : idx.length = 0 := by omega
    rw [BVH.build, if_pos h0]
    constructor
    · rw [h0]
      rfl
    · have hf : (buildTrianglesFold v idx).1 = [] := by
        rw [buildTrianglesFold, show (idx.length + 2) / 3 = 0 by omega]
        rfl
      rw [hf]
      exact List.Perm.refl _
  · rw [BVH.build, if_neg h0]
    cases q with
    | Disabled =>
      exact ⟨rootState_leafMS v idx Quality.Disabled, List.Perm.refl _⟩
    | Low =>
      have hsub := subdivide_master (rootState v idx Quality.Low) stats 0 0
        ((rootState v idx Quality.Low).build_triangles.length) 0
        rfl (show 0 < 1 from Nat.one_pos) rfl
        (by
          show idx.length / 3 = (buildTrianglesFold v idx).1.length
          rw [buildTrianglesFold_length]
          omega)
        (by
          show 0 + (buildTrianglesFold v idx).1.length
            ≤ (buildTrianglesFold v idx).1.length
          omega)
      obtain ⟨-, -, -, -, -, -, -, hms, -, -, hperm, -⟩ := hsub
      constructor
      · exact Eq.trans hms (rootState_leafMS v idx Quality.Low)
      · exact hperm
    | High =>
      have hsub := subdivide_master (rootState v idx Quality.High) stats 0 0
        ((rootState v idx Quality.High).build_triangles.length) 0
        rfl (show 0 < 1 from Nat.one_pos) rfl
        (by
          show idx.length / 3 = (buildTrianglesFold v idx).1.length
          rw [buildTrianglesFold_length]
          omega)
        (by
          show 0 + (buildTrianglesFold v idx).1.length
            ≤ (buildTrianglesFold v idx).1.length
          omega)
      obtain ⟨-, -, -, -, -, -, -, hms, -, -, hperm, -⟩ := hsub
      constructor
      · exact Eq.trans hms (rootState_leafMS v idx Quality.High)
      · exact hperm

/-- Witness for C2 at the two-triangle Low-quality build. -/
theorem claim_c2_witness :
    exIdx.length % 3 = 0 ∧
    (leafMS (BVH.build exVerts exIdx Quality.Low BVHStats.start).1.nodes
        = ((List.range' 0 (exIdx.length / 3) : List ℕ) : Multiset ℕ) ∧
      List.Perm
        (BVH.build exVerts exIdx Quality.Low BVHStats.start).1.build_triangles
        (buildTrianglesFold exVerts exIdx).1) :=
  ⟨by decide, claim_c2 exVerts exIdx Quality.Low BVHStats.start (by decide)⟩

/-- Claim C6: an accepted split (best cost strictly below the parent's
cost) never places all of the node's triangles on one side — after
partitioning, `left_count` is neither `0` nor the parent's full count, so
both children created by `subdivide` own at least one triangle.  The
mechanism is the SAH cost itself: a one-sided candidate leaves one child
box un-grown (`min = +inf`, `max = −inf`), whose half-area is `+inf`, and
`0.0 * inf = NaN` makes the candidate's cost NaN, which never compares
`<` the parent cost. -/
theorem claim_c6 (s : BVH) (idx start n : ℕ)
    (hsc : start + n ≤ s.build_triangles.length)
    (hacc : F.lt (s.find_best_split (s.nodes.getD idx default) 0 (F.fin 0)
        start n).2.2 (s.nodes.getD idx default).cost = true) :
    ¬ (partitionRange s.build_triangles
        (s.find_best_split (s.nodes.getD idx default) 0 (F.fin 0) start n).1
        (s.find_best_split (s.nodes.getD idx default) 0 (F.fin 0) start n).2.1
        start n).left_count = 0 ∧
    ¬ (partitionRange s.build_triangles
        (s.find_best_split (s.nodes.getD idx default) 0 (F.fin 0) start n).1
        (s.find_best_split (s.nodes.getD idx default) 0 (F.fin 0) start n).2.1
        start n).left_count = n ∧
    1 ≤ (partitionRange s.build_triangles
        (s.find_best_split (s.nodes.getD idx default) 0 (F.fin 0) start n).1
        (s.find_best_split (s.nodes.getD idx default) 0 (F.fin 0) start n).2.1
        start n).left_count ∧
    1 ≤ n - (partitionRange s.build_triangles
        (s.find_best_split (s.nodes.getD idx default) 0 (F.fin 0) start n).1
        (s.find_best_split (s.nodes.getD idx default) 0 (F.fin 0) start n).2.1
        start n).left_count := by
  have hbal := fbs_lt_balanced s (s.nodes.getD idx default) 0 (F.fin 0)
    start n (s.nodes.getD idx default).cost hsc hacc
  have hPlc := (partitionRange_spec s.build_triangles
    (s.find_best_split (s.nodes.getD idx default) 0 (F.fin 0) start n).1
    (s.find_best_split (s.nodes.getD idx default) 0 (F.fin 0) start n).2.1
    start n hsc).1
  rw [hPlc]
  omega

/-- Witness for C6 at the two-triangle root state, whose Low-quality split
is accepted. -/
theorem claim_c6_witness :
    (0 + 2 ≤ exRootBVH.build_triangles.length ∧
      F.lt (exRootBVH.find_best_split (exRootBVH.nodes.getD 0 default) 0
          (F.fin 0) 0 2).2.2 (exRootBVH.nodes.getD 0 default).cost = true) ∧
    1 ≤ (partitionRange exRootBVH.build_triangles
        (exRootBVH.find_best_split (exRootBVH.nodes.getD 0 default) 0
          (F.fin 0) 0 2).1
        (exRootBVH.find_best_split (exRootBVH.nodes.getD 0 default) 0
          (F.fin 0) 0 2).2.1
        0 2).left_count ∧
    1 ≤ 2 - (partitionRange exRootBVH.build_triangles
        (exRootBVH.find_best_split (exRootBVH.nodes.getD 0 default) 0
          (F.fin 0) 0 2).1
        (exRootBVH.find_best_split (exRootBVH.nodes.getD 0 default) 0
          (F.fin 0) 0 2).2.1
        0 2).left_count :=
  ⟨⟨by decide, by decide⟩,
    ((claim_c6 exRootBVH 0 0 2 (by decide) (by decide)).2.2.1),
    ((claim_c6 exRootBVH 0 0 2 (by decide) (by decide)).2.2.2)⟩

/-- Totality of the IEEE order on non-NaN values: if `c < sp` is false and
neither is NaN, then `sp ≤ c`. -/
theorem F.le_of_not_lt (c sp : F) (hc : ¬ c = F.nan) (hsp : ¬ sp = F.nan)
    (h : F.lt c sp = false) : F.le sp c = true := by
  cases c with
  | nan => exact absurd rfl hc
  | pinf =>
    cases sp with
    | nan => exact absurd rfl hsp
    | pinf => rfl
    | ninf => rfl
    | fin b => rfl
  | ninf =>
    cases sp with
    | nan => exact absurd rfl hsp
    | pinf => exact Bool.noConfusion h
    | ninf => rfl
    | fin b => exact Bool.noConfusion h
  | fin a =>
    cases sp with
    | nan => exact absurd rfl hsp
    | pinf => exact Bool.noConfusion h
    | ninf => rfl
    | fin b =>
      rw [show F.lt (F.fin a) (F.fin b) = decide (a < b) from rfl,
        decide_eq_false_iff_not] at h
      rw [show F.le (F.fin b) (F.fin a) = decide (b ≤ a) from rfl,
        decide_eq_true_eq]
      exact not_lt.mp h

/-- Claim C3 (with a no-NaN hypothesis on the window's centroids along the
chosen axis): after an accepted split with chosen `(axis, split_pos)`, the
two children created by the split own `[start, start + left_count)` and
`[start + left_count, start + n)` of the partitioned triangle array, every
triangle in the left child's range has `centroid[axis] < split_pos`, and
every triangle in the right child's range has `centroid[axis] >= split_pos`.
(The strict-`<` half holds even with NaNs; `>=` on the right needs the
centroids non-NaN, since the source's partition test `!(c < split_pos)`
also sends NaN centroids right.) -/
theorem claim_c3 (s : BVH) (idx start n : ℕ) (axis : ℕ) (sp cost : F)
    (hsc : start + n ≤ s.build_triangles.length)
    (hidx : idx < s.nodes.length)
    (hwf : s.n_nodes = s.nodes.length)
    (hfbs : s.find_best_split (s.nodes.getD idx default) 0 (F.fin 0) start n
      = (axis, sp, cost))
    (hacc : F.lt cost (s.nodes.getD idx default).cost = true)
    (hcen : ∀ t ∈ lslice s.build_triangles start n,
      ¬ t.centroid.get axis = F.nan) :
    ((BVH.acceptState s idx start n
        (partitionRange s.build_triangles axis sp start n)).nodes.getD
          s.n_nodes default).first = start ∧
    ((BVH.acceptState s idx start n
        (partitionRange s.build_triangles axis sp start n)).nodes.getD
          s.n_nodes default).count
      = (partitionRange s.build_triangles axis sp start n).left_count ∧
    ((BVH.acceptState s idx start n
        (partitionRange s.build_triangles axis sp start n)).nodes.getD
          (s.n_nodes + 1) default).first
      = start + (partitionRange s.build_triangles axis sp start n).left_count ∧
    ((BVH.acceptState s idx start n
        (partitionRange s.build_triangles axis sp start n)).nodes.getD
          (s.n_nodes + 1) default).count
      = n - (partitionRange s.build_triangles axis sp start n).left_count ∧
    (∀ j, start ≤ j →
      j < start + (partitionRange s.build_triangles axis sp start n).left_count →
      F.lt (((partitionRange s.build_triangles axis sp start n).tris.getD j
          default).centroid.get axis) sp = true) ∧
    (∀ j,
      start + (partitionRange s.build_triangles axis sp start n).left_count ≤ j →
      j < start + n →
      F.le sp (((partitionRange s.build_triangles axis sp start n).tris.getD j
          default).centroid.get axis) = true) := by
  have hb : 1 ≤ ((lslice s.build_triangles start n).filter
        (triLeft axis sp)).length ∧
      ((lslice s.build_triangles start n).filter (triLeft axis sp)).length
        < n := by
    have h0 := fbs_lt_balanced s (s.nodes.getD idx default) 0 (F.fin 0)
      start n (s.nodes.getD idx default).cost hsc (by rw [hfbs]; exact hacc)
    rw [hfbs] at h0
    exact h0
  obtain ⟨hPlc, hPlen, hPframe, hPleft, hPnleft, hPperm, -, -⟩ :=
    partitionRange_spec s.build_triangles axis sp start n hsc
  set P := partitionRange s.build_triangles axis sp start n with hPd
  have hspn : ¬ sp = F.nan := by
    intro hn
    have hz : (lslice s.build_triangles start n).filter (triLeft axis sp)
        = [] := by
      apply List.filter_eq_nil.mpr
      intro a ha
      simp [triLeft, hn, F.lt_nan_right]
    rw [hz] at hb
    simp at hb
  refine ⟨?_, ?_, ?_, ?_, ?_, ?_⟩
  · rw [hwf, acceptState_getD_left s idx start n P hidx]
  · rw [hwf, acceptState_getD_left s idx start n P hidx]
  · rw [hwf, acceptState_getD_right s idx start n P hidx]
  · rw [hwf, acceptState_getD_right s idx start n P hidx]
  · intro j hj1 hj2
    have hmem : P.tris.getD j default
        ∈ lslice P.tris start
          (((lslice s.build_triangles start n).filter
            (triLeft axis sp)).length) :=
      getD_mem_lslice hj1 (by omega) (by omega)
    rw [hPleft] at hmem
    exact (List.mem_filter.mp hmem).2
  · intro j hj1 hj2
    have hflt : triLeft axis sp (P.tris.getD j default) = false :=
      hPnleft j hj1 hj2
    have hmem : P.tris.getD j default ∈ lslice P.tris start n :=
      getD_mem_lslice (by omega) hj2 (by omega)
    have hperm2 : List.Perm (lslice P.tris start n)
        (lslice s.build_triangles start n) :=
      lslice_perm_of_frame hPperm hPframe
    have hnn' := hcen _ (hperm2.mem_iff.mp hmem)
    exact F.le_of_not_lt _ _ hnn' hspn hflt

/-- Witness for C3 at the two-triangle root state with its accepted
Low-quality split. -/
theorem claim_c3_witness :
    (0 + 2 ≤ exRootBVH.build_triangles.length ∧
      0 < exRootBVH.nodes.length ∧
      exRootBVH.n_nodes = exRootBVH.nodes.length ∧
      F.lt (exRootBVH.find_best_split (exRootBVH.nodes.getD 0 default) 0
          (F.fin 0) 0 2).2.2 (exRootBVH.nodes.getD 0 default).cost = true ∧
      (∀ t ∈ lslice exRootBVH.build_triangles 0 2,
        ¬ t.centroid.get (exRootBVH.find_best_split
            (exRootBVH.nodes.getD 0 default) 0 (F.fin 0) 0 2).1 = F.nan)) ∧
    (∀ j, 0 ≤ j →
      j < 0 + (partitionRange exRootBVH.build_triangles
          (exRootBVH.find_best_split (exRootBVH.nodes.getD 0 default) 0
            (F.fin 0) 0 2).1
          (exRootBVH.find_best_split (exRootBVH.nodes.getD 0 default) 0
            (F.fin 0) 0 2).2.1 0 2).left_count →
      F.lt (((partitionRange exRootBVH.build_triangles
          (exRootBVH.find_best_split (exRootBVH.nodes.getD 0 default) 0
            (F.fin 0) 0 2).1
          (exRootBVH.find_best_split (exRootBVH.nodes.getD 0 default) 0
            (F.fin 0) 0 2).2.1 0 2).tris.getD j
          default).centroid.get (exRootBVH.find_best_split
            (exRootBVH.nodes.getD 0 default) 0 (F.fin 0) 0 2).1)
        (exRootBVH.find_best_split (exRootBVH.nodes.getD 0 default) 0
          (F.fin 0) 0 2).2.1 = true) ∧
    (∀ j,
      0 + (partitionRange exRootBVH.build_triangles
          (exRootBVH.find_best_split (exRootBVH.nodes.getD 0 default) 0
            (F.fin 0) 0 2).1
          (exRootBVH.find_best_split (exRootBVH.nodes.getD 0 default) 0
            (F.fin 0) 0 2).2.1 0 2).left_count ≤ j →
      j < 0 + 2 →
      F.le (exRootBVH.find_best_split (exRootBVH.nodes.getD 0 default) 0
          (F.fin 0) 0 2).2.1
        (((partitionRange exRootBVH.build_triangles
          (exRootBVH.find_best_split (exRootBVH.nodes.getD 0 default) 0
            (F.fin 0) 0 2).1
          (exRootBVH.find_best_split (exRootBVH.nodes.getD 0 default) 0
            (F.fin 0) 0 2).2.1 0 2).tris.getD j
          default).centroid.get (exRootBVH.find_best_split
            (exRootBVH.nodes.getD 0 default) 0 (F.fin 0) 0 2).1) = true) :=
  ⟨⟨by decide, by decide, by decide, by decide, by decide⟩,
    (claim_c3 exRootBVH 0 0 2
      (exRootBVH.find_best_split (exRootBVH.nodes.getD 0 default) 0
        (F.fin 0) 0 2).1
      (exRootBVH.find_best_split (exRootBVH.nodes.getD 0 default) 0
        (F.fin 0) 0 2).2.1
      (exRootBVH.find_best_split (exRootBVH.nodes.getD 0 default) 0
        (F.fin 0) 0 2).2.2
      (by decide) (by decide) (by decide) rfl (by decide) (by decide)).2.2.2.2.1,
    (claim_c3 exRootBVH 0 0 2
      (exRootBVH.find_best_split (exRootBVH.nodes.getD 0 default) 0
        (F.fin 0) 0 2).1
      (exRootBVH.find_best_split (exRootBVH.nodes.getD 0 default) 0
        (F.fin 0) 0 2).2.1
      (exRootBVH.find_best_split (exRootBVH.nodes.getD 0 default) 0
        (F.fin 0) 0 2).2.2
      (by decide) (by decide) (by decide) rfl (by decide) (by decide)).2.2.2.2.2⟩

/-!
Order lemmas for the idealised `f32` min/max, toward the bounding
invariant (C8).
-/

/-- `le` is reflexive away from NaN. -/
theorem F.le_refl (a : F) (h : ¬ a = F.nan) : F.le a a = true := by
  cases a with
  | nan => exact absurd rfl h
  | pinf => rfl
  | ninf => rfl
  | fin q => exact decide_eq_true_eq.mpr (by linarith)

/-- `le` is transitive (its hypotheses rule NaN out). -/
theorem F.le_trans (a b c : F) (h1 : F.le a b = true) (h2 : F.le b c = true) :
    F.le a c = true := by
  cases a <;> cases b <;> cases c <;> simp_all [F.le] <;> linarith

/-- Both sides of a true `le` are non-NaN. -/
theorem F.ne_nan_of_le (a b : F) (h : F.le a b = true) :
    ¬ a = F.nan ∧ ¬ b = F.nan := by
  cases a <;> cases b <;> simp_all [F.le]

/-- The order on non-NaN values is total. -/
theorem F.le_of_not_le (a b : F) (ha : ¬ a = F.nan) (hb : ¬ b = F.nan)
    (h : ¬ F.le a b = true) : F.le b a = true := by
  cases a <;> cases b <;> simp_all [F.le] <;> linarith

/-- On non-NaN operands, `f32::min` is the `le`-selected operand. -/
theorem F.fmin_eq_ite (a b : F) (ha : ¬ a = F.nan) (hb : ¬ b = F.nan) :
    F.fmin a b = if F.le a b = true then a else b := by
  cases a <;> cases b <;>
    first
    | exact absurd rfl ha
    | exact absurd rfl hb
    | rfl

/-- On non-NaN operands, `f32::max` is the `le`-selected operand. -/
theorem F.fmax_eq_ite (a b : F) (ha : ¬ a = F.nan) (hb : ¬ b = F.nan) :
    F.fmax a b = if F.le b a = true then a else b := by
  cases a <;> cases b <;>
    first
    | exact absurd rfl ha
    | exact absurd rfl hb
    | rfl

/-- `f32::min` ignores a NaN second operand. -/
theorem F.fmin_nan_right (a : F) : F.fmin a F.nan = a := by
  cases a <;> rfl

/-- `f32::min` ignores a NaN first operand. -/
theorem F.fmin_nan_left (b : F) : F.fmin F.nan b = b := by
  cases b <;> rfl

/-- `f32::max` ignores a NaN first operand. -/
theorem F.fmax_nan_left (b : F) : F.fmax F.nan b = b := by
  cases b <;> rfl

/-- `f32::max` ignores a NaN second operand. -/
theorem F.fmax_nan_right (a : F) : F.fmax a F.nan = a := by
  cases a <;> rfl

/-- `f32::min` is a lower bound of its first operand. -/
theorem F.fmin_le_left (a b : F) (ha : ¬ a = F.nan) :
    F.le (F.fmin a b) a = true := by
  by_cases hb : b = F.nan
  · rw [hb, F.fmin_nan_right]
    exact F.le_refl a ha
  · rw [F.fmin_eq_ite a b ha hb]
    split
    · exact F.le_refl a ha
    · rename_i h
      exact F.le_of_not_le a b ha hb h

/-- `f32::min` is a lower bound of its second operand (when that operand is
not NaN). -/
theorem F.fmin_le_right (a b : F) (hb : ¬ b = F.nan) :
    F.le (F.fmin a b) b = true := by
  by_cases ha : a = F.nan
  · rw [ha, F.fmin_nan_left]
    exact F.le_refl b hb
  · rw [F.fmin_eq_ite a b ha hb]
    split
    · rename_i h
      exact h
    · exact F.le_refl b hb

/-- `f32::max` is an upper bound of its first operand. -/
theorem F.le_fmax_left (a b : F) (ha : ¬ a = F.nan) :
    F.le a (F.fmax a b) = true := by
  by_cases hb : b = F.nan
  · rw [hb, F.fmax_nan_right]
    exact F.le_refl a ha
  · rw [F.fmax_eq_ite a b ha hb]
    split
    · exact F.le_refl a ha
    · rename_i h
      exact F.le_of_not_le b a hb ha h

/-- `f32::max` is an upper bound of its second operand (when that operand
is not NaN). -/
theorem F.le_fmax_right (a b : F) (hb : ¬ b = F.nan) :
    F.le b (F.fmax a b) = true := by
  by_cases ha : a = F.nan
  · rw [ha, F.fmax_nan_left]
    exact F.le_refl b hb
  · rw [F.fmax_eq_ite a b ha hb]
    split
    · rename_i h
      exact h
    · exact F.le_refl b hb

/-- A common lower bound is below the min. -/
theorem F.le_fmin (a b c : F) (h1 : F.le c a = true) (h2 : F.le c b = true) :
    F.le c (F.fmin a b) = true := by
  obtain ⟨-, ha⟩ := F.ne_nan_of_le c a h1
  obtain ⟨-, hb⟩ := F.ne_nan_of_le c b h2
  rw [F.fmin_eq_ite a b ha hb]
  split
  · exact h1
  · exact h2

/-- A common upper bound is above the max. -/
theorem F.fmax_le (a b c : F) (h1 : F.le a c = true) (h2 : F.le b c = true) :
    F.le (F.fmax a b) c = true := by
  obtain ⟨ha, -⟩ := F.ne_nan_of_le a c h1
  obtain ⟨hb, -⟩ := F.ne_nan_of_le b c h2
  rw [F.fmax_eq_ite a b ha hb]
  split
  · exact h1
  · exact h2

/-- `f32::min` of non-NaN operands is non-NaN. -/
theorem F.fmin_ne_nan (a b : F) (ha : ¬ a = F.nan) (hb : ¬ b = F.nan) :
    ¬ F.fmin a b = F.nan := by
  rw [F.fmin_eq_ite a b ha hb]
  split
  · exact ha
  · exact hb

/-- `f32::max` of non-NaN operands is non-NaN. -/
theorem F.fmax_ne_nan (a b : F) (ha : ¬ a = F.nan) (hb : ¬ b = F.nan) :
    ¬ F.fmax a b = F.nan := by
  rw [F.fmax_eq_ite a b ha hb]
  split
  · exact ha
  · exact hb

/-- Componentwise reading of `Vec3.noNan`. -/
theorem Vec3.noNan_iff (v : Vec3) :
    v.noNan = true
      ↔ (¬ v.x = F.nan ∧ ¬ v.y = F.nan ∧ ¬ v.z = F.nan) := by
  simp [Vec3.noNan, and_assoc]

/-- Componentwise reading of `Vec3.fle`. -/
theorem Vec3.fle_iff (a b : Vec3) :
    Vec3.fle a b = true
      ↔ (F.le a.x b.x = true ∧ F.le a.y b.y = true ∧ F.le a.z b.z = true) := by
  simp [Vec3.fle, and_assoc]

/-- Componentwise reading of `BVHTriangle.noNan`. -/
theorem triangle_noNan_iff (t : BVHTriangle) :
    t.noNan = true ↔ (t.min.noNan = true ∧ t.max.noNan = true) := by
  simp [BVHTriangle.noNan, and_assoc]

/-- `fle` is reflexive on NaN-free vectors. -/
theorem Vec3.fle_refl (v : Vec3) (h : v.noNan = true) :
    Vec3.fle v v = true := by
  obtain ⟨h1, h2, h3⟩ := (Vec3.noNan_iff v).mp h
  exact (Vec3.fle_iff v v).mpr
    ⟨F.le_refl _ h1, F.le_refl _ h2, F.le_refl _ h3⟩

/-- `fle` is transitive. -/
theorem Vec3.fle_trans (a b c : Vec3) (h1 : Vec3.fle a b = true)
    (h2 : Vec3.fle b c = true) : Vec3.fle a c = true := by
  obtain ⟨x1, y1, z1⟩ := (Vec3.fle_iff a b).mp h1
  obtain ⟨x2, y2, z2⟩ := (Vec3.fle_iff b c).mp h2
  exact (Vec3.fle_iff a c).mpr
    ⟨F.le_trans _ _ _ x1 x2, F.le_trans _ _ _ y1 y2, F.le_trans _ _ _ z1 z2⟩

/-- Componentwise min is below its first operand. -/
theorem Vec3.minV_le_left (a b : Vec3) (ha : a.noNan = true) :
    Vec3.fle (Vec3.minV a b) a = true := by
  obtain ⟨h1, h2, h3⟩ := (Vec3.noNan_iff a).mp ha
  exact (Vec3.fle_iff _ _).mpr
    ⟨F.fmin_le_left _ _ h1, F.fmin_le_left _ _ h2, F.fmin_le_left _ _ h3⟩

/-- Componentwise min is below its second operand. -/
theorem Vec3.minV_le_right (a b : Vec3) (hb : b.noNan = true) :
    Vec3.fle (Vec3.minV a b) b = true := by
  obtain ⟨h1, h2, h3⟩ := (Vec3.noNan_iff b).mp hb
  exact (Vec3.fle_iff _ _).mpr
    ⟨F.fmin_le_right _ _ h1, F.fmin_le_right _ _ h2, F.fmin_le_right _ _ h3⟩

/-- Componentwise max is above its first operand. -/
theorem Vec3.le_maxV_left (a b : Vec3) (ha : a.noNan = true) :
    Vec3.fle a (Vec3.maxV a b) = true := by
  obtain ⟨h1, h2, h3⟩ := (Vec3.noNan_iff a).mp ha
  exact (Vec3.fle_iff _ _).mpr
    ⟨F.le_fmax_left _ _ h1, F.le_fmax_left _ _ h2, F.le_fmax_left _ _ h3⟩

/-- Componentwise max is above its second operand. -/
theorem Vec3.le_maxV_right (a b : Vec3) (hb : b.noNan = true) :
    Vec3.fle b (Vec3.maxV a b) = true := by
  obtain ⟨h1, h2, h3⟩ := (Vec3.noNan_iff b).mp hb
  exact (Vec3.fle_iff _ _).mpr
    ⟨F.le_fmax_right _ _ h1, F.le_fmax_right _ _ h2, F.le_fmax_right _ _ h3⟩

/-- A common lower bound is below the componentwise min. -/
theorem Vec3.le_minV (a b c : Vec3) (h1 : Vec3.fle c a = true)
    (h2 : Vec3.fle c b = true) : Vec3.fle c (Vec3.minV a b) = true := by
  obtain ⟨x1, y1, z1⟩ := (Vec3.fle_iff c a).mp h1
  obtain ⟨x2, y2, z2⟩ := (Vec3.fle_iff c b).mp h2
  exact (Vec3.fle_iff _ _).mpr
    ⟨F.le_fmin _ _ _ x1 x2, F.le_fmin _ _ _ y1 y2, F.le_fmin _ _ _ z1 z2⟩

/-- A common upper bound is above the componentwise max. -/
theorem Vec3.maxV_le (a b c : Vec3) (h1 : Vec3.fle a c = true)
    (h2 : Vec3.fle b c = true) : Vec3.fle (Vec3.maxV a b) c = true := by
  obtain ⟨x1, y1, z1⟩ := (Vec3.fle_iff a c).mp h1
  obtain ⟨x2, y2, z2⟩ := (Vec3.fle_iff b c).mp h2
  exact (Vec3.fle_iff _ _).mpr
    ⟨F.fmax_le _ _ _ x1 x2, F.fmax_le _ _ _ y1 y2, F.fmax_le _ _ _ z1 z2⟩

/-- Componentwise min of NaN-free vectors is NaN-free. -/
theorem Vec3.minV_noNan (a b : Vec3) (ha : a.noNan = true)
    (hb : b.noNan = true) : (Vec3.minV a b).noNan = true := by
  obtain ⟨x1, y1, z1⟩ := (Vec3.noNan_iff a).mp ha
  obtain ⟨x2, y2, z2⟩ := (Vec3.noNan_iff b).mp hb
  exact (Vec3.noNan_iff _).mpr
    ⟨F.fmin_ne_nan _ _ x1 x2, F.fmin_ne_nan _ _ y1 y2, F.fmin_ne_nan _ _ z1 z2⟩

/-- Componentwise max of NaN-free vectors is NaN-free. -/
theorem Vec3.maxV_noNan (a b : Vec3) (ha : a.noNan = true)
    (hb : b.noNan = true) : (Vec3.maxV a b).noNan = true := by
  obtain ⟨x1, y1, z1⟩ := (Vec3.noNan_iff a).mp ha
  obtain ⟨x2, y2, z2⟩ := (Vec3.noNan_iff b).mp hb
  exact (Vec3.noNan_iff _).mpr
    ⟨F.fmax_ne_nan _ _ x1 x2, F.fmax_ne_nan _ _ y1 y2, F.fmax_ne_nan _ _ z1 z2⟩

/-- Unfolding one step of `foldFit`. -/
theorem foldFit_cons (t : BVHTriangle) (l : List BVHTriangle)
    (b : Vec3 × Vec3) :
    foldFit (t :: l) b
      = foldFit l (Vec3.minV b.1 t.min, Vec3.maxV b.2 t.max) := rfl

/-- Folding triangle bounds only shrinks the min corner and grows the max
corner, and keeps both NaN-free. -/
theorem foldFit_shrink :
    ∀ (l : List BVHTriangle) (b : Vec3 × Vec3),
      b.1.noNan = true → b.2.noNan = true →
      (∀ t ∈ l, t.noNan = true) →
      Vec3.fle (foldFit l b).1 b.1 = true ∧
      Vec3.fle b.2 (foldFit l b).2 = true ∧
      (foldFit l b).1.noNan = true ∧ (foldFit l b).2.noNan = true := by
  intro l
  induction l with
  | nil =>
    intro b hb1 hb2 hl
    exact ⟨Vec3.fle_refl _ hb1, Vec3.fle_refl _ hb2, hb1, hb2⟩
  | cons t l ih =>
    intro b hb1 hb2 hl
    have ht := hl t (List.mem_cons_self t l)
    obtain ⟨htm, htx⟩ := (triangle_noNan_iff t).mp ht
    have hm1 : (Vec3.minV b.1 t.min).noNan = true := Vec3.minV_noNan _ _ hb1 htm
    have hm2 : (Vec3.maxV b.2 t.max).noNan = true := Vec3.maxV_noNan _ _ hb2 htx
    rw [foldFit_cons]
    obtain ⟨i1, i2, i3, i4⟩ := ih (Vec3.minV b.1 t.min, Vec3.maxV b.2 t.max)
      hm1 hm2 (fun u hu => hl u (List.mem_cons_of_mem t hu))
    refine ⟨?_, ?_, i3, i4⟩
    · exact Vec3.fle_trans _ _ _ i1 (Vec3.minV_le_left _ _ hb1)
    · exact Vec3.fle_trans _ _ _ (Vec3.le_maxV_left _ _ hb2) i2

/-- The folded box bounds every member of the list. -/
theorem foldFit_mem :
    ∀ (l : List BVHTriangle) (b : Vec3 × Vec3),
      b.1.noNan = true → b.2.noNan = true →
      (∀ t ∈ l, t.noNan = true) →
      ∀ t ∈ l, Vec3.fle (foldFit l b).1 t.min = true ∧
        Vec3.fle t.max (foldFit l b).2 = true := by
  intro l
  induction l with
  | nil => intro b _ _ _ t ht; exact absurd ht (List.not_mem_nil t)
  | cons u l ih =>
    intro b hb1 hb2 hl t ht
    have hu := hl u (List.mem_cons_self u l)
    obtain ⟨hum, hux⟩ := (triangle_noNan_iff u).mp hu
    have hm1 : (Vec3.minV b.1 u.min).noNan = true := Vec3.minV_noNan _ _ hb1 hum
    have hm2 : (Vec3.maxV b.2 u.max).noNan = true := Vec3.maxV_noNan _ _ hb2 hux
    have hrest : ∀ v ∈ l, v.noNan = true :=
      fun v hv => hl v (List.mem_cons_of_mem u hv)
    rw [foldFit_cons]
    rcases List.mem_cons.mp ht with he | hm
    · subst he
      obtain ⟨i1, i2, -, -⟩ := foldFit_shrink l
        (Vec3.minV b.1 t.min, Vec3.maxV b.2 t.max) hm1 hm2 hrest
      constructor
      · exact Vec3.fle_trans _ _ _ i1 (Vec3.minV_le_right _ _ hum)
      · exact Vec3.fle_trans _ _ _ (Vec3.le_maxV_right _ _ hux) i2
    · exact ih (Vec3.minV b.1 u.min, Vec3.maxV b.2 u.max) hm1 hm2 hrest t hm

/-- A box below the base min and below every member min is below the folded
min (and dually for the max). -/
theorem foldFit_lower :
    ∀ (l : List BVHTriangle) (b : Vec3 × Vec3) (p : Vec3),
      Vec3.fle p b.1 = true →
      (∀ t ∈ l, Vec3.fle p t.min = true) →
      Vec3.fle p (foldFit l b).1 = true := by
  intro l
  induction l with
  | nil => intro b p hb _; exact hb
  | cons t l ih =>
    intro b p hb hl
    rw [foldFit_cons]
    exact ih _ p
      (Vec3.le_minV _ _ _ hb (hl t (List.mem_cons_self t l)))
      (fun u hu => hl u (List.mem_cons_of_mem t hu))

/-- Dual of `foldFit_lower` for the max corner. -/
theorem foldFit_upper :
    ∀ (l : List BVHTriangle) (b : Vec3 × Vec3) (p : Vec3),
      Vec3.fle b.2 p = true →
      (∀ t ∈ l, Vec3.fle t.max p = true) →
      Vec3.fle (foldFit l b).2 p = true := by
  intro l
  induction l with
  | nil => intro b p hb _; exact hb
  | cons t l ih =>
    intro b p hb hl
    rw [foldFit_cons]
    exact ih _ p
      (Vec3.maxV_le _ _ _ hb (hl t (List.mem_cons_self t l)))
      (fun u hu => hl u (List.mem_cons_of_mem t hu))

/-- A slice splits into two adjacent slices. -/
theorem lslice_split {α : Type} (l : List α) (s m k : ℕ) :
    lslice l s (m + k) = lslice l s m ++ lslice l (s + m) k := by
  show (l.drop s).take (m + k) = (l.drop s).take m ++ (l.drop (s + m)).take k
  rw [List.take_add]
  congr 1
  rw [List.drop_drop]

/-- The right zone left by the partition pass is a permutation of the
non-left triangles of the original window. -/
theorem partition_right_perm (tris : List BVHTriangle) (axis : ℕ) (sp : F)
    (start n : ℕ) (hlen : start + n ≤ tris.length) :
    List.Perm
      (lslice (partitionRange tris axis sp start n).tris
        (start + (partitionRange tris axis sp start n).left_count)
        (n - (partitionRange tris axis sp start n).left_count))
      ((lslice tris start n).filter (fun t => !triLeft axis sp t)) := by
  obtain ⟨hPlc, hPlen, hPframe, hPleft, hPnleft, hPperm, -, -⟩ :=
    partitionRange_spec tris axis sp start n hlen
  set P := partitionRange tris axis sp start n with hPd
  have hLle : P.left_count ≤ n := by
    rw [hPlc]
    calc (List.filter (triLeft axis sp) (lslice tris start n)).length
        ≤ (lslice tris start n).length := List.length_filter_le _ _
      _ = n := lslice_length_of_le hlen
  have hwperm : List.Perm (lslice P.tris start n) (lslice tris start n) :=
    lslice_perm_of_frame hPperm hPframe
  have hsplit : lslice P.tris start n
      = lslice P.tris start P.left_count
        ++ lslice P.tris (start + P.left_count) (n - P.left_count) := by
    rw [← lslice_split]
    congr 1
    omega
  have hleft' : lslice P.tris start P.left_count
      = (lslice tris start n).filter (triLeft axis sp) := by
    rw [hPlc]
    exact hPleft
  have hfp := List.filter_append_perm (triLeft axis sp) (lslice tris start n)
  have h2 : List.Perm
      ((lslice tris start n).filter (triLeft axis sp)
        ++ lslice P.tris (start + P.left_count) (n - P.left_count))
      ((lslice tris start n).filter (triLeft axis sp)
        ++ (lslice tris start n).filter (fun t => !triLeft axis sp t)) := by
    refine List.Perm.trans ?_ hfp.symm
    rw [← hleft', ← hsplit]
    exact hwperm
  exact (List.perm_append_left_iff _).mp h2

/-- Componentwise reading of `boxContainsTri`. -/
theorem boxContainsTri_iff (nmin nmax : Vec3) (t : BVHTriangle) :
    boxContainsTri nmin nmax t = true
      ↔ (Vec3.fle nmin t.min = true ∧ Vec3.fle t.max nmax = true) := by
  simp [boxContainsTri]

/-- Componentwise reading of `boxContainsBox`. -/
theorem boxContainsBox_iff (pmin pmax cmin cmax : Vec3) :
    boxContainsBox pmin pmax cmin cmax = true
      ↔ (Vec3.fle pmin cmin = true ∧ Vec3.fle cmax pmax = true) := by
  simp [boxContainsBox]

/-- `[f32::MAX; 3]` has no NaN component. -/
theorem vMAX_noNan : vMAX.noNan = true := by decide

/-- `[f32::MIN; 3]` has no NaN component. -/
theorem vMIN_noNan : vMIN.noNan = true := by decide

/-- A node that owns a covered triangle range is `NodeOK` as a leaf. -/
theorem NodeOK_of_leaf_cover (s : BVH) (idx start n : ℕ)
    (h3 : (s.nodes.getD idx default).first = start)
    (h4 : (s.nodes.getD idx default).count = n)
    (h5 : start + n ≤ s.build_triangles.length)
    (hn1 : 1 ≤ n)
    (hA6 : ∀ t ∈ lslice s.build_triangles start n,
      boxContainsTri (s.nodes.getD idx default).aabb_min
        (s.nodes.getD idx default).aabb_max t = true) :
    NodeOK s idx := by
  constructor
  · intro hcnt i hi1 hi2
    exact hA6 _ (getD_mem_lslice (by omega) (by omega) (by omega))
  · intro h0
    rw [h4] at h0
    exfalso
    omega

/-- Master bounding-invariant theorem for the subdivision recursion: on a
well-formed entry state whose node `idx` owns a NaN-free triangle window
that its box contains (and whose box lies inside the `[f32::MIN, f32::MAX]`
frame the partition folds start from), every node the call touches — the
node itself and every appended node — satisfies the per-node bounding
invariant `NodeOK` in the final state, and every interior one of them
points at two in-bounds sibling children. -/
theorem subdivideGo_boxes :
    ∀ (fuel : ℕ) (s : BVH) (stats : BVHStats) (idx start n d : ℕ),
      s.n_nodes = s.nodes.length →
      idx < s.nodes.length →
      (s.nodes.getD idx default).first = start →
      (s.nodes.getD idx default).count = n →
      start + n ≤ s.build_triangles.length →
      1 ≤ n →
      (∀ t ∈ lslice s.build_triangles start n, t.noNan = true) →
      (∀ t ∈ lslice s.build_triangles start n,
        boxContainsTri (s.nodes.getD idx default).aabb_min
          (s.nodes.getD idx default).aabb_max t = true) →
      Vec3.fle (s.nodes.getD idx default).aabb_min vMAX = true →
      Vec3.fle vMIN (s.nodes.getD idx default).aabb_max = true →
      ∀ j, (j = idx ∨ s.nodes.length ≤ j) →
        j < (BVH.subdivideGo fuel s stats idx start n d).1.nodes.length →
        NodeOK (BVH.subdivideGo fuel s stats idx start n d).1 j ∧
        (((BVH.subdivideGo fuel s stats idx start n d).1.nodes.getD j
            default).count = 0 →
          s.nodes.length
              ≤ ((BVH.subdivideGo fuel s stats idx start n d).1.nodes.getD j
                  default).left ∧
          ((BVH.subdivideGo fuel s stats idx start n d).1.nodes.getD j
              default).right
            = ((BVH.subdivideGo fuel s stats idx start n d).1.nodes.getD j
                default).left + 1 ∧
          ((BVH.subdivideGo fuel s stats idx start n d).1.nodes.getD j
              default).right
            < (BVH.subdivideGo fuel s stats idx start n d).1.nodes.length) := by
  intro fuel
  induction fuel with
  | zero =>
    intro s stats idx start n d h1 h2 h3 h4 h5 hn1 hA5 hA6 hA7a hA7b j hj hjlt
    rcases hj with he | hge
    · subst he
      refine ⟨NodeOK_of_leaf_cover s j start n h3 h4 h5 hn1 hA6, ?_⟩
      intro h0
      have h0' : (s.nodes.getD j default).count = 0 := h0
      exfalso
      omega
    · exact absurd (show j < s.nodes.length from hjlt) (by omega)
  | succ fuel ih =>
    intro s stats idx start n d h1 h2 h3 h4 h5 hn1 hA5 hA6 hA7a hA7b
    rw [BVH.subdivideGo]
    split
    · rename_i hacc
      rw [Bool.and_eq_true, decide_eq_true_eq] at hacc
      obtain ⟨hlt, hd⟩ := hacc
      set fbs := s.find_best_split (s.nodes.getD idx default) 0 (F.fin 0)
        start n with hfbs
      set P := partitionRange s.build_triangles fbs.1 fbs.2.1 start n with hPd
      have hspec := partitionRange_spec s.build_triangles fbs.1 fbs.2.1
        start n h5
      rw [← hPd] at hspec
      obtain ⟨hPlc, hPlen, hPframe, hPleft, hPnleft, hPperm, hPlbox, hPrbox⟩ :=
        hspec
      have hbal := fbs_lt_balanced s (s.nodes.getD idx default) 0 (F.fin 0)
        start n (s.nodes.getD idx default).cost h5 (by rw [← hfbs]; exact hlt)
      rw [← hfbs] at hbal
      have hlc1 : 1 ≤ P.left_count := by rw [hPlc]; exact hbal.1
      have hlcn : P.left_count < n := by rw [hPlc]; exact hbal.2
      set t := BVH.acceptState s idx start n P with ht
      have htbt : t.build_triangles = P.tris := by
        rw [ht]; exact acceptState_bt s idx start n P
      have htnn : t.n_nodes = s.n_nodes + 2 := by
        rw [ht]; exact acceptState_n_nodes s idx start n P
      have htlen : t.nodes.length = s.nodes.length + 2 := by
        rw [ht]; exact acceptState_nodes_length s idx start n P
      have htL : t.nodes.getD s.n_nodes default
          = { left := 0, right := 0, first := start, count := P.left_count
              aabb_min := P.left_min, aabb_max := P.left_max } := by
        rw [ht, h1]; exact acceptState_getD_left s idx start n P h2
      have htR : t.nodes.getD (s.n_nodes + 1) default
          = { left := 0, right := 0, first := start + P.left_count
              count := n - P.left_count
              aabb_min := P.right_min, aabb_max := P.right_max } := by
        rw [ht, h1]; exact acceptState_getD_right s idx start n P h2
      have htidx : t.nodes.getD idx default
          = { s.nodes.getD idx default with
              left := s.n_nodes, right := s.n_nodes + 1, count := 0 } := by
        rw [ht]; exact acceptState_getD_idx s idx start n P h2
      -- the left zone is the filtered window; box components
      have hleftzone : lslice P.tris start P.left_count
          = (lslice s.build_triangles start n).filter
              (triLeft fbs.1 fbs.2.1) := by
        rw [hPlc]; exact hPleft
      have hlm : P.left_min
          = (foldFit ((lslice s.build_triangles start n).filter
              (triLeft fbs.1 fbs.2.1)) (vMAX, vMIN)).1 :=
        congrArg Prod.fst hPlbox
      have hlx : P.left_max
          = (foldFit ((lslice s.build_triangles start n).filter
              (triLeft fbs.1 fbs.2.1)) (vMAX, vMIN)).2 :=
        congrArg Prod.snd hPlbox
      have hrm : P.right_min
          = (foldFit ((lslice s.build_triangles start n).filter
              (fun u => !triLeft fbs.1 fbs.2.1 u)) (vMAX, vMIN)).1 :=
        congrArg Prod.fst hPrbox
      have hrx : P.right_max
          = (foldFit ((lslice s.build_triangles start n).filter
              (fun u => !triLeft fbs.1 fbs.2.1 u)) (vMAX, vMIN)).2 :=
        congrArg Prod.snd hPrbox
      have hfPnn : ∀ u ∈ (lslice s.build_triangles start n).filter
          (triLeft fbs.1 fbs.2.1), u.noNan = true :=
        fun u hu => hA5 u (List.mem_of_mem_filter hu)
      have hfRnn : ∀ u ∈ (lslice s.build_triangles start n).filter
          (fun u => !triLeft fbs.1 fbs.2.1 u), u.noNan = true :=
        fun u hu => hA5 u (List.mem_of_mem_filter hu)
      -- structural master facts for the two recursive calls
      have hML := subdivideGo_master fuel t stats.record_node s.n_nodes start
        P.left_count (d + 1)
        (by rw [htnn, htlen, h1])
        (by rw [htlen]; omega)
        (by rw [htL])
        (by rw [htL])
        (by rw [htbt, hPlen]; omega)
      set r1 := BVH.subdivideGo fuel t stats.record_node s.n_nodes start
        P.left_count (d + 1) with hr1
      obtain ⟨mL1, mL2, mL3, mL4, mL5, mL6, mL7, mL8, mL9, mL10, mL11, mL12⟩ :=
        hML
      have hr1R : r1.1.nodes.getD (s.n_nodes + 1) default
          = { left := 0, right := 0, first := start + P.left_count
              count := n - P.left_count
              aabb_min := P.right_min, aabb_max := P.right_max } := by
        rw [mL3 (s.n_nodes + 1) (by omega) (by omega), htR]
      have hMR := subdivideGo_master fuel r1.1 r1.2 (s.n_nodes + 1)
        (start + P.left_count) (n - P.left_count) (d + 1)
        mL1
        (by have := mL2; omega)
        (by rw [hr1R])
        (by rw [hr1R])
        (by rw [mL9, htbt, hPlen]; omega)
      set r := BVH.subdivideGo fuel r1.1 r1.2 (s.n_nodes + 1)
        (start + P.left_count) (n - P.left_count) (d + 1) with hr
      obtain ⟨mR1, mR2, mR3, mR4, mR5, mR6, mR7, mR8, mR9, mR10, mR11, mR12⟩ :=
        hMR
      -- induction hypotheses of this theorem at the two recursive calls
      have hA5L : ∀ u ∈ lslice t.build_triangles start P.left_count,
          u.noNan = true := by
        intro u hu
        rw [htbt, hleftzone] at hu
        exact hA5 u (List.mem_of_mem_filter hu)
      have hA6L : ∀ u ∈ lslice t.build_triangles start P.left_count,
          boxContainsTri (t.nodes.getD s.n_nodes default).aabb_min
            (t.nodes.getD s.n_nodes default).aabb_max u = true := by
        intro u hu
        rw [htbt, hleftzone] at hu
        rw [htL]
        obtain ⟨f1, f2⟩ := foldFit_mem _ (vMAX, vMIN) vMAX_noNan vMIN_noNan
          hfPnn u hu
        refine (boxContainsTri_iff _ _ _).mpr ⟨?_, ?_⟩
        · show Vec3.fle P.left_min u.min = true
          rw [hlm]; exact f1
        · show Vec3.fle u.max P.left_max = true
          rw [hlx]; exact f2
      have hA7La : Vec3.fle (t.nodes.getD s.n_nodes default).aabb_min
          vMAX = true := by
        rw [htL]
        show Vec3.fle P.left_min vMAX = true
        rw [hlm]
        exact (foldFit_shrink _ (vMAX, vMIN) vMAX_noNan vMIN_noNan hfPnn).1
      have hA7Lb : Vec3.fle vMIN
          (t.nodes.getD s.n_nodes default).aabb_max = true := by
        rw [htL]
        show Vec3.fle vMIN P.left_max = true
        rw [hlx]
        exact (foldFit_shrink _ (vMAX, vMIN) vMAX_noNan vMIN_noNan hfPnn).2.1
      have ihL := ih t stats.record_node s.n_nodes start P.left_count (d + 1)
        (by rw [htnn, htlen, h1])
        (by rw [htlen]; omega)
        (by rw [htL])
        (by rw [htL])
        (by rw [htbt, hPlen]; omega)
        hlc1 hA5L hA6L hA7La hA7Lb
      rw [← hr1] at ihL
      -- the right window of r1 agrees with the partitioned array
      have hrz_eq : lslice r1.1.build_triangles (start + P.left_count)
          (n - P.left_count)
          = lslice P.tris (start + P.left_count) (n - P.left_count) := by
        apply lslice_congr
        · rw [mL9, htbt]
        · intro j' hj1 hj2
          rw [mL10 j' (Or.inr hj1), htbt]
      have hRperm : List.Perm
          (lslice r1.1.build_triangles (start + P.left_count)
            (n - P.left_count))
          ((lslice s.build_triangles start n).filter
            (fun u => !triLeft fbs.1 fbs.2.1 u)) := by
        rw [hrz_eq]
        exact partition_right_perm s.build_triangles fbs.1 fbs.2.1 start n h5
      have hA5R : ∀ u ∈ lslice r1.1.build_triangles (start + P.left_count)
          (n - P.left_count), u.noNan = true :=
        fun u hu => hA5 u (List.mem_of_mem_filter (hRperm.mem_iff.mp hu))
      have hA6R : ∀ u ∈ lslice r1.1.build_triangles (start + P.left_count)
          (n - P.left_count),
          boxContainsTri (r1.1.nodes.getD (s.n_nodes + 1) default).aabb_min
            (r1.1.nodes.getD (s.n_nodes + 1) default).aabb_max u = true := by
        intro u hu
        rw [hr1R]
        obtain ⟨f1, f2⟩ := foldFit_mem _ (vMAX, vMIN) vMAX_noNan vMIN_noNan
          hfRnn u (hRperm.mem_iff.mp hu)
        refine (boxContainsTri_iff _ _ _).mpr ⟨?_, ?_⟩
        · show Vec3.fle P.right_min u.min = true
          rw [hrm]; exact f1
        · show Vec3.fle u.max P.right_max = true
          rw [hrx]; exact f2
      have hA7Ra : Vec3.fle (r1.1.nodes.getD (s.n_nodes + 1) default).aabb_min
          vMAX = true := by
        rw [hr1R]
        show Vec3.fle P.right_min vMAX = true
        rw [hrm]
        exact (foldFit_shrink _ (vMAX, vMIN) vMAX_noNan vMIN_noNan hfRnn).1
      have hA7Rb : Vec3.fle vMIN
          (r1.1.nodes.getD (s.n_nodes + 1) default).aabb_max = true := by
        rw [hr1R]
        show Vec3.fle vMIN P.right_max = true
        rw [hrx]
        exact (foldFit_shrink _ (vMAX, vMIN) vMAX_noNan vMIN_noNan hfRnn).2.1
      have ihR := ih r1.1 r1.2 (s.n_nodes + 1) (start + P.left_count)
        (n - P.left_count) (d + 1)
        mL1
        (by have := mL2; omega)
        (by rw [hr1R])
        (by rw [hr1R])
        (by rw [mL9, htbt, hPlen]; omega)
        (by omega) hA5R hA6R hA7Ra hA7Rb
      rw [← hr] at ihR
      -- final idx node and final child boxes
      have hidxr : r.1.nodes.getD idx default
          = { s.nodes.getD idx default with
              left := s.n_nodes, right := s.n_nodes + 1, count := 0 } := by
        rw [mR3 idx (by omega) (by omega), mL3 idx (by omega) (by omega),
          htidx]
      have hfinLmin : (r.1.nodes.getD s.n_nodes default).aabb_min
          = P.left_min := by
        rw [mR3 s.n_nodes (by omega) (by omega), mL6, htL]
      have hfinLmax : (r.1.nodes.getD s.n_nodes default).aabb_max
          = P.left_max := by
        rw [mR3 s.n_nodes (by omega) (by omega), mL7, htL]
      have hfinRmin : (r.1.nodes.getD (s.n_nodes + 1) default).aabb_min
          = P.right_min := by
        rw [mR6, hr1R]
      have hfinRmax : (r.1.nodes.getD (s.n_nodes + 1) default).aabb_max
          = P.right_max := by
        rw [mR7, hr1R]
      have hboxL : boxContainsBox (s.nodes.getD idx default).aabb_min
          (s.nodes.getD idx default).aabb_max
          (r.1.nodes.getD s.n_nodes default).aabb_min
          (r.1.nodes.getD s.n_nodes default).aabb_max = true := by
        refine (boxContainsBox_iff _ _ _ _).mpr ⟨?_, ?_⟩
        · rw [hfinLmin, hlm]
          refine foldFit_lower _ (vMAX, vMIN) _ hA7a ?_
          intro u hu
          exact ((boxContainsTri_iff _ _ _).mp
            (hA6 u (List.mem_of_mem_filter hu))).1
        · rw [hfinLmax, hlx]
          refine foldFit_upper _ (vMAX, vMIN) _ hA7b ?_
          intro u hu
          exact ((boxContainsTri_iff _ _ _).mp
            (hA6 u (List.mem_of_mem_filter hu))).2
      have hboxR : boxContainsBox (s.nodes.getD idx default).aabb_min
          (s.nodes.getD idx default).aabb_max
          (r.1.nodes.getD (s.n_nodes + 1) default).aabb_min
          (r.1.nodes.getD (s.n_nodes + 1) default).aabb_max = true := by
        refine (boxContainsBox_iff _ _ _ _).mpr ⟨?_, ?_⟩
        · rw [hfinRmin, hrm]
          refine foldFit_lower _ (vMAX, vMIN) _ hA7a ?_
          intro u hu
          exact ((boxContainsTri_iff _ _ _).mp
            (hA6 u (List.mem_of_mem_filter hu))).1
        · rw [hfinRmax, hrx]
          refine foldFit_upper _ (vMAX, vMIN) _ hA7b ?_
          intro u hu
          exact ((boxContainsTri_iff _ _ _).mp
            (hA6 u (List.mem_of_mem_filter hu))).2
      -- assemble the conclusion
      intro j hj hjlt
      by_cases hcidx : j = idx
      · subst hcidx
        refine ⟨⟨?_, ?_⟩, ?_⟩
        · intro hcnt
          exfalso
          apply hcnt
          rw [hidxr]
        · intro h0
          rw [hidxr]
          exact ⟨hboxL, hboxR⟩
        · intro h0
          refine ⟨?_, ?_, ?_⟩
          · rw [hidxr]
            exact Nat.le_of_eq h1.symm
          · rw [hidxr]
          · rw [hidxr]
            show s.n_nodes + 1 < r.1.nodes.length
            omega
      · have hge : s.nodes.length ≤ j := by
          rcases hj with he | hge
          · exact absurd he hcidx
          · exact hge
        by_cases hcR : j = s.n_nodes + 1
        · subst hcR
          obtain ⟨hok, hp⟩ := ihR (s.n_nodes + 1) (Or.inl rfl) hjlt
          refine ⟨hok, fun h0 => ?_⟩
          obtain ⟨p1, p2, p3⟩ := hp h0
          exact ⟨by omega, p2, p3⟩
        · by_cases hcR2 : r1.1.nodes.length ≤ j
          · obtain ⟨hok, hp⟩ := ihR j (Or.inr hcR2) hjlt
            refine ⟨hok, fun h0 => ?_⟩
            obtain ⟨p1, p2, p3⟩ := hp h0
            exact ⟨by omega, p2, p3⟩
          · -- a node touched by the left call: transfer through the right
            have hcase : j = s.n_nodes ∨ t.nodes.length ≤ j := by omega
            have hjr1 : j < r1.1.nodes.length := by omega
            obtain ⟨hOK1, hptr1⟩ := ihL j hcase hjr1
            have hnode : r.1.nodes.getD j default
                = r1.1.nodes.getD j default := mR3 j hjr1 (by omega)
            have hrange : start ≤ (r1.1.nodes.getD j default).first ∧
                (r1.1.nodes.getD j default).first
                  + (r1.1.nodes.getD j default).count
                  ≤ start + P.left_count := by
              rcases hcase with he | hge2
              · subst he
                have f1 : (r1.1.nodes.getD s.n_nodes default).first
                    = start := by rw [mL4, htL]
                have f2 : (r1.1.nodes.getD s.n_nodes default).count
                    ≤ P.left_count := by
                  have h' := mL5
                  rw [htL] at h'
                  exact h'
                omega
              · exact mL12 j hge2 hjr1
            refine ⟨⟨?_, ?_⟩, ?_⟩
            · -- leaf obligation
              intro hcnt i hi1 hi2
              rw [hnode] at hcnt hi1 hi2
              have hbt : r.1.build_triangles.getD i default
                  = r1.1.build_triangles.getD i default :=
                mR10 i (Or.inl (by omega))
              rw [hnode, hbt]
              exact hOK1.1 hcnt i hi1 hi2
            · -- interior obligation
              intro h0
              rw [hnode] at h0
              obtain ⟨p1, p2, p3⟩ := hptr1 h0
              have hcl := mR3 ((r1.1.nodes.getD j default).left)
                (by omega) (by omega)
              have hcr := mR3 ((r1.1.nodes.getD j default).right)
                (by omega) (by omega)
              rw [hnode, hcl, hcr]
              exact hOK1.2 h0
            · -- pointer facts relative to the entry state
              intro h0
              rw [hnode] at h0
              obtain ⟨p1, p2, p3⟩ := hptr1 h0
              rw [hnode]
              refine ⟨by omega, p2, by omega⟩
    · -- rejected split: the node becomes a leaf, state unchanged
      intro j hj hjlt
      rcases hj with he | hge
      · subst he
        refine ⟨NodeOK_of_leaf_cover s j start n h3 h4 h5 hn1 hA6, ?_⟩
        intro h0
        have h0' : (s.nodes.getD j default).count = 0 := h0
        exfalso
        omega
      · exact absurd (show j < s.nodes.length from hjlt) (by omega)

/-- Shape of one `BuildTriangle` construction step: it appends one triangle
whose corner extremes are the min/max of the three vertex positions, and
folds the bounds with exactly that triangle. -/
theorem buildTriStep_shape (v : List Vertex) (idx : List ℕ)
    (acc : List BVHTriangle × Vec3 × Vec3) (i : ℕ) :
    ∃ tr : BVHTriangle,
      (buildTriStep v idx acc i).1 = acc.1 ++ [tr] ∧
      (buildTriStep v idx acc i).2
        = (Vec3.minV acc.2.1 tr.min, Vec3.maxV acc.2.2 tr.max) ∧
      tr.min = Vec3.minV (v.getD (idx.getD (i + 0) 0) default).pos
        (Vec3.minV (v.getD (idx.getD (i + 1) 0) default).pos
          (v.getD (idx.getD (i + 2) 0) default).pos) ∧
      tr.max = Vec3.maxV (v.getD (idx.getD (i + 0) 0) default).pos
        (Vec3.maxV (v.getD (idx.getD (i + 1) 0) default).pos
          (v.getD (idx.getD (i + 2) 0) default).pos) :=
  ⟨_, rfl, rfl, rfl, rfl⟩

/-- The triangle-construction fold appends its new triangles and folds the
root bounds over exactly them. -/
theorem buildTriFold_shape (v : List Vertex) (idx : List ℕ) :
    ∀ (l : List ℕ) (acc : List BVHTriangle × Vec3 × Vec3),
      ∃ new : List BVHTriangle,
        (l.foldl (buildTriStep v idx) acc).1 = acc.1 ++ new ∧
        (l.foldl (buildTriStep v idx) acc).2 = foldFit new acc.2 := by
  intro l
  induction l with
  | nil => intro acc; exact ⟨[], by simp, rfl⟩
  | cons i l ih =>
    intro acc
    obtain ⟨tr, h1, h2, -, -⟩ := buildTriStep_shape v idx acc i
    obtain ⟨new, g1, g2⟩ := ih (buildTriStep v idx acc i)
    refine ⟨tr :: new, ?_, ?_⟩
    · rw [List.foldl_cons, g1, h1, List.append_assoc]
      rfl
    · rw [List.foldl_cons, g2, h2]
      rfl

/-- The root bounds computed by `BVH::build`'s construction loop are the
fold of `fit_bounds` over the produced triangles, from the
`[f32::MAX; 3]` / `[f32::MIN; 3]` seeds. -/
theorem rootState_bounds (v : List Vertex) (idx : List ℕ) :
    (buildTrianglesFold v idx).2
      = foldFit (buildTrianglesFold v idx).1 (vMAX, vMIN) := by
  obtain ⟨new, h1, h2⟩ := buildTriFold_shape v idx
    (List.range' 0 ((idx.length + 2) / 3) 3) ([], vMAX, vMIN)
  rw [buildTrianglesFold, h2, h1, List.nil_append]

/-- Every position read in the construction loop is NaN-free when all
vertex positions are. -/
theorem getD_pos_noNan (v : List Vertex)
    (hv : ∀ u ∈ v, u.pos.noNan = true) (i : ℕ) :
    (v.getD i default).pos.noNan = true := by
  by_cases h : i < v.length
  · rw [List.getD_eq_getElem _ _ h]
    exact hv _ (List.getElem_mem h)
  · rw [List.getD_eq_default _ _ (by omega)]
    decide

/-- All constructed `BuildTriangle`s are NaN-free when all vertex positions
are. -/
theorem buildTriFold_noNan (v : List Vertex) (idx : List ℕ)
    (hv : ∀ u ∈ v, u.pos.noNan = true) :
    ∀ (l : List ℕ) (acc : List BVHTriangle × Vec3 × Vec3),
      (∀ tr ∈ acc.1, tr.noNan = true) →
      ∀ tr ∈ (l.foldl (buildTriStep v idx) acc).1, tr.noNan = true := by
  intro l
  induction l with
  | nil => intro acc hacc tr htr; exact hacc tr htr
  | cons i l ih =>
    intro acc hacc tr htr
    obtain ⟨tr0, h1, -, hmin, hmax⟩ := buildTriStep_shape v idx acc i
    refine ih (buildTriStep v idx acc i) ?_ tr htr
    intro u hu
    rw [h1] at hu
    rcases List.mem_append.mp hu with hm | hm
    · exact hacc u hm
    · have he : u = tr0 := by simpa using hm
      subst he
      refine (triangle_noNan_iff u).mpr ⟨?_, ?_⟩
      · rw [hmin]
        exact Vec3.minV_noNan _ _ (getD_pos_noNan v hv _)
          (Vec3.minV_noNan _ _ (getD_pos_noNan v hv _) (getD_pos_noNan v hv _))
      · rw [hmax]
        exact Vec3.maxV_noNan _ _ (getD_pos_noNan v hv _)
          (Vec3.maxV_noNan _ _ (getD_pos_noNan v hv _) (getD_pos_noNan v hv _))

/-- NaN-freeness of the whole constructed triangle array. -/
theorem buildTriangles_noNan (v : List Vertex) (idx : List ℕ)
    (hv : ∀ u ∈ v, u.pos.noNan = true) :
    ∀ tr ∈ (buildTrianglesFold v idx).1, tr.noNan = true := by
  intro tr htr
  exact buildTriFold_noNan v idx hv _ ([], vMAX, vMIN)
    (by intro u hu; exact absurd hu (List.not_mem_nil u)) tr htr

/-- The full-array slice is the array. -/
theorem lslice_all {α : Type} (l : List α) : lslice l 0 l.length = l := by
  simp [lslice]

/-- `subdivide` form of the bounding-invariant master theorem. -/
theorem subdivide_boxes (s : BVH) (stats : BVHStats) (idx start n d : ℕ)
    (h1 : s.n_nodes = s.nodes.length) (h2 : idx < s.nodes.length)
    (h3 : (s.nodes.getD idx default).first = start)
    (h4 : (s.nodes.getD idx default).count = n)
    (h5 : start + n ≤ s.build_triangles.length)
    (hn1 : 1 ≤ n)
    (hA5 : ∀ t ∈ lslice s.build_triangles start n, t.noNan = true)
    (hA6 : ∀ t ∈ lslice s.build_triangles start n,
      boxContainsTri (s.nodes.getD idx default).aabb_min
        (s.nodes.getD idx default).aabb_max t = true)
    (hA7a : Vec3.fle (s.nodes.getD idx default).aabb_min vMAX = true)
    (hA7b : Vec3.fle vMIN (s.nodes.getD idx default).aabb_max = true) :
    ∀ j, (j = idx ∨ s.nodes.length ≤ j) →
      j < (s.subdivide stats idx start n d).1.nodes.length →
      NodeOK (s.subdivide stats idx start n d).1 j :=
  fun j hj hjlt =>
    (subdivideGo_boxes _ s stats idx start n d h1 h2 h3 h4 h5 hn1 hA5 hA6
      hA7a hA7b j hj hjlt).1

/-- The root call of `subdivide` made by `BVH::build` leaves every touched
node (root and all appended nodes) satisfying the bounding invariant. -/
theorem build_sub_boxes (v : List Vertex) (idx : List ℕ) (q : Quality)
    (stats : BVHStats) (h0 : ¬ idx.length / 3 = 0)
    (hm : idx.length % 3 = 0)
    (hv : ∀ u ∈ v, u.pos.noNan = true) :
    ∀ j, (j = 0 ∨ (rootState v idx q).nodes.length ≤ j) →
      j < ((rootState v idx q).subdivide stats 0 0
          (rootState v idx q).build_triangles.length 0).1.nodes.length →
      NodeOK ((rootState v idx q).subdivide stats 0 0
          (rootState v idx q).build_triangles.length 0).1 j := by
  have hflen : (buildTrianglesFold v idx).1.length = (idx.length + 2) / 3 :=
    buildTrianglesFold_length v idx
  have htrinn := buildTriangles_noNan v idx hv
  have hbm : (buildTrianglesFold v idx).2.1
      = (foldFit (buildTrianglesFold v idx).1 (vMAX, vMIN)).1 :=
    congrArg Prod.fst (rootState_bounds v idx)
  have hbx : (buildTrianglesFold v idx).2.2
      = (foldFit (buildTrianglesFold v idx).1 (vMAX, vMIN)).2 :=
    congrArg Prod.snd (rootState_bounds v idx)
  have hwin : lslice (rootState v idx q).build_triangles 0
      ((rootState v idx q).build_triangles.length)
      = (buildTrianglesFold v idx).1 := by
    rw [show (rootState v idx q).build_triangles
        = (buildTrianglesFold v idx).1 from rfl, lslice_all]
  have hlen1 : (rootState v idx q).nodes.length = 1 := rfl
  refine subdivide_boxes (rootState v idx q) stats 0 0
    ((rootState v idx q).build_triangles.length) 0
    rfl (by omega) rfl
    (by
      show idx.length / 3 = (buildTrianglesFold v idx).1.length
      omega)
    (by
      show 0 + (buildTrianglesFold v idx).1.length
        ≤ (buildTrianglesFold v idx).1.length
      omega)
    (by
      show 1 ≤ (buildTrianglesFold v idx).1.length
      omega)
    ?_ ?_ ?_ ?_
  · intro u hu
    rw [hwin] at hu
    exact htrinn u hu
  · intro u hu
    rw [hwin] at hu
    obtain ⟨f1, f2⟩ := foldFit_mem _ (vMAX, vMIN) vMAX_noNan vMIN_noNan
      htrinn u hu
    refine (boxContainsTri_iff _ _ _).mpr ⟨?_, ?_⟩
    · show Vec3.fle (buildTrianglesFold v idx).2.1 u.min = true
      rw [hbm]; exact f1
    · show Vec3.fle u.max (buildTrianglesFold v idx).2.2 = true
      rw [hbx]; exact f2
  · show Vec3.fle (buildTrianglesFold v idx).2.1 vMAX = true
    rw [hbm]
    exact (foldFit_shrink _ (vMAX, vMIN) vMAX_noNan vMIN_noNan htrinn).1
  · show Vec3.fle vMIN (buildTrianglesFold v idx).2.2 = true
    rw [hbx]
    exact (foldFit_shrink _ (vMAX, vMIN) vMAX_noNan vMIN_noNan htrinn).2.1

/-- Claim C8 (with a no-NaN hypothesis on the vertex positions, and
well-formed geometry `indices.len() % 3 = 0`): in a completed build, every
node satisfies the bounding invariant — an interior node's AABB contains
the AABBs of both its children, and a leaf's AABB contains the `min`/`max`
corner extremes of every triangle in its `[first, first + count)` range. -/
theorem claim_c8 (v : List Vertex) (idx : List ℕ) (q : Quality)
    (stats : BVHStats) (hm : idx.length % 3 = 0)
    (hv : ∀ u ∈ v, u.pos.noNan = true) :
    ∀ j, j < (BVH.build v idx q stats).1.nodes.length →
      NodeOK (BVH.build v idx q stats).1 j := by
  by_cases h0 : idx.length / 3 = 0
  · rw [BVH.build, if_pos h0]
    intro j hj
    exact absurd (show j < 0 from hj) (Nat.not_lt_zero j)
  · rw [BVH.build, if_neg h0]
    cases q with
    | Disabled =>
      intro j hj
      have hj1 : j < 1 := hj
      have hj0 : j = 0 := by omega
      subst hj0
      have hflen : (buildTrianglesFold v idx).1.length = (idx.length + 2) / 3 :=
        buildTrianglesFold_length v idx
      have htrinn := buildTriangles_noNan v idx hv
      have hbm : (buildTrianglesFold v idx).2.1
          = (foldFit (buildTrianglesFold v idx).1 (vMAX, vMIN)).1 :=
        congrArg Prod.fst (rootState_bounds v idx)
      have hbx : (buildTrianglesFold v idx).2.2
          = (foldFit (buildTrianglesFold v idx).1 (vMAX, vMIN)).2 :=
        congrArg Prod.snd (rootState_bounds v idx)
      have hwin : lslice (rootState v idx Quality.Disabled).build_triangles 0
          (idx.length / 3) = (buildTrianglesFold v idx).1 := by
        rw [show (rootState v idx Quality.Disabled).build_triangles
            = (buildTrianglesFold v idx).1 from rfl,
          show idx.length / 3 = (buildTrianglesFold v idx).1.length by omega,
          lslice_all]
      refine NodeOK_of_leaf_cover (rootState v idx Quality.Disabled) 0 0
        (idx.length / 3) rfl rfl ?_ (by omega) ?_
      · show 0 + idx.length / 3 ≤ (buildTrianglesFold v idx).1.length
        omega
      · intro u hu
        rw [hwin] at hu
        obtain ⟨f1, f2⟩ := foldFit_mem _ (vMAX, vMIN) vMAX_noNan vMIN_noNan
          htrinn u hu
        refine (boxContainsTri_iff _ _ _).mpr ⟨?_, ?_⟩
        · show Vec3.fle (buildTrianglesFold v idx).2.1 u.min = true
          rw [hbm]; exact f1
        · show Vec3.fle u.max (buildTrianglesFold v idx).2.2 = true
          rw [hbx]; exact f2
    | Low =>
      intro j hj
      refine build_sub_boxes v idx Quality.Low stats h0 hm hv j ?_ hj
      have hlen1 : (rootState v idx Quality.Low).nodes.length = 1 := rfl
      omega
    | High =>
      intro j hj
      refine build_sub_boxes v idx Quality.High stats h0 hm hv j ?_ hj
      have hlen1 : (rootState v idx Quality.High).nodes.length = 1 := rfl
      omega

/-- Witness for C8 at the two-triangle Low-quality build. -/
theorem claim_c8_witness :
    (exIdx.length % 3 = 0 ∧ (∀ u ∈ exVerts, u.pos.noNan = true)) ∧
    (∀ j, j < (BVH.build exVerts exIdx Quality.Low BVHStats.start).1.nodes.length →
      NodeOK (BVH.build exVerts exIdx Quality.Low BVHStats.start).1 j) :=
  ⟨⟨by decide, by decide⟩,
    claim_c8 exVerts exIdx Quality.Low BVHStats.start (by decide) (by decide)⟩

/-- Supporting theorem for C5 (a code bug): the builder has no capacity
check at all — `MAX_NODES` is declared but never compared against
`n_nodes` (the source carries a `// TODO: Handle this case` at the point
where the check belongs), and the embedded `subdivide` has no error path.
Even from a state whose node count already exceeds `MAX_NODES`, an
accepted split appends two more nodes and returns normally instead of
failing. -/
theorem claim_c5 (s : BVH) (stats : BVHStats) (idx st n d : ℕ)
    (hcap : BVH.MAX_NODES < s.n_nodes)
    (hacc : F.lt (s.find_best_split (s.nodes.getD idx default) 0 (F.fin 0)
        st n).2.2 (s.nodes.getD idx default).cost = true ∧ d < BVH.MAX_DEPTH) :
    s.n_nodes + 2 ≤ (s.subdivide stats idx st n d).1.n_nodes ∧
    BVH.MAX_NODES < (s.subdivide stats idx st n d).1.n_nodes := by
  have h := subdivide_accept_n_nodes s stats idx st n d hacc
  exact ⟨h, by omega⟩

/-- Witness for the C5 supporting theorem: the two-triangle root state with
its node counter already past `MAX_NODES`. -/
theorem claim_c5_witness :
    (BVH.MAX_NODES < ({ exRootBVH with n_nodes := 520001 } : BVH).n_nodes ∧
      (F.lt (({ exRootBVH with n_nodes := 520001 } : BVH).find_best_split
          (({ exRootBVH with n_nodes := 520001 } : BVH).nodes.getD 0 default)
          0 (F.fin 0) 0 2).2.2
        (({ exRootBVH with n_nodes := 520001 } : BVH).nodes.getD 0
          default).cost = true ∧ 0 < BVH.MAX_DEPTH)) ∧
    BVH.MAX_NODES
      < (({ exRootBVH with n_nodes := 520001 } : BVH).subdivide
          BVHStats.start 0 0 2 0).1.n_nodes :=
  ⟨⟨by decide, by decide, by decide⟩,
    (claim_c5 { exRootBVH with n_nodes := 520001 } BVHStats.start 0 0 2 0
      (by decide) ⟨by decide, by decide⟩).2⟩

/-!
Per-step facts about the `build_per_mesh` loop, toward claim C7.
-/

/-- Appending cache entries preserves existing lookups. -/
theorem lookupFind_append_of_some (l l2 : List (String × ℕ × ℕ)) (k : String)
    (v : ℕ × ℕ) (h : lookupFind l k = some v) :
    lookupFind (l ++ l2) k = some v := by
  rw [lookupFind] at h ⊢
  rw [List.find?_append]
  obtain ⟨e, he, hev⟩ := Option.map_eq_some'.mp h
  rw [he]
  simpa using hev

/-- A fresh cache entry is found after insertion. -/
theorem lookupFind_append_self (l : List (String × ℕ × ℕ)) (k : String)
    (a b : ℕ) (h : lookupFind l k = none) :
    lookupFind (l ++ [(k, a, b)]) k = some (a, b) := by
  rw [lookupFind] at h ⊢
  rw [List.find?_append]
  have h0 : l.find? (fun e => e.1 == k) = none := by
    cases hf : l.find? (fun e => e.1 == k) with
    | none => rfl
    | some e => rw [hf] at h; simp at h
  rw [h0]
  simp

/-- Shape of one `build_per_mesh` iteration: the instance's key is cached
afterwards, exactly one `MeshUniform` carrying the cached offsets is
emitted, and existing cache entries persist. -/
theorem bpmStep_shape (q : Quality) (st : BPMState) (e : ℕ × MeshInstance) :
    ∃ off : ℕ × ℕ,
      lookupFind (bpmStep q st e).lookup (instKey e.1 e.2) = some off ∧
      (bpmStep q st e).data.mesh_uniforms
        = st.data.mesh_uniforms ++
          [{ world_to_model := (e.2.transform.to_matrix).inverse
             model_to_world := e.2.transform.to_matrix
             node_offset := off.1
             triangles := e.2.mesh.indices.length / 3
             triangle_offset := off.2
             _p1 := F.fin 0
             material := e.2.material }] ∧
      (∀ k v, lookupFind st.lookup k = some v →
        lookupFind (bpmStep q st e).lookup k = some v) := by
  rw [bpmStep]
  by_cases hhit : (lookupFind st.lookup (instKey e.1 e.2)).isSome = true
  · rw [if_pos hhit]
    obtain ⟨v, hv⟩ := Option.isSome_iff_exists.mp hhit
    refine ⟨v, hv, ?_, fun k v' hv' => hv'⟩
    rw [hv]
    rfl
  · rw [if_neg hhit]
    have hnone : lookupFind st.lookup (instKey e.1 e.2) = none :=
      Option.not_isSome_iff_eq_none.mp hhit
    have hins := lookupFind_append_self st.lookup (instKey e.1 e.2)
      st.data.nodes.length st.data.triangles.length hnone
    refine ⟨(st.data.nodes.length, st.data.triangles.length), hins, ?_, ?_⟩
    · show st.data.mesh_uniforms ++ _ = _
      rw [hins]
      rfl
    · intro k v' hv'
      exact lookupFind_append_of_some st.lookup _ k v' hv'

/-- On a cache hit, the loop appends no nodes and no triangles (the
geometry is not rebuilt). -/
theorem bpmStep_hit (q : Quality) (st : BPMState) (e : ℕ × MeshInstance)
    (h : (lookupFind st.lookup (instKey e.1 e.2)).isSome = true) :
    (bpmStep q st e).data.nodes = st.data.nodes ∧
    (bpmStep q st e).data.triangles = st.data.triangles ∧
    (bpmStep q st e).lookup = st.lookup := by
  rw [bpmStep, if_pos h]
  exact ⟨rfl, rfl, rfl⟩

/-- Fold invariant of the `build_per_mesh` loop: one uniform is emitted per
instance, earlier uniforms and cache entries persist, and each emitted
uniform's offsets are exactly the final cached offsets of that instance's
key (with its triangle count derived from its own mesh). -/
theorem bpm_fold (q : Quality) :
    ∀ (l : List (ℕ × MeshInstance)) (st : BPMState),
      (l.foldl (bpmStep q) st).data.mesh_uniforms.length
          = st.data.mesh_uniforms.length + l.length ∧
      (∀ k v, lookupFind st.lookup k = some v →
        lookupFind (l.foldl (bpmStep q) st).lookup k = some v) ∧
      (∀ p, p < st.data.mesh_uniforms.length →
        (l.foldl (bpmStep q) st).data.mesh_uniforms.getD p default
          = st.data.mesh_uniforms.getD p default) ∧
      (∀ p, p < l.length →
        ∃ off : ℕ × ℕ,
          lookupFind (l.foldl (bpmStep q) st).lookup
            (instKey (l.getD p default).1 (l.getD p default).2) = some off ∧
          ((l.foldl (bpmStep q) st).data.mesh_uniforms.getD
              (st.data.mesh_uniforms.length + p) default).node_offset
            = off.1 ∧
          ((l.foldl (bpmStep q) st).data.mesh_uniforms.getD
              (st.data.mesh_uniforms.length + p) default).triangle_offset
            = off.2 ∧
          ((l.foldl (bpmStep q) st).data.mesh_uniforms.getD
              (st.data.mesh_uniforms.length + p) default).triangles
            = (l.getD p default).2.mesh.indices.length / 3) := by
  intro l
  induction l with
  | nil =>
    intro st
    exact ⟨by simp, fun k v hv => hv, fun p hp => rfl,
      fun p hp => absurd hp (by simp)⟩
  | cons e l ih =>
    intro st
    obtain ⟨off0, hoff0, huni0, hpers0⟩ := bpmStep_shape q st e
    obtain ⟨ih1, ih2, ih3, ih4⟩ := ih (bpmStep q st e)
    rw [List.foldl_cons]
    refine ⟨?_, ?_, ?_, ?_⟩
    · rw [ih1, huni0]
      simp
      omega
    · intro k v hv
      exact ih2 k v (hpers0 k v hv)
    · intro p hp
      rw [ih3 p (by rw [huni0]; simp only [List.length_append]; omega),
        huni0, getD_append_left _ _ _ hp]
    · intro p hp
      cases p with
      | zero =>
        have hidx0 : st.data.mesh_uniforms.length + 0
            < (bpmStep q st e).data.mesh_uniforms.length := by
          rw [huni0]
          simp
        have hval : (l.foldl (bpmStep q)
              (bpmStep q st e)).data.mesh_uniforms.getD
              (st.data.mesh_uniforms.length + 0) default
            = { world_to_model := (e.2.transform.to_matrix).inverse
                model_to_world := e.2.transform.to_matrix
                node_offset := off0.1
                triangles := e.2.mesh.indices.length / 3
                triangle_offset := off0.2
                _p1 := F.fin 0
                material := e.2.material } := by
          rw [ih3 _ hidx0, huni0,
            getD_append_right _ _ _ (by omega), Nat.add_zero, Nat.sub_self,
            List.getD_cons_zero]
        refine ⟨off0, ?_, ?_, ?_, ?_⟩
        · rw [List.getD_cons_zero]
          exact ih2 _ off0 hoff0
        · rw [hval]
        · rw [hval]
        · rw [hval, List.getD_cons_zero]
      | succ p =>
        obtain ⟨off, ho, o1, o2, o3⟩ := ih4 p (by
          have : p + 1 < l.length + 1 := by simpa using hp
          omega)
        have hidx : st.data.mesh_uniforms.length + (p + 1)
            = (bpmStep q st e).data.mesh_uniforms.length + p := by
          rw [huni0]
          simp
          omega
        refine ⟨off, ?_, ?_, ?_, ?_⟩
        · rw [List.getD_cons_succ]
          exact ho
        · rw [hidx]
          exact o1
        · rw [hidx]
          exact o2
        · rw [hidx, List.getD_cons_succ]
          exact o3

/-- Claim C7 (amended): the per-mesh cache is keyed by the instance label —
or the instance index rendered as a string when unlabeled — not by
geometry.  Any two instances with the same cache key emit `MeshUniform`s
with bit-identical `node_offset` and `triangle_offset`; their `triangles`
counts also agree whenever they share the same mesh; and on a cache hit the
loop appends no nodes and no triangles, so each key's geometry is built at
most once.  (The original geometry-keyed reading — shared geometry built
once, distinct geometries disjoint — is refuted by
`claim_c7_counterexample`.) -/
theorem claim_c7 (meshes : List MeshInstance) (q : Quality) (i1 i2 : ℕ)
    (h1 : i1 < meshes.length) (h2 : i2 < meshes.length)
    (hkey : instKey i1 (meshes.getD i1 default)
      = instKey i2 (meshes.getD i2 default)) :
    (((BVH.build_per_mesh meshes q).mesh_uniforms.getD i1
          default).node_offset
        = ((BVH.build_per_mesh meshes q).mesh_uniforms.getD i2
            default).node_offset ∧
      ((BVH.build_per_mesh meshes q).mesh_uniforms.getD i1
          default).triangle_offset
        = ((BVH.build_per_mesh meshes q).mesh_uniforms.getD i2
            default).triangle_offset ∧
      ((meshes.getD i1 default).mesh = (meshes.getD i2 default).mesh →
        ((BVH.build_per_mesh meshes q).mesh_uniforms.getD i1
            default).triangles
          = ((BVH.build_per_mesh meshes q).mesh_uniforms.getD i2
              default).triangles)) ∧
    (∀ (st : BPMState) (e : ℕ × MeshInstance),
      (lookupFind st.lookup (instKey e.1 e.2)).isSome = true →
      (bpmStep q st e).data.nodes = st.data.nodes ∧
      (bpmStep q st e).data.triangles = st.data.triangles) := by
  refine ⟨?_,
    fun st e h => ⟨(bpmStep_hit q st e h).1, (bpmStep_hit q st e h).2.1⟩⟩
  obtain ⟨f1, f2, f3, f4⟩ := bpm_fold q meshes.enum
    ⟨MeshDataList.empty, [], BVHStats.start⟩
  have hel : meshes.enum.length = meshes.length := List.enum_length
  have he1 : meshes.enum.getD i1 default = (i1, meshes.getD i1 default) := by
    rw [List.getD_eq_getElem _ _ (show i1 < meshes.enum.length by omega),
      List.getElem_enum, List.getD_eq_getElem _ _ h1]
  have he2 : meshes.enum.getD i2 default = (i2, meshes.getD i2 default) := by
    rw [List.getD_eq_getElem _ _ (show i2 < meshes.enum.length by omega),
      List.getElem_enum, List.getD_eq_getElem _ _ h2]
  obtain ⟨off1, ho1, a1, a2, a3⟩ := f4 i1 (by omega)
  obtain ⟨off2, ho2, b1, b2, b3⟩ := f4 i2 (by omega)
  rw [he1] at ho1 a3
  rw [he2] at ho2 b3
  have hoe : off1 = off2 := by
    rw [hkey] at ho1
    rw [ho1] at ho2
    exact Option.some.inj ho2
  have hi1' : (⟨MeshDataList.empty, [], BVHStats.start⟩ :
      BPMState).data.mesh_uniforms.length + i1 = i1 := by
    show 0 + i1 = i1
    omega
  have hi2' : (⟨MeshDataList.empty, [], BVHStats.start⟩ :
      BPMState).data.mesh_uniforms.length + i2 = i2 := by
    show 0 + i2 = i2
    omega
  rw [hi1'] at a1 a2 a3
  rw [hi2'] at b1 b2 b3
  have hbpm : BVH.build_per_mesh meshes q
      = (meshes.enum.foldl (bpmStep q)
          ⟨MeshDataList.empty, [], BVHStats.start⟩).data := rfl
  refine ⟨?_, ?_, ?_⟩
  · rw [hbpm, a1, b1, hoe]
  · rw [hbpm, a2, b2, hoe]
  · intro hmesh
    rw [hbpm, a3, b3, hmesh]

/-- Witness for the amended C7 at the example scene: instances 2 and 3
share the label `"x"`. -/
theorem claim_c7_witness :
    (2 < exScene.length ∧ 3 < exScene.length ∧
      instKey 2 (exScene.getD 2 default) = instKey 3 (exScene.getD 3 default)) ∧
    ((BVH.build_per_mesh exScene Quality.Low).mesh_uniforms.getD 2
        default).node_offset
      = ((BVH.build_per_mesh exScene Quality.Low).mesh_uniforms.getD 3
          default).node_offset ∧
    ((BVH.build_per_mesh exScene Quality.Low).mesh_uniforms.getD 2
        default).triangle_offset
      = ((BVH.build_per_mesh exScene Quality.Low).mesh_uniforms.getD 3
          default).triangle_offset :=
  ⟨⟨by decide, by decide, by decide⟩,
    ((claim_c7 exScene Quality.Low 2 3 (by decide) (by decide)
      (by decide)).1).1,
    ((claim_c7 exScene Quality.Low 2 3 (by decide) (by decide)
      (by decide)).1).2.1⟩
